import Mathlib

/-!
# PulseView tabular decoder view: annotation model

A shallow embedding of `pv/views/tabular_decoder/model.cpp` (class
`AnnotationCollectionModel`) and, from `pv/views/tabular_decoder/view.cpp`,
of the range filter (class `CustomFilterProxyModel`) and of the class
visibility, update and CSV export paths of class `View`.

Conventions of the embedding:

* a C++ pointer is an `Option`: `none` is `nullptr`;
* a `deque<const Annotation*>` is a `List`; the shared log holds live
  records only, the model's own `visible_annotations_` may hold null slots
  (they come from `resize`);
* `uint64_t`/`uint32_t` values are natural numbers, `int64_t` and `int` are
  integers; a conversion that can change the value is written out
  (`toInt64`, the packing of `AnnotationClassId`);
* sizes and row numbers are taken to stay in the range of their C++ types
  (a deque has fewer than 2^31 entries, so `count + 100` and `row + 1` do
  not wrap);
* the state functions do not run the lock on `output_mutex_`: every function
  is one atomic step, and the producer appends between steps; where the lock
  matters, the accesses a method makes to the log and to the lock are listed
  in program order by a function of their own (`LogEvent`);
* a `QString` is a list of characters;
* Qt signal emissions (`layoutAboutToBeChanged`, `layoutChanged`,
  `dataChanged`) do not change the state of the model and are left out,
  except the `dataChanged` of `update_highlighted_rows`, which is returned
  as a flag.
-/

namespace pv.views.tabular_decoder

/-! ## Data model -/

/-- One decoded annotation, reduced to the members the model reads:
`start_sample()`, `end_sample()` (both `uint64_t`),
`row()->decoder()->get_stack_level()` and `ann_class_id()`. -/
structure Annotation where
  start_sample : Nat
  end_sample : Nat
  stack_level : Nat
  ann_class_id : Nat
deriving DecidableEq, Repr

/-- The two 32-bit members of the anonymous struct of `union AnnotationClassId`. -/
structure AnnotationClassId where
  dec_stack_level : Nat
  ann_id : Nat
deriving DecidableEq, Repr

/-- The 64-bit member `id` of the union, which overlays the two 32-bit members
(`dec_stack_level` in the low half, `ann_id` in the high half, as laid out on
the little-endian targets PulseView is built for). -/
def AnnotationClassId.id (k : AnnotationClassId) : Nat :=
  k.dec_stack_level % 2 ^ 32 + 2 ^ 32 * (k.ann_id % 2 ^ 32)

/-- The key that `update_visible_annotations` builds for a record:
`AnnotationClassId id {{get_stack_level(), ann_class_id()}}`, read back as `id.id`. -/
def Annotation.class_key (ann : Annotation) : Nat :=
  AnnotationClassId.id ⟨ann.stack_level, ann.ann_class_id⟩

/-- Modelled from the spec: an annotation class of the decode-metadata tree
(`pv::data::decode::AnnotationClass`, not among the sources), with the two
members the view reads, `id` and `visible()`. -/
structure AnnotationClass where
  id : Nat
  visible : Bool
deriving DecidableEq, Repr

/-- Modelled from the spec: an annotation row of the decode-metadata tree
(`pv::data::decode::Row`, not among the sources), with `visible()` and
`ann_classes()`. -/
structure Row where
  visible : Bool
  ann_classes : List AnnotationClass
deriving DecidableEq, Repr

/-- Modelled from the spec: a decoder of the decode-metadata tree
(`pv::data::decode::Decoder`, not among the sources), with
`get_stack_level()`, `visible()` and `get_rows()`. -/
structure Decoder where
  get_stack_level : Nat
  visible : Bool
  get_rows : List Row
deriving DecidableEq, Repr

/-- The part of `data::DecodeSignal` the model and the view use. The class
itself is not among the sources; its two accessors are taken as given:
`get_all_annotations_by_segment` (a null result is `none`) and
`decoder_stack()`. -/
structure DecodeSignal where
  get_all_annotations_by_segment : Nat → Option (List Annotation)
  decoder_stack : List Decoder

/-- The value of `decoder_stack().size()`. -/
def DecodeSignal.decoder_stack_size (sig : DecodeSignal) : Nat :=
  sig.decoder_stack.length

/-- The data members of `AnnotationCollectionModel` (header data and the
first hidden column are constants of the constructor and are kept apart).
`all_annotations_` is the current contents of the deque the pointer refers
to; `output_mutex_` says whether the mutex pointer is non-null. -/
structure AnnotationCollectionModel where
  all_annotations_ : Option (List Annotation)
  visible_annotations_ : List (Option Annotation)
  signal_ : Option DecodeSignal
  prev_segment_ : Nat
  prev_last_row_ : Nat
  prev_last_row_index_ : Nat
  highlight_sample_num_ : Int
  had_highlight_before_ : Bool
  visible_ann_class_ids_ : Finset Nat
  output_mutex_ : Bool

/-- The constructor. `highlight_sample_num_` is not in the member
initialiser list, so its first value is whatever the memory held: it is an
argument here. -/
def AnnotationCollectionModel.construct (highlight_sample_num : Int) :
    AnnotationCollectionModel :=
  { all_annotations_ := none
    visible_annotations_ := []
    signal_ := none
    prev_segment_ := 0
    prev_last_row_ := 0
    prev_last_row_index_ := 0
    highlight_sample_num_ := highlight_sample_num
    had_highlight_before_ := false
    visible_ann_class_ids_ := ∅
    output_mutex_ := false }

/-- The producer side: the decoder appends one record at the tail of the
log the model points to (nothing happens to a model without a log). -/
def AnnotationCollectionModel.append_to_log (m : AnnotationCollectionModel)
    (ann : Annotation) : AnnotationCollectionModel :=
  { m with all_annotations_ := m.all_annotations_.map (fun log => log ++ [ann]) }

/-! ## The incremental visibility indexer -/

/-- The call `deque::resize(n)` on a deque of pointers: cut to `n` entries,
or fill up to `n` entries with null pointers. -/
def deque_resize (d : List (Option Annotation)) (n : Nat) : List (Option Annotation) :=
  d.take n ++ List.replicate (n - d.length) none

/-- The locals and members the `for` loop of `update_visible_annotations`
writes. -/
structure ScanState where
  visible_annotations_ : List (Option Annotation)
  count : Nat
  prev_last_row_index_ : Nat
  processed : Nat
deriving DecidableEq, Repr

/-- One pass through the body of the `for` loop, for the entry `ann` at
index `i`. -/
def scan_body (ids : Finset Nat) (ann : Annotation) (i : Nat) (s : ScanState) : ScanState :=
  if ann.class_key ∉ ids then
    s
  else
    let grown :=
      if s.visible_annotations_.length < s.count + 100 then
        deque_resize s.visible_annotations_ (s.count + 100)
      else s.visible_annotations_
    { visible_annotations_ := grown.set s.count (some ann)
      count := s.count + 1
      prev_last_row_index_ := i
      processed := s.processed + 1 }

/-- The loop `for (i = prev_last_row_index_; i < all_annotations_->size(); i++)`:
the entries still to visit are passed as a list (the log from index `i` on),
the index `i` is carried along. -/
def scan_loop (ids : Finset Nat) : List Annotation → Nat → ScanState → ScanState
  | [], _, s => s
  | ann :: rest, i, s => scan_loop ids rest (i + 1) (scan_body ids ann i s)

/-- The method `update_visible_annotations`. -/
def update_visible_annotations (m : AnnotationCollectionModel) : AnnotationCollectionModel :=
  let count := m.visible_annotations_.length
  match m.output_mutex_, m.all_annotations_ with
  | true, some log =>
    if log.isEmpty then
      { m with visible_annotations_ := [] }
    else
      let s := scan_loop m.visible_ann_class_ids_ (log.drop m.prev_last_row_index_)
        m.prev_last_row_index_ ⟨m.visible_annotations_, count, m.prev_last_row_index_, 0⟩
      { m with
        visible_annotations_ := deque_resize s.visible_annotations_ s.count
        prev_last_row_index_ := s.prev_last_row_index_ }
  | _, _ => { m with visible_annotations_ := [] }

/-- The method `update_data`. -/
def update_data (m : AnnotationCollectionModel) : AnnotationCollectionModel :=
  let m1 := update_visible_annotations m
  if m1.visible_annotations_.isEmpty then
    m1
  else
    { m1 with prev_last_row_ := m1.visible_annotations_.length - 1 }

/-- The method `set_visible_classes`. -/
def set_visible_classes (m : AnnotationCollectionModel) (ann_class_ids : Finset Nat) :
    AnnotationCollectionModel :=
  if ann_class_ids = m.visible_ann_class_ids_ then
    m
  else
    update_data { m with
      visible_ann_class_ids_ := ann_class_ids
      prev_last_row_ := 0
      prev_last_row_index_ := 0
      visible_annotations_ := [] }

/-- The method `set_signal_and_segment`. -/
def set_signal_and_segment (m : AnnotationCollectionModel) (signal : Option DecodeSignal)
    (current_segment : Nat) : AnnotationCollectionModel :=
  match signal with
  | none =>
    { m with all_annotations_ := none, visible_annotations_ := [], signal_ := none }
  | some sig =>
    let m1 := update_data { m with
      all_annotations_ := sig.get_all_annotations_by_segment current_segment
      output_mutex_ := true
      signal_ := some sig
      prev_last_row_ := 0
      prev_last_row_index_ := 0
      visible_annotations_ := [] }
    { m1 with prev_segment_ := current_segment }

/-- The filter of the specification: the records of the log whose key is in
the visible-class set, in log order, as the pointers the model stores. -/
def visible_filter (ids : Finset Nat) (log : List Annotation) : List (Option Annotation) :=
  (log.filter (fun r => decide (r.class_key ∈ ids))).map some

/-- The states the model can be in: those reached from construction by log
appends of the producer and by calls of `update_data`, `set_visible_classes`
and `set_signal_and_segment`. -/
inductive Reachable : AnnotationCollectionModel → Prop
  | construct (h : Int) : Reachable (AnnotationCollectionModel.construct h)
  | append_to_log {m : AnnotationCollectionModel} (ann : Annotation) :
      Reachable m → Reachable (m.append_to_log ann)
  | update_data {m : AnnotationCollectionModel} : Reachable m → Reachable (update_data m)
  | set_visible_classes {m : AnnotationCollectionModel} (ids : Finset Nat) :
      Reachable m → Reachable (set_visible_classes m ids)
  | set_signal_and_segment {m : AnnotationCollectionModel} (signal : Option DecodeSignal)
      (segment : Nat) : Reachable m → Reachable (set_signal_and_segment m signal segment)

/-- The values of `i` for which the body of the `for` loop of
`update_visible_annotations` runs in state `m`: from `prev_last_row_index_`
up to the size of the log, when the two early returns are not taken. -/
def examined_indices (m : AnnotationCollectionModel) : List Nat :=
  match m.output_mutex_, m.all_annotations_ with
  | true, some log =>
    if log.isEmpty then []
    else List.range' m.prev_last_row_index_ (log.length - m.prev_last_row_index_)
  | _, _ => []

/-! ## Model indices -/

/-- A `QModelIndex` of the model: row, column, internal pointer and whether
the index refers to the model (a default-constructed index refers to none). -/
structure QModelIndex where
  row : Int
  column : Int
  internalPointer : Option Annotation
  model : Bool
deriving DecidableEq, Repr

/-- The default-constructed index `QModelIndex()`. -/
def QModelIndex.invalid : QModelIndex :=
  { row := -1, column := -1, internalPointer := none, model := false }

/-- The test `QModelIndex::isValid()`. -/
def QModelIndex.isValid (idx : QModelIndex) : Bool :=
  decide (0 ≤ idx.row) && decide (0 ≤ idx.column) && idx.model

/-- The method `index(row, column)`. -/
def index (m : AnnotationCollectionModel) (row column : Int) : QModelIndex :=
  if row < 0 then
    QModelIndex.invalid
  else if row.toNat < m.visible_annotations_.length then
    { row := row, column := column
      internalPointer := (m.visible_annotations_.get? row.toNat).join
      model := true }
  else
    QModelIndex.invalid

/-- The call `idx.sibling(arow, acolumn)` of Qt: an index without a model
gives the default index, an index asked for its own position gives itself,
and otherwise the model is asked; the model inherits
`QAbstractTableModel::sibling`, which is `index(arow, acolumn)`. -/
def QModelIndex.sibling (m : AnnotationCollectionModel) (idx : QModelIndex)
    (arow acolumn : Int) : QModelIndex :=
  if idx.model then
    if idx.row = arow ∧ idx.column = acolumn then idx else index m arow acolumn
  else
    QModelIndex.invalid

/-- The method `rowCount`. -/
def rowCount (m : AnnotationCollectionModel) : Nat :=
  m.visible_annotations_.length

/-! ## The highlight locator -/

/-- The conversion `(int64_t)x` of a `uint64_t`. -/
def toInt64 (x : Nat) : Int :=
  if x % 2 ^ 64 < 2 ^ 63 then ((x % 2 ^ 64 : Nat) : Int) else ((x % 2 ^ 64 : Nat) : Int) - 2 ^ 64

/-- The covering test of `update_highlighted_rows`:
`(int64_t)start_sample() <= sample_num && (int64_t)end_sample() >= sample_num`. -/
def covers (ann : Annotation) (sample_num : Int) : Bool :=
  decide (toInt64 ann.start_sample ≤ sample_num) && decide (toInt64 ann.end_sample ≥ sample_num)

/-- How the `do`/`while` scan of `update_highlighted_rows` ends: at a null
record (`return result`), at a covering record (`break`), or by its loop
condition. -/
inductive ScanOutcome where
  | stale
  | found (index : QModelIndex)
  | finished
deriving DecidableEq, Repr

/-- The `do`/`while` scan, from position `index` on; the first argument
bounds the number of passes through the body. -/
def highlight_scan (m : AnnotationCollectionModel) (sample_num : Int) (last : QModelIndex) :
    Nat → QModelIndex → Option ScanOutcome
  | 0, _ => none
  | fuel + 1, index =>
    match index.internalPointer with
    | none => some ScanOutcome.stale
    | some ann =>
      if covers ann sample_num then
        some (ScanOutcome.found index)
      else
        let next := QModelIndex.sibling m index (index.row + 1) 0
        if next ≠ last then highlight_scan m sample_num last fuel next
        else some ScanOutcome.finished

/-- What a call of `update_highlighted_rows` leaves: the model, the index
returned, and the arguments of the `dataChanged` it emitted, if it emitted
one. -/
structure HighlightResult where
  model : AnnotationCollectionModel
  result : QModelIndex
  dataChanged : Option (QModelIndex × QModelIndex)

/-- The tail of `update_highlighted_rows`, from `if (has_highlight || ...)` on. -/
def highlight_finish (m : AnnotationCollectionModel) (first last : QModelIndex)
    (has_highlight : Bool) (result : QModelIndex) : HighlightResult :=
  { model := { m with had_highlight_before_ := has_highlight }
    result := result
    dataChanged := if has_highlight || m.had_highlight_before_ then some (first, last) else none }

/-- The method `update_highlighted_rows`. The scan is given
`rowCount() + 2` passes; the result `none` stands for a scan that would
need more, which no scan does (`highlight_scan_ends`). -/
def update_highlighted_rows (m : AnnotationCollectionModel) (first last : QModelIndex)
    (sample_num : Int) : Option HighlightResult :=
  let m1 := { m with highlight_sample_num_ := sample_num }
  if m1.visible_annotations_.isEmpty then
    some { model := m1, result := QModelIndex.invalid, dataChanged := none }
  else if 0 ≤ sample_num then
    let last1 := QModelIndex.sibling m1 last (last.row + 1) 0
    match highlight_scan m1 sample_num last1 (rowCount m1 + 2) first with
    | none => none
    | some ScanOutcome.stale =>
      some { model := m1, result := QModelIndex.invalid, dataChanged := none }
    | some (ScanOutcome.found idx) => some (highlight_finish m1 first last1 true idx)
    | some ScanOutcome.finished =>
      some (highlight_finish m1 first last1 false QModelIndex.invalid)
  else
    some (highlight_finish m1 first last false QModelIndex.invalid)

/-- The inclusive interval `[start_sample, end_sample]` of the record
contains the sample. -/
def Annotation.contains (ann : Annotation) (sample : Int) : Bool :=
  decide ((ann.start_sample : Int) ≤ sample) && decide (sample ≤ (ann.end_sample : Int))

/-- The result the specification asks of the highlight locator for the rows
`first..last` of the visible sequence: the index of the lowest-positioned
row whose interval contains the sample, or the invalid index when no row of
the range contains it. -/
def first_match_spec (m : AnnotationCollectionModel) (first last : Nat) (sample : Int)
    (result : QModelIndex) : Prop :=
  (∃ k ann, first ≤ k ∧ k ≤ last ∧
      m.visible_annotations_.get? k = some (some ann) ∧ ann.contains sample = true ∧
      (∀ j b, first ≤ j → j < k → m.visible_annotations_.get? j = some (some b) →
        b.contains sample = false) ∧
      result.row = (k : Int) ∧ result.internalPointer = some ann ∧ result.model = true) ∨
  ((∀ k ann, first ≤ k → k ≤ last → m.visible_annotations_.get? k = some (some ann) →
      ann.contains sample = false) ∧
    result = QModelIndex.invalid)

/-! ## Cell data and the range filter -/

/-- The conversion of a 64-bit unsigned value to `int`. -/
def toInt32 (x : Nat) : Int :=
  if x % 2 ^ 32 < 2 ^ 31 then ((x % 2 ^ 32 : Nat) : Int) else ((x % 2 ^ 32 : Nat) : Int) - 2 ^ 32

/-- The method `get_hierarchy_level`, for the signal `signal_` points to:
`size() - 1 - ann_stack_level` in `size_t` arithmetic, stored in an `int`. -/
def get_hierarchy_level (sig : DecodeSignal) (ann : Annotation) : Int :=
  toInt32 ((sig.decoder_stack_size % 2 ^ 64 + (2 ^ 64 - 1) + (2 ^ 64 - ann.stack_level % 2 ^ 32))
    % 2 ^ 64)

/-- What the model reads from outside its own sources: the texts of the
cells of columns 1 to 5 (time formatting, decoder name, row and class
description, longest annotation text) and the theme of `GlobalSettings`. -/
structure Externals where
  cell_text : Annotation → Int → String
  current_theme_is_dark : Bool

/-- The brushes `data` returns: the two palette brushes and the three
colours of an annotation. -/
inductive QBrush where
  | palette_Window
  | palette_WindowText
  | color (ann : Annotation)
  | dark_color (ann : Annotation)
  | bright_color (ann : Annotation)
deriving DecidableEq, Repr

/-- The `QVariant` values `data` and `data_from_ann` return. -/
inductive QVariant where
  | invalid
  | ulonglong (n : Nat)
  | string (s : String)
  | brush (b : QBrush)
deriving DecidableEq, Repr

/-- The conversion `QVariant::toULongLong()`: the number itself, zero for a
value that is no number; of a text the decimal number it spells, if it
spells one that fits (no cell the range filter reads is a text). -/
def QVariant.toULongLong : QVariant → Nat
  | QVariant.ulonglong n => n
  | QVariant.string s =>
    match s.toNat? with
    | some v => if v < 2 ^ 64 then v else 0
    | none => 0
  | _ => 0

/-- The roles `data` tells apart. -/
inductive ItemDataRole where
  | DisplayRole
  | ToolTipRole
  | ForegroundRole
  | BackgroundRole
  | OtherRole
deriving DecidableEq, Repr

/-- The method `data_from_ann`. -/
def data_from_ann (ext : Externals) (ann : Annotation) (index : Int) : QVariant :=
  if index = 0 then QVariant.ulonglong ann.start_sample
  else if 1 ≤ index ∧ index ≤ 5 then QVariant.string (ext.cell_text ann index)
  else if index = 6 then QVariant.ulonglong ann.end_sample
  else QVariant.invalid

/-- The highlight test of `data`:
`highlight_sample_num_ > 0 && (int64_t)start <= highlight_sample_num_ && (int64_t)end >= highlight_sample_num_`. -/
def must_highlight (m : AnnotationCollectionModel) (ann : Annotation) : Bool :=
  decide (0 < m.highlight_sample_num_) &&
    decide (toInt64 ann.start_sample ≤ m.highlight_sample_num_) &&
    decide (toInt64 ann.end_sample ≥ m.highlight_sample_num_)

/-- The method `data`. -/
def data (ext : Externals) (m : AnnotationCollectionModel) (index : QModelIndex)
    (role : ItemDataRole) : QVariant :=
  match m.signal_, index.isValid, index.internalPointer with
  | some sig, true, some ann =>
    match role with
    | ItemDataRole.DisplayRole => data_from_ann ext ann index.column
    | ItemDataRole.ToolTipRole => data_from_ann ext ann index.column
    | ItemDataRole.ForegroundRole =>
      if index.column ≥ get_hierarchy_level sig ann ∧ must_highlight m ann = true then
        if ext.current_theme_is_dark then QVariant.brush QBrush.palette_Window
        else QVariant.brush QBrush.palette_WindowText
      else QVariant.brush QBrush.palette_WindowText
    | ItemDataRole.BackgroundRole =>
      if index.column ≥ get_hierarchy_level sig ann then
        if must_highlight m ann then QVariant.brush (QBrush.color ann)
        else if ext.current_theme_is_dark then QVariant.brush (QBrush.dark_color ann)
        else QVariant.brush (QBrush.bright_color ann)
      else QVariant.invalid
    | ItemDataRole.OtherRole => QVariant.invalid
  | _, _, _ => QVariant.invalid

/-- The data members of `CustomFilterProxyModel`. -/
structure CustomFilterProxyModel where
  range_start_sample_ : Nat
  range_end_sample_ : Nat
  range_filtering_enabled_ : Bool
deriving DecidableEq, Repr

/-- The method `CustomFilterProxyModel::filterAcceptsRow`, with the source
model `src`. -/
def filterAcceptsRow (ext : Externals) (f : CustomFilterProxyModel)
    (src : AnnotationCollectionModel) (sourceRow : Int) : Bool :=
  if f.range_filtering_enabled_ then
    let ann_start_sample :=
      (data ext src (index src sourceRow 0) ItemDataRole.DisplayRole).toULongLong
    let ann_end_sample :=
      (data ext src (index src sourceRow 6) ItemDataRole.DisplayRole).toULongLong
    let left_of_range := decide (ann_end_sample < f.range_start_sample_)
    let right_of_range := decide (ann_start_sample > f.range_end_sample_)
    let entirely_outside_of_range := left_of_range || right_of_range
    !entirely_outside_of_range
  else
    true

/-! ## The indexer scan with its accesses checked -/

/-- What can go wrong in a run of `update_visible_annotations`: an access
past the end of a deque through `operator[]` (the function has no assertion
and throws nothing), or, in the embedding only, a loop that is not done
after the passes it was given. -/
inductive Fault where
  | out_of_range
  | out_of_passes
deriving DecidableEq, Repr

/-- The body of the `for` loop as in `scan_body`, with the write
`visible_annotations_[count++] = ann` checked against the size of the deque. -/
def scan_body_checked (ids : Finset Nat) (ann : Annotation) (i : Nat) (s : ScanState) :
    Except Fault ScanState :=
  if ann.class_key ∉ ids then
    Except.ok s
  else
    let grown :=
      if s.visible_annotations_.length < s.count + 100 then
        deque_resize s.visible_annotations_ (s.count + 100)
      else s.visible_annotations_
    if s.count < grown.length then
      Except.ok
        { visible_annotations_ := grown.set s.count (some ann)
          count := s.count + 1
          prev_last_row_index_ := i
          processed := s.processed + 1 }
    else
      Except.error Fault.out_of_range

/-- The loop `for (i = prev_last_row_index_; i < all_annotations_->size(); i++)`
by index, with the read `(*all_annotations_)[i]` checked; the first argument
bounds the number of tests of the loop condition. -/
def scan_loop_checked (ids : Finset Nat) (log : List Annotation) :
    Nat → Nat → ScanState → Except Fault ScanState
  | 0, _, _ => Except.error Fault.out_of_passes
  | fuel + 1, i, s =>
    if i < log.length then
      match log.get? i with
      | none => Except.error Fault.out_of_range
      | some ann =>
        match scan_body_checked ids ann i s with
        | Except.error e => Except.error e
        | Except.ok s1 => scan_loop_checked ids log fuel (i + 1) s1
    else
      Except.ok s

/-- The method `update_visible_annotations`, by index and with its accesses
checked: `Except.ok` is a normal return. -/
def update_visible_annotations_checked (m : AnnotationCollectionModel) :
    Except Fault AnnotationCollectionModel :=
  let count := m.visible_annotations_.length
  match m.output_mutex_, m.all_annotations_ with
  | true, some log =>
    if log.isEmpty then
      Except.ok { m with visible_annotations_ := [] }
    else
      match scan_loop_checked m.visible_ann_class_ids_ log
          (log.length - m.prev_last_row_index_ + 1) m.prev_last_row_index_
          ⟨m.visible_annotations_, count, m.prev_last_row_index_, 0⟩ with
      | Except.error e => Except.error e
      | Except.ok s =>
        Except.ok { m with
          visible_annotations_ := deque_resize s.visible_annotations_ s.count
          prev_last_row_index_ := s.prev_last_row_index_ }
  | _, _ => Except.ok { m with visible_annotations_ := [] }

/-! ## The packed class key -/

/-- The member `id` of `union AnnotationClassId` on a big-endian target:
`dec_stack_level` in the high half, `ann_id` in the low half. -/
def AnnotationClassId.id_big_endian (k : AnnotationClassId) : Nat :=
  2 ^ 32 * (k.dec_stack_level % 2 ^ 32) + k.ann_id % 2 ^ 32

/-! ## The view -/

/-- The enumeration `ViewModeType` (without its count entry). -/
inductive ViewModeType where
  | ViewModeAll
  | ViewModeLatest
  | ViewModeVisible
deriving DecidableEq, Repr

/-- The state of `View` the class-visibility and update paths read and
write: the selected signal, `current_segment_` of the base class, the check
state of `hide_hidden_cb_`, the `Qt::UserRole` data of the selected items of
`class_selector_`, the current index of `view_mode_selector_`, whether the
timer `delayed_view_updater_` of the base class is active, and the model. -/
structure View where
  signal_ : Option DecodeSignal
  current_segment_ : Nat
  hide_hidden_cb_ : Bool
  class_selector_selected : List Nat
  view_mode_selector_ : ViewModeType
  delayed_view_updater_ : Bool
  model_ : AnnotationCollectionModel

/-- The innermost loop of `update_class_visibility`, over the classes of a row. -/
def collect_classes (dec : Decoder) (acc : Finset Nat) (classes : List AnnotationClass) :
    Finset Nat :=
  classes.foldl
    (fun visible_classes cls =>
      if !cls.visible then visible_classes
      else insert (AnnotationClassId.id ⟨dec.get_stack_level, cls.id⟩) visible_classes)
    acc

/-- The middle loop of `update_class_visibility`, over the rows of a decoder. -/
def collect_rows (dec : Decoder) (acc : Finset Nat) (rows : List Row) : Finset Nat :=
  rows.foldl
    (fun visible_classes row =>
      if !row.visible then visible_classes
      else collect_classes dec visible_classes row.ann_classes)
    acc

/-- The outer loop of `update_class_visibility`, over the decoder stack. -/
def collect_stack (acc : Finset Nat) (stack : List Decoder) : Finset Nat :=
  stack.foldl
    (fun visible_classes dec =>
      if !dec.visible then visible_classes
      else collect_rows dec visible_classes dec.get_rows)
    acc

/-- The set `visible_classes` that `update_class_visibility` builds. -/
def visible_classes_of (v : View) : Finset Nat :=
  if v.hide_hidden_cb_ then
    match v.signal_ with
    | some sig => collect_stack ∅ sig.decoder_stack
    | none => ∅
  else
    v.class_selector_selected.foldl (fun visible_classes ann_id => insert ann_id visible_classes) ∅

/-- The method `View::update_class_visibility`. -/
def View.update_class_visibility (v : View) : View :=
  { v with model_ := set_visible_classes v.model_ (visible_classes_of v) }

/-- The method `View::update_data`. -/
def View.update_data (v : View) : View :=
  { v with model_ := set_signal_and_segment v.model_ v.signal_ v.current_segment_ }

/-- The method `View::perform_delayed_view_update`. -/
def View.perform_delayed_view_update (v : View) : View :=
  if v.model_.all_annotations_.isNone then
    v.update_data
  else
    { v with model_ := pv.views.tabular_decoder.update_data v.model_ }

/-- The slot `View::on_new_annotations` (the scrolling of the table is left out). -/
def View.on_new_annotations (v : View) : View :=
  if v.view_mode_selector_ = ViewModeType.ViewModeLatest then
    if v.model_.all_annotations_.isNone then
      v.update_data
    else
      { v with model_ := pv.views.tabular_decoder.update_data v.model_ }
  else
    if !v.delayed_view_updater_ then
      { v with delayed_view_updater_ := true }
    else
      v

/-- Modelled from the spec: the expiry of the timer `delayed_view_updater_`,
which the base class `ViewBase` (not among the sources) sets up as the
debounce of the specification: a pending timer fires once, is no longer
active, and runs `perform_delayed_view_update`. -/
def View.delayed_view_updater_timeout (v : View) : View :=
  if v.delayed_view_updater_ then
    View.perform_delayed_view_update { v with delayed_view_updater_ := false }
  else
    v

/-- A call the view makes on its model to bring the visible rows up to date
(a re-scan): `model_->update_data()`, or `model_->set_signal_and_segment`
through `View::update_data`. -/
inductive ModelCall where
  | update_data
  | set_signal_and_segment (signal : Option DecodeSignal) (current_segment : Nat)

/-- What a call does to the model. -/
def ModelCall.run (m : AnnotationCollectionModel) : ModelCall → AnnotationCollectionModel
  | ModelCall.update_data => pv.views.tabular_decoder.update_data m
  | ModelCall.set_signal_and_segment signal current_segment =>
    pv.views.tabular_decoder.set_signal_and_segment m signal current_segment

/-- The calls `View::perform_delayed_view_update` makes on the model, in
program order. -/
def View.perform_delayed_view_update_calls (v : View) : List ModelCall :=
  if v.model_.all_annotations_.isNone then
    [ModelCall.set_signal_and_segment v.signal_ v.current_segment_]
  else
    [ModelCall.update_data]

/-- The calls `View::on_new_annotations` makes on the model, in program
order: those of the branch for `ViewModeLatest`, none in the other branch. -/
def View.on_new_annotations_calls (v : View) : List ModelCall :=
  if v.view_mode_selector_ = ViewModeType.ViewModeLatest then
    if v.model_.all_annotations_.isNone then
      [ModelCall.set_signal_and_segment v.signal_ v.current_segment_]
    else
      [ModelCall.update_data]
  else
    []

/-- Modelled from the spec: the calls the expiry of the timer makes on the
model, those of `perform_delayed_view_update` when the timer is pending. -/
def View.delayed_view_updater_timeout_calls (v : View) : List ModelCall :=
  if v.delayed_view_updater_ then
    View.perform_delayed_view_update_calls { v with delayed_view_updater_ := false }
  else
    []

/-- What reaches the view: a notification of new annotations, or the expiry
of the timer `delayed_view_updater_`. -/
inductive ViewEvent where
  | new_annotations
  | timeout
deriving DecidableEq, Repr

/-- The view after one event. -/
def View.handle (v : View) : ViewEvent → View
  | ViewEvent.new_annotations => v.on_new_annotations
  | ViewEvent.timeout => v.delayed_view_updater_timeout

/-- The calls on the model during one event. -/
def View.handle_calls (v : View) : ViewEvent → List ModelCall
  | ViewEvent.new_annotations => v.on_new_annotations_calls
  | ViewEvent.timeout => v.delayed_view_updater_timeout_calls

/-- The view after a sequence of events, with all calls made on the model
on the way, in order. -/
def View.run : List ViewEvent → View → View × List ModelCall
  | [], v => (v, [])
  | e :: es, v => ((View.run es (v.handle e)).1, v.handle_calls e ++ (View.run es (v.handle e)).2)

/-- The leaves of a decoder stack: each decoder with each of its rows and
each class of that row. -/
def stack_leaves (stack : List Decoder) : List (Decoder × Row × AnnotationClass) :=
  stack.flatMap
    (fun dec => dec.get_rows.flatMap (fun row => row.ann_classes.map (fun cls => (dec, row, cls))))

/-! ## The CSV export -/

/-- The enumeration `SaveType` (without its count entry). -/
inductive SaveType where
  | SaveTypeCSVEscaped
  | SaveTypeCSVQuoted
deriving DecidableEq, Repr

/-- The comma. -/
def COMMA : Char := Char.ofNat 44

/-- The double quote. -/
def DQUOTE : Char := Char.ofNat 34

/-- The backslash. -/
def BACKSLASH : Char := Char.ofNat 92

/-- The carriage return. -/
def CR : Char := Char.ofNat 13

/-- The line feed. -/
def LF : Char := Char.ofNat 10

/-- The call `s.replace(before, after)` of `QString` for a `before` of one
character: every occurrence of the character is replaced by `after`. -/
def QString_replace (s : List Char) (before : Char) (after : List Char) : List Char :=
  s.flatMap (fun c => if c = before then after else [c])

/-- What `save_data_as_csv` reads of the table view, its header and the
proxy model: the number of header sections, the logical index of a visual
index, whether a section is hidden, the header texts and the cell texts by
logical column (`headerData(...).toString()`, `data(...).toString()`), the
number of rows, and the rows of the selection (none when nothing is
selected). -/
structure TableState where
  header_count : Nat
  logicalIndex : Nat → Nat
  isSectionHidden : Nat → Bool
  headerData : Nat → List Char
  rowCount : Nat
  selection : List Nat
  data : Nat → Nat → List Char

/-- The header loop of `save_data_as_csv`, from visual index `i` on for the
`n` sections left, without the line end. -/
def csv_header_columns (save_type : SaveType) (t : TableState) : Nat → Nat → List Char
  | 0, _ => []
  | n + 1, i =>
    let column := t.logicalIndex i
    (if t.isSectionHidden column then []
    else
      (if save_type = SaveType.SaveTypeCSVEscaped then t.headerData column
        else [DQUOTE] ++ t.headerData column ++ [DQUOTE]) ++
      (if (i : Int) < (t.header_count : Int) - 1 then [COMMA] else [])) ++
    csv_header_columns save_type t n (i + 1)

/-- The column loop of `save_data_as_csv` for the row `row`, from visual
index `c` on for the `n` sections left, without the line end. -/
def csv_row_columns (save_type : SaveType) (t : TableState) (row : Nat) :
    Nat → Nat → List Char
  | 0, _ => []
  | n + 1, c =>
    let column := t.logicalIndex c
    (if t.isSectionHidden column then []
    else
      (if save_type = SaveType.SaveTypeCSVEscaped then
          QString_replace (t.data row column) COMMA [BACKSLASH, COMMA]
        else [DQUOTE] ++ QString_replace (t.data row column) DQUOTE [DQUOTE, DQUOTE] ++ [DQUOTE]) ++
      (if (c : Int) < (t.header_count : Int) - 1 then [COMMA] else [])) ++
    csv_row_columns save_type t row n (c + 1)

/-- The rows `save_data_as_csv` writes: the selected rows, or all rows when
nothing is selected (it selects all first). -/
def csv_selected_rows (t : TableState) : List Nat :=
  if t.selection.isEmpty then List.range t.rowCount else t.selection

/-- The text `save_data_as_csv` writes to the stream of the opened file: the
header line, then one line for each selected row. -/
def save_data_as_csv (save_type : SaveType) (t : TableState) : List Char :=
  csv_header_columns save_type t t.header_count 0 ++ [CR, LF] ++
  (csv_selected_rows t).flatMap
    (fun row => csv_row_columns save_type t row t.header_count 0 ++ [CR, LF])

/-- The columns that are not hidden, by logical index, in visual order. -/
def csv_shown_columns (t : TableState) : List Nat :=
  ((List.range t.header_count).map t.logicalIndex).filter (fun column => !t.isSectionHidden column)

/-- The record layout the specification asks for: the given fields joined by
commas and ended by CR LF. -/
def csv_line_spec (fields : List (List Char)) : List Char :=
  List.intercalate [COMMA] fields ++ [CR, LF]

/-- The text of a cell as the export writes it: commas escaped, or the text
in double quotes with its double quotes doubled. -/
def csv_cell_text (save_type : SaveType) (s : List Char) : List Char :=
  if save_type = SaveType.SaveTypeCSVEscaped then QString_replace s COMMA [BACKSLASH, COMMA]
  else [DQUOTE] ++ QString_replace s DQUOTE [DQUOTE, DQUOTE] ++ [DQUOTE]

/-- The text of a header cell as the export writes it: as it is, or in
double quotes. -/
def csv_title_text (save_type : SaveType) (s : List Char) : List Char :=
  if save_type = SaveType.SaveTypeCSVEscaped then s else [DQUOTE] ++ s ++ [DQUOTE]

/-- The export as the specification lays it out: the header line first, then
one line for each selected row, each line the cells of the shown columns in
visual order, joined by commas and ended by CR LF. -/
def csv_text_spec (save_type : SaveType) (t : TableState) : List Char :=
  csv_line_spec ((csv_shown_columns t).map (fun column =>
    csv_title_text save_type (t.headerData column))) ++
  (csv_selected_rows t).flatMap (fun row =>
    csv_line_spec ((csv_shown_columns t).map (fun column =>
      csv_cell_text save_type (t.data row column))))

/-- The states of a reader of RFC 4180 text: at the start of a field, inside
a field without quotes, inside a quoted field, after a double quote inside a
quoted field, and after a carriage return that ends a record. -/
inductive CsvState where
  | field_start
  | in_plain
  | in_quoted
  | quote_seen
  | cr_seen
deriving DecidableEq, Repr

/-- What a reader of RFC 4180 text makes of the end of the text: after a
line end (or in an empty text) the records read so far; inside a record the
open field and record are closed; inside a quoted field or after a lone
carriage return the text is not RFC 4180. -/
def rfc4180_end (st : CsvState) (field : List Char) (record : List (List Char))
    (records : List (List (List Char))) : Option (List (List (List Char))) :=
  match st with
  | CsvState.field_start =>
    if record.isEmpty then some records else some (records ++ [record ++ [field]])
  | CsvState.in_plain => some (records ++ [record ++ [field]])
  | CsvState.quote_seen => some (records ++ [record ++ [field]])
  | CsvState.in_quoted => none
  | CsvState.cr_seen => none

/-- A reader of RFC 4180 text (the standard the export follows): fields are
separated by commas, records end with CR LF, the last line end is optional;
a field in double quotes may hold commas, CR, LF and, as two double quotes,
a double quote. The arguments after the text are the state, the field, the
record and the records read so far; `none` is text that is not RFC 4180. -/
def rfc4180_read : List Char → CsvState → List Char → List (List Char) →
    List (List (List Char)) → Option (List (List (List Char)))
  | [], st, field, record, records => rfc4180_end st field record records
  | c :: rest, CsvState.field_start, field, record, records =>
    if c = DQUOTE then rfc4180_read rest CsvState.in_quoted field record records
    else if c = COMMA then rfc4180_read rest CsvState.field_start [] (record ++ [field]) records
    else if c = CR then rfc4180_read rest CsvState.cr_seen field record records
    else if c = LF then none
    else rfc4180_read rest CsvState.in_plain (field ++ [c]) record records
  | c :: rest, CsvState.in_plain, field, record, records =>
    if c = DQUOTE then none
    else if c = COMMA then rfc4180_read rest CsvState.field_start [] (record ++ [field]) records
    else if c = CR then rfc4180_read rest CsvState.cr_seen field record records
    else if c = LF then none
    else rfc4180_read rest CsvState.in_plain (field ++ [c]) record records
  | c :: rest, CsvState.in_quoted, field, record, records =>
    if c = DQUOTE then rfc4180_read rest CsvState.quote_seen field record records
    else rfc4180_read rest CsvState.in_quoted (field ++ [c]) record records
  | c :: rest, CsvState.quote_seen, field, record, records =>
    if c = DQUOTE then rfc4180_read rest CsvState.in_quoted (field ++ [c]) record records
    else if c = COMMA then rfc4180_read rest CsvState.field_start [] (record ++ [field]) records
    else if c = CR then rfc4180_read rest CsvState.cr_seen field record records
    else none
  | c :: rest, CsvState.cr_seen, field, record, records =>
    if c = LF then rfc4180_read rest CsvState.field_start [] [] (records ++ [record ++ [field]])
    else none

/-- The records of an RFC 4180 text, each a list of field values. -/
def rfc4180_parse (text : List Char) : Option (List (List (List Char))) :=
  rfc4180_read text CsvState.field_start [] [] []

/-- The shape the two column loops of `save_data_as_csv` share, with the
text written for a shown column given by `piece`. -/
def csv_columns_loop (t : TableState) (piece : Nat → List Char) : Nat → Nat → List Char
  | 0, _ => []
  | n + 1, i =>
    let column := t.logicalIndex i
    (if t.isSectionHidden column then []
    else piece column ++ (if (i : Int) < (t.header_count : Int) - 1 then [COMMA] else [])) ++
    csv_columns_loop t piece n (i + 1)

/-- The field values of the export: the header texts of the shown columns,
then for each selected row the cell texts of the shown columns. -/
def csv_field_values (t : TableState) : List (List (List Char)) :=
  (csv_shown_columns t).map t.headerData ::
    (csv_selected_rows t).map (fun row => (csv_shown_columns t).map (t.data row))

/-! ## The cases of the range filter comment -/

/-- Case a) of the comment in `filterAcceptsRow`: the record begins to the
left of the range and ends within the range. -/
def begins_left_ends_within (f : CustomFilterProxyModel) (ann : Annotation) : Bool :=
  decide (ann.start_sample < f.range_start_sample_) &&
    decide (f.range_start_sample_ ≤ ann.end_sample) &&
    decide (ann.end_sample ≤ f.range_end_sample_)

/-- Case b) of the comment: the record begins and ends within the range. -/
def begins_and_ends_within (f : CustomFilterProxyModel) (ann : Annotation) : Bool :=
  decide (f.range_start_sample_ ≤ ann.start_sample) &&
    decide (ann.start_sample ≤ f.range_end_sample_) &&
    decide (f.range_start_sample_ ≤ ann.end_sample) &&
    decide (ann.end_sample ≤ f.range_end_sample_)

/-- Case c) of the comment: the record begins within the range and ends to
the right of the range. -/
def begins_within_ends_right (f : CustomFilterProxyModel) (ann : Annotation) : Bool :=
  decide (f.range_start_sample_ ≤ ann.start_sample) &&
    decide (ann.start_sample ≤ f.range_end_sample_) &&
    decide (f.range_end_sample_ < ann.end_sample)

/-- The case the comment leaves out: the record begins to the left of the
range and ends to the right of it. -/
def begins_left_ends_right (f : CustomFilterProxyModel) (ann : Annotation) : Bool :=
  decide (ann.start_sample < f.range_start_sample_) &&
    decide (f.range_end_sample_ < ann.end_sample)

/-! ## The passes of the highlight scan -/

/-- The number of passes through the body of the `do`/`while` scan of
`update_highlighted_rows`, that is, of positions it examines; the recursion
is that of `highlight_scan`. -/
def highlight_scan_passes (m : AnnotationCollectionModel) (sample_num : Int)
    (last : QModelIndex) : Nat → QModelIndex → Option Nat
  | 0, _ => none
  | fuel + 1, index =>
    match index.internalPointer with
    | none => some 1
    | some ann =>
      if covers ann sample_num then
        some 1
      else
        let next := QModelIndex.sibling m index (index.row + 1) 0
        if next ≠ last then
          (highlight_scan_passes m sample_num last fuel next).map (fun n => n + 1)
        else some 1

/-! ## Invariants of the visible sequence -/

/-- The records of the log the model points to; none when it points to no log. -/
def AnnotationCollectionModel.log (m : AnnotationCollectionModel) : List Annotation :=
  m.all_annotations_.getD []

/-- Every entry of `visible_annotations_` is a record (not a null slot) of
the assigned log whose key is in the visible-class set. -/
def visible_sound (m : AnnotationCollectionModel) : Prop :=
  ∀ p ∈ m.visible_annotations_, ∃ ann, p = some ann ∧ ann ∈ m.log ∧
    ann.class_key ∈ m.visible_ann_class_ids_

/-- The records of a log are in non-decreasing `start_sample` order. -/
@[reducible] def log_ordered (log : List Annotation) : Prop :=
  List.Pairwise (fun a b => a.start_sample ≤ b.start_sample) log

/-- The records of a visible sequence are in non-decreasing `start_sample`
order. -/
def visible_ordered (visible : List (Option Annotation)) : Prop :=
  List.Pairwise
    (fun p q => ∀ a b, p = some a → q = some b → a.start_sample ≤ b.start_sample) visible

/-- The states reached from construction by log appends, `update_data`,
`set_visible_classes` and `set_signal_and_segment` when every log assigned
is in non-decreasing `start_sample` order and every append keeps it so. -/
inductive OrderedRun : AnnotationCollectionModel → Prop
  | construct (h : Int) : OrderedRun (AnnotationCollectionModel.construct h)
  | append_to_log {m : AnnotationCollectionModel} (ann : Annotation) :
      OrderedRun m → log_ordered (m.append_to_log ann).log → OrderedRun (m.append_to_log ann)
  | update_data {m : AnnotationCollectionModel} : OrderedRun m → OrderedRun (update_data m)
  | set_visible_classes {m : AnnotationCollectionModel} (ids : Finset Nat) :
      OrderedRun m → OrderedRun (set_visible_classes m ids)
  | set_signal_and_segment {m : AnnotationCollectionModel} (signal : Option DecodeSignal)
      (segment : Nat) : OrderedRun m →
      log_ordered (set_signal_and_segment m signal segment).log →
      OrderedRun (set_signal_and_segment m signal segment)

/-- The invariant behind the order of the visible sequence: the log is
ordered, the visible entries are records of the log in order, and no visible
record starts after a record of the log from the cursor on. -/
def order_invariant (m : AnnotationCollectionModel) : Prop :=
  log_ordered m.log ∧
  (∀ p ∈ m.visible_annotations_, ∃ a, p = some a ∧ a ∈ m.log) ∧
  visible_ordered m.visible_annotations_ ∧
  (∀ p ∈ m.visible_annotations_, ∀ a, p = some a →
    ∀ b ∈ m.log.drop m.prev_last_row_index_, a.start_sample ≤ b.start_sample)

/-! ## The accesses to the log and its lock -/

/-- What a model method does with the shared log and its mutex, in program
order: taking and releasing the lock (the `lock_guard` of
`update_visible_annotations`), and the reads `all_annotations_->empty()`,
`all_annotations_->size()` and `(*all_annotations_)[i]`. -/
inductive LogEvent where
  | lock
  | unlock
  | read_empty
  | read_size
  | read_entry (i : Nat)
deriving DecidableEq, Repr

/-- The log accesses of the `for` loop of `update_visible_annotations`: the
test `i < all_annotations_->size()` before every pass and once more at the
end, and the read `(*all_annotations_)[i]` in every pass. -/
def scan_events : List Annotation → Nat → List LogEvent
  | [], _ => [LogEvent.read_size]
  | _ :: rest, i => LogEvent.read_size :: LogEvent.read_entry i :: scan_events rest (i + 1)

/-- The log accesses of `update_visible_annotations`: none without a mutex
or a log; else the lock is taken, `empty()` is read, the loop runs if the log
is not empty, and the guard releases the lock on return. -/
def update_visible_annotations_events (m : AnnotationCollectionModel) : List LogEvent :=
  match m.output_mutex_, m.all_annotations_ with
  | true, some log =>
    if log.isEmpty then
      [LogEvent.lock, LogEvent.read_empty, LogEvent.unlock]
    else
      [LogEvent.lock, LogEvent.read_empty]
        ++ scan_events (log.drop m.prev_last_row_index_) m.prev_last_row_index_
        ++ [LogEvent.unlock]
  | _, _ => []

/-- The log accesses of `update_data`: those of `update_visible_annotations`
(the rest of the method reads `visible_annotations_` only). -/
def update_data_events (m : AnnotationCollectionModel) : List LogEvent :=
  update_visible_annotations_events m

/-- The log accesses of `set_visible_classes`: none on the early return, else
those of `update_data` in the reset state. -/
def set_visible_classes_events (m : AnnotationCollectionModel) (ann_class_ids : Finset Nat) :
    List LogEvent :=
  if ann_class_ids = m.visible_ann_class_ids_ then
    []
  else
    update_data_events { m with
      visible_ann_class_ids_ := ann_class_ids
      prev_last_row_ := 0
      prev_last_row_index_ := 0
      visible_annotations_ := [] }

/-- The log accesses of `set_signal_and_segment`: none without a signal; else
`if (all_annotations_) qDebug("size %zu", all_annotations_->size())` reads
the size of the log just assigned, and `update_data` follows in the reset
state. -/
def set_signal_and_segment_events (m : AnnotationCollectionModel)
    (signal : Option DecodeSignal) (current_segment : Nat) : List LogEvent :=
  match signal with
  | none => []
  | some sig =>
    (if (sig.get_all_annotations_by_segment current_segment).isSome then
      [LogEvent.read_size] else [])
    ++ update_data_events { m with
      all_annotations_ := sig.get_all_annotations_by_segment current_segment
      output_mutex_ := true
      signal_ := some sig
      prev_last_row_ := 0
      prev_last_row_index_ := 0
      visible_annotations_ := [] }

/-- Whether every read of the log in a sequence of accesses happens while the
lock is held; `held` tells whether it is held at the start. -/
def reads_locked : Bool → List LogEvent → Bool
  | _, [] => true
  | _, LogEvent.lock :: es => reads_locked true es
  | _, LogEvent.unlock :: es => reads_locked false es
  | held, _ :: es => held && reads_locked held es

/-! ## Sample data -/

/-- Three records of one decoder, with the sample ranges (0,10), (20,30), (25,40). -/
def sample_log : List Annotation :=
  [⟨0, 10, 0, 1⟩, ⟨20, 30, 0, 1⟩, ⟨25, 40, 0, 2⟩]

/-- A further record of class 1, used as a later append. -/
def sample_late : Annotation := ⟨50, 60, 0, 1⟩

/-- One visible decoder at stack level 0 with one visible row that holds the
visible classes 1 and 2. -/
def sample_decoder : Decoder :=
  { get_stack_level := 0, visible := true
    get_rows := [{ visible := true, ann_classes := [⟨1, true⟩, ⟨2, true⟩] }] }

/-- A signal with one decoder whose segment 0 holds `sample_log`. -/
def sample_signal : DecodeSignal :=
  { get_all_annotations_by_segment := fun seg => if seg = 0 then some sample_log else none
    decoder_stack := [sample_decoder] }

/-- A signal whose segment 0 holds the single record (0,10). -/
def single_signal : DecodeSignal :=
  { get_all_annotations_by_segment := fun seg => if seg = 0 then some [⟨0, 10, 0, 1⟩] else none
    decoder_stack := [sample_decoder] }

/-- The set holding the keys of class 1 and class 2 of the decoder at stack level 0. -/
def sample_classes : Finset Nat :=
  { Annotation.class_key ⟨0, 0, 0, 1⟩, Annotation.class_key ⟨0, 0, 0, 2⟩ }

/-- The set holding the key of class 1 only. -/
def sample_class_one : Finset Nat :=
  { Annotation.class_key ⟨0, 0, 0, 1⟩ }

/-- A model after construction, selection of `sample_signal` and of both classes. -/
def sample_model : AnnotationCollectionModel :=
  set_visible_classes
    (set_signal_and_segment (AnnotationCollectionModel.construct 0) (some sample_signal) 0)
    sample_classes

/-- A model after construction, selection of `single_signal` and of class 1. -/
def single_model : AnnotationCollectionModel :=
  set_visible_classes
    (set_signal_and_segment (AnnotationCollectionModel.construct 0) (some single_signal) 0)
    sample_class_one

/-- A signal whose segment 0 holds an empty log. -/
def empty_signal : DecodeSignal :=
  { get_all_annotations_by_segment := fun seg => if seg = 0 then some [] else none
    decoder_stack := [sample_decoder] }

/-- A model after construction, selection of `empty_signal` and of class 1:
the log is assigned and empty, nothing is visible, the scan cursor is 0. -/
def empty_model : AnnotationCollectionModel :=
  set_visible_classes
    (set_signal_and_segment (AnnotationCollectionModel.construct 0) (some empty_signal) 0)
    sample_class_one

/-- The reset indexer state over `sample_log` with both classes visible. -/
def sample_reset_model : AnnotationCollectionModel :=
  { AnnotationCollectionModel.construct 0 with
    all_annotations_ := some sample_log
    output_mutex_ := true
    visible_ann_class_ids_ := sample_classes }

/-- Five records of class 1 with the sample ranges of the range-filter cases. -/
def range_log : List Annotation :=
  [⟨50, 99, 0, 1⟩, ⟨50, 100, 0, 1⟩, ⟨200, 250, 0, 1⟩, ⟨201, 250, 0, 1⟩, ⟨0, 1000, 0, 1⟩]

/-- A signal whose segment 0 holds `range_log`. -/
def range_signal : DecodeSignal :=
  { get_all_annotations_by_segment := fun seg => if seg = 0 then some range_log else none
    decoder_stack := [sample_decoder] }

/-- A model after construction, selection of `range_signal` and of class 1. -/
def range_model : AnnotationCollectionModel :=
  set_visible_classes
    (set_signal_and_segment (AnnotationCollectionModel.construct 0) (some range_signal) 0)
    sample_class_one

/-- A signal whose segment 0 holds one record from sample 0 to sample 2^63. -/
def long_signal : DecodeSignal :=
  { get_all_annotations_by_segment :=
      fun seg => if seg = 0 then some [⟨0, 9223372036854775808, 0, 1⟩] else none
    decoder_stack := [sample_decoder] }

/-- A model after construction, selection of `long_signal` and of class 1. -/
def long_model : AnnotationCollectionModel :=
  set_visible_classes
    (set_signal_and_segment (AnnotationCollectionModel.construct 0) (some long_signal) 0)
    sample_class_one

/-- The model `sample_model` after a highlight query that found a row
(sample 25) and a change of the visible classes to none. -/
def highlighted_then_hidden : Option AnnotationCollectionModel :=
  (update_highlighted_rows sample_model (index sample_model 0 0) (index sample_model 2 0) 25).map
    (fun r => set_visible_classes r.model ∅)

/-- The reset indexer state over the one-record log with class 1 visible. -/
def single_reset_model : AnnotationCollectionModel :=
  { AnnotationCollectionModel.construct 0 with
    all_annotations_ := some [⟨0, 10, 0, 1⟩]
    output_mutex_ := true
    visible_ann_class_ids_ := sample_class_one }

/-- The model `sample_model`, whose cursor stands at 2, seeing a log of one
record: the log has become shorter than the cursor. -/
def shrunk_model : AnnotationCollectionModel :=
  { sample_model with all_annotations_ := some [⟨0, 10, 0, 1⟩] }

/-- A stack of two decoders. The decoder at level 0 is visible; its first row
is visible and holds the visible class 1 and the hidden class 2, its second
row is hidden and holds the visible class 3. The decoder at level 1 is
hidden; its one row is visible and holds the visible class 1. -/
def nested_stack : List Decoder :=
  [{ get_stack_level := 0, visible := true
     get_rows := [{ visible := true, ann_classes := [⟨1, true⟩, ⟨2, false⟩] },
                  { visible := false, ann_classes := [⟨3, true⟩] }] },
   { get_stack_level := 1, visible := false
     get_rows := [{ visible := true, ann_classes := [⟨1, true⟩] }] }]

/-- A signal with the stack `nested_stack` whose segment 0 holds `sample_log`. -/
def nested_signal : DecodeSignal :=
  { get_all_annotations_by_segment := fun seg => if seg = 0 then some sample_log else none
    decoder_stack := nested_stack }

/-- A view with `nested_signal` selected, 'hide hidden' checked, the mode
'show all', no update pending, and a model that has the signal assigned. -/
def nested_view : View :=
  { signal_ := some nested_signal
    current_segment_ := 0
    hide_hidden_cb_ := true
    class_selector_selected := []
    view_mode_selector_ := ViewModeType.ViewModeAll
    delayed_view_updater_ := false
    model_ := set_signal_and_segment (AnnotationCollectionModel.construct 0)
      (some nested_signal) 0 }

/-- A view in the mode 'show all' with no update pending, whose model shows
the three records of `sample_log` and whose log then got the record
`sample_late` appended. -/
def appended_view : View :=
  { signal_ := some sample_signal
    current_segment_ := 0
    hide_hidden_cb_ := true
    class_selector_selected := []
    view_mode_selector_ := ViewModeType.ViewModeAll
    delayed_view_updater_ := false
    model_ := sample_model.append_to_log sample_late }

/-- The table as the view sets it up, with one row: seven header sections
in logical order, the last one (End Sample) hidden, nothing selected; the
value of the row holds a comma and a double quote. -/
def default_table : TableState :=
  { header_count := 7
    logicalIndex := fun i => i
    isSectionHidden := fun column => decide (6 ≤ column)
    headerData := fun column =>
      (["Sample", "Time", "Decoder", "Ann Row", "Ann Class", "Value", "End Sample"].getD
        column "").toList
    rowCount := 1
    selection := []
    data := fun _ column => (["0", "0 s", "UART", "RX", "Data", "a,\"b", "10"].getD column "").toList }

/-- No text, light theme. -/
def sample_externals : Externals :=
  { cell_text := fun _ _ => "", current_theme_is_dark := false }

/-! ## Theorems -/

/-! ### Auxiliary facts -/

theorem take_set_succ {α : Type} (l : List α) (n : Nat) (x : α) (h : n < l.length) :
    (l.set n x).take (n + 1) = l.take n ++ [x] := by
  induction l generalizing n with
  | nil => simp at h
  | cons a l ih =>
    cases n with
    | zero => simp
    | succ n =>
      simp only [List.length_cons, Nat.add_lt_add_iff_right] at h
      simp [List.set, ih n h]

theorem deque_resize_length (d : List (Option Annotation)) (n : Nat) :
    (deque_resize d n).length = n := by
  simp only [deque_resize, List.length_append, List.length_take, List.length_replicate]
  omega

theorem deque_resize_take (d : List (Option Annotation)) (n k : Nat) (hk : k ≤ n)
    (hd : k ≤ d.length) : (deque_resize d n).take k = d.take k := by
  simp only [deque_resize]
  rw [List.take_append_of_le_length (by simp; omega), List.take_take]
  congr 1
  omega

theorem deque_resize_of_le (d : List (Option Annotation)) (n : Nat) (h : n ≤ d.length) :
    deque_resize d n = d.take n := by
  simp [deque_resize, Nat.sub_eq_zero_of_le h]

theorem scan_body_hit (ids : Finset Nat) (ann : Annotation) (i : Nat) (s : ScanState)
    (hk : ann.class_key ∈ ids) (hs : s.count ≤ s.visible_annotations_.length) :
    (scan_body ids ann i s).count = s.count + 1 ∧
    (scan_body ids ann i s).prev_last_row_index_ = i ∧
    (scan_body ids ann i s).count ≤ (scan_body ids ann i s).visible_annotations_.length ∧
    (scan_body ids ann i s).visible_annotations_.take (s.count + 1) =
      s.visible_annotations_.take s.count ++ [some ann] := by
  simp only [scan_body, hk, not_true_eq_false, if_false, List.length_set, true_and]
  by_cases hlen : s.visible_annotations_.length < s.count + 100
  · simp only [hlen, if_true, deque_resize_length]
    refine ⟨by omega, ?_⟩
    rw [take_set_succ _ _ _ (by rw [deque_resize_length]; omega),
      deque_resize_take _ _ _ (by omega) hs]
  · simp only [hlen, if_false]
    refine ⟨by omega, ?_⟩
    rw [take_set_succ _ _ _ (by omega)]

theorem scan_body_hit_cursor (ids : Finset Nat) (ann : Annotation) (i : Nat) (s : ScanState)
    (hk : ann.class_key ∈ ids) : (scan_body ids ann i s).prev_last_row_index_ = i := by
  simp [scan_body, hk]

theorem scan_body_miss (ids : Finset Nat) (ann : Annotation) (i : Nat) (s : ScanState)
    (hk : ann.class_key ∉ ids) : scan_body ids ann i s = s := by
  simp [scan_body, hk]

/-- The loop invariant of the indexer scan: the first `count` slots of the
buffer are the slots that were there before, followed by the matching
records of the entries visited, in order. -/
theorem scan_loop_take (ids : Finset Nat) (rest : List Annotation) (i : Nat) (s : ScanState)
    (hs : s.count ≤ s.visible_annotations_.length) :
    (scan_loop ids rest i s).count ≤ (scan_loop ids rest i s).visible_annotations_.length ∧
    (scan_loop ids rest i s).visible_annotations_.take (scan_loop ids rest i s).count =
      s.visible_annotations_.take s.count ++ visible_filter ids rest := by
  induction rest generalizing i s with
  | nil => simp [scan_loop, visible_filter, hs]
  | cons a rest ih =>
    simp only [scan_loop]
    by_cases h : a.class_key ∈ ids
    · obtain ⟨hc, -, hlen, htake⟩ := scan_body_hit ids a i s h hs
      obtain ⟨h1, h2⟩ := ih (i + 1) (scan_body ids a i s) hlen
      refine ⟨h1, ?_⟩
      rw [h2, hc, htake]
      simp [visible_filter, List.filter_cons, h]
    · rw [scan_body_miss ids a i s h]
      obtain ⟨h1, h2⟩ := ih (i + 1) s hs
      refine ⟨h1, ?_⟩
      rw [h2]
      simp [visible_filter, List.filter_cons, h]

/-- What one run of `update_visible_annotations` does to the visible
sequence when a non-empty log is assigned: the matching records of the log
from the scan cursor on are appended to what was there. -/
theorem update_visible_annotations_visible (m : AnnotationCollectionModel)
    (log : List Annotation) (hlog : m.all_annotations_ = some log)
    (hmutex : m.output_mutex_ = true) (hne : log ≠ []) :
    (update_visible_annotations m).visible_annotations_ =
      m.visible_annotations_ ++
        visible_filter m.visible_ann_class_ids_ (log.drop m.prev_last_row_index_) := by
  have hemp : log.isEmpty = false := by
    cases log with
    | nil => exact absurd rfl hne
    | cons a l => rfl
  simp only [update_visible_annotations, hlog, hmutex, hemp]
  obtain ⟨h1, h2⟩ := scan_loop_take m.visible_ann_class_ids_ (log.drop m.prev_last_row_index_)
    m.prev_last_row_index_ ⟨m.visible_annotations_, m.visible_annotations_.length,
      m.prev_last_row_index_, 0⟩ (Nat.le_refl _)
  simp only [Bool.false_eq_true, if_false]
  rw [deque_resize_of_le _ _ h1, h2]
  simp

theorem scan_loop_cursor (ids : Finset Nat) (rest : List Annotation) (i : Nat) (s : ScanState) :
    (scan_loop ids rest i s).prev_last_row_index_ = s.prev_last_row_index_ ∨
    (i ≤ (scan_loop ids rest i s).prev_last_row_index_ ∧
      (scan_loop ids rest i s).prev_last_row_index_ < i + rest.length) := by
  induction rest generalizing i s with
  | nil => left; rfl
  | cons a rest ih =>
    simp only [scan_loop, List.length_cons]
    by_cases h : a.class_key ∈ ids
    · have hb := (scan_body_hit_cursor ids a i s h)
      rcases ih (i + 1) (scan_body ids a i s) with h1 | ⟨h1, h2⟩
      · right
        rw [h1, hb]
        omega
      · right
        omega
    · rw [scan_body_miss ids a i s h]
      rcases ih (i + 1) s with h1 | ⟨h1, h2⟩
      · left
        exact h1
      · right
        omega

/-- After a run of `update_visible_annotations` over a non-empty log the scan
cursor is below the size of the log (it is the index of the last matching
record, or where it was). -/
theorem update_visible_annotations_cursor_lt (m : AnnotationCollectionModel)
    (log : List Annotation) (hlog : m.all_annotations_ = some log)
    (hmutex : m.output_mutex_ = true) (hcur : m.prev_last_row_index_ < log.length) :
    (update_visible_annotations m).prev_last_row_index_ < log.length := by
  have hemp : log.isEmpty = false := by
    cases log with
    | nil => simp at hcur
    | cons a l => rfl
  simp only [update_visible_annotations, hlog, hmutex, hemp, Bool.false_eq_true, if_false]
  rcases scan_loop_cursor m.visible_ann_class_ids_ (log.drop m.prev_last_row_index_)
    m.prev_last_row_index_ ⟨m.visible_annotations_, m.visible_annotations_.length,
      m.prev_last_row_index_, 0⟩ with h | ⟨-, h⟩
  · rw [h]
    exact hcur
  · rw [List.length_drop] at h
    omega

theorem update_visible_annotations_from_reset (m : AnnotationCollectionModel)
    (log : List Annotation) (hlog : m.all_annotations_ = some log)
    (hmutex : m.output_mutex_ = true) (hvis : m.visible_annotations_ = [])
    (hcur : m.prev_last_row_index_ = 0) :
    (update_visible_annotations m).visible_annotations_ =
      visible_filter m.visible_ann_class_ids_ log := by
  by_cases hne : log = []
  · subst hne
    simp [update_visible_annotations, hlog, hmutex, visible_filter]
  · rw [update_visible_annotations_visible m log hlog hmutex hne, hvis, hcur]
    simp

/-- The entries the loop of `update_visible_annotations` is run on are the
entries of the log at the indices `examined_indices` lists. -/
theorem examined_indices_entries (m : AnnotationCollectionModel) (log : List Annotation)
    (hlog : m.all_annotations_ = some log) (hmutex : m.output_mutex_ = true)
    (hne : log ≠ []) :
    (examined_indices m).map (fun i => log.get? i) =
      (log.drop m.prev_last_row_index_).map some := by
  have hemp : log.isEmpty = false := by
    cases log with
    | nil => exact absurd rfl hne
    | cons a l => rfl
  simp only [examined_indices, hlog, hmutex, hemp, Bool.false_eq_true, if_false]
  apply List.ext_getElem?
  intro n
  simp only [List.getElem?_map, List.getElem?_range', List.getElem?_drop, List.get?_eq_getElem?]
  by_cases hn : n < log.length - m.prev_last_row_index_
  · have hlt : m.prev_last_row_index_ + n < log.length := by omega
    simp [hn, List.getElem?_eq_getElem hlt]
  · have hge : log.length ≤ m.prev_last_row_index_ + n := by omega
    simp [hn, List.getElem?_eq_none hge]
    omega

theorem update_visible_annotations_no_log (m : AnnotationCollectionModel)
    (hlog : m.all_annotations_ = none) :
    (update_visible_annotations m).visible_annotations_ = [] := by
  unfold update_visible_annotations
  rw [hlog]
  cases m.output_mutex_ <;> rfl

theorem update_data_visible (m : AnnotationCollectionModel) :
    (update_data m).visible_annotations_ = (update_visible_annotations m).visible_annotations_ := by
  unfold update_data
  dsimp only
  split <;> rfl

theorem update_visible_annotations_classes (m : AnnotationCollectionModel) :
    (update_visible_annotations m).visible_ann_class_ids_ = m.visible_ann_class_ids_ ∧
    (update_visible_annotations m).all_annotations_ = m.all_annotations_ := by
  unfold update_visible_annotations
  dsimp only
  split
  · split <;> exact ⟨rfl, rfl⟩
  · exact ⟨rfl, rfl⟩

theorem update_data_classes (m : AnnotationCollectionModel) :
    (update_data m).visible_ann_class_ids_ = m.visible_ann_class_ids_ ∧
    (update_data m).all_annotations_ = m.all_annotations_ := by
  unfold update_data
  dsimp only
  split <;> exact update_visible_annotations_classes m

theorem index_of_row (m : AnnotationCollectionModel) (row : Nat) (c : Int)
    (p : Option Annotation) (h : m.visible_annotations_.get? row = some p) :
    index m (row : Int) c = { row := (row : Int), column := c, internalPointer := p, model := true } := by
  have hlt : row < m.visible_annotations_.length := by
    by_contra hge
    rw [List.get?_eq_none.mpr (by omega)] at h
    cases h
  have hneg : ¬ ((row : Int) < 0) := by omega
  have h2 : m.visible_annotations_[row]? = some p := by simpa using h
  rw [List.getElem?_eq_getElem hlt] at h2
  simp [index, hneg, hlt, Option.some.inj h2]

theorem index_past_end (m : AnnotationCollectionModel) (row : Nat) (c : Int)
    (h : m.visible_annotations_.length ≤ row) : index m (row : Int) c = QModelIndex.invalid := by
  have hneg : ¬ ((row : Int) < 0) := by omega
  have hlt : ¬ (row < m.visible_annotations_.length) := by omega
  simp [index, hneg, hlt]

theorem index_row_cases (m : AnnotationCollectionModel) (row : Nat) (c : Int) :
    (index m (row : Int) c).row = (row : Int) ∨ (index m (row : Int) c).row = -1 := by
  by_cases h : row < m.visible_annotations_.length
  · left
    have hneg : ¬ ((row : Int) < 0) := by omega
    simp [index, hneg, h]
  · right
    rw [index_past_end m row c (by omega)]
    rfl

/-- The `do`/`while` scan over the rows `r..l`, all holding a record: it
ends at the first row whose record passes the covering test, or by its loop
condition after row `l` when none does; `n + 1` passes are enough for
`n + 1` rows. -/
theorem highlight_scan_rows (m : AnnotationCollectionModel) (sample : Int) (l : Nat)
    (hl : l < m.visible_annotations_.length) :
    ∀ (n r : Nat) (idx : QModelIndex) (fuel : Nat), r + n = l → n < fuel →
      idx.row = (r : Int) → idx.model = true →
      idx.internalPointer = (m.visible_annotations_.get? r).join →
      (∀ k, r ≤ k → k ≤ l → ∃ ann, m.visible_annotations_.get? k = some (some ann)) →
      (∃ k ann idx1, r ≤ k ∧ k ≤ l ∧ m.visible_annotations_.get? k = some (some ann) ∧
          covers ann sample = true ∧
          (∀ j b, r ≤ j → j < k → m.visible_annotations_.get? j = some (some b) →
            covers b sample = false) ∧
          highlight_scan m sample (index m ((l : Int) + 1) 0) fuel idx =
            some (ScanOutcome.found idx1) ∧
          idx1.row = (k : Int) ∧ idx1.internalPointer = some ann ∧ idx1.model = true) ∨
      ((∀ k ann, r ≤ k → k ≤ l → m.visible_annotations_.get? k = some (some ann) →
          covers ann sample = false) ∧
        highlight_scan m sample (index m ((l : Int) + 1) 0) fuel idx =
          some ScanOutcome.finished) := by
  intro n
  induction n with
  | zero =>
    intro r idx fuel hrl hfuel hrow hmodel hptr hrows
    obtain ⟨fuel, rfl⟩ : ∃ f, fuel = f + 1 := ⟨fuel - 1, by omega⟩
    have hr : r = l := by omega
    subst hr
    obtain ⟨ann, hann⟩ := hrows r (Nat.le_refl _) (Nat.le_refl _)
    have hp : idx.internalPointer = some ann := by rw [hptr, hann]; rfl
    by_cases hc : covers ann sample = true
    · left
      refine ⟨r, ann, idx, Nat.le_refl _, Nat.le_refl _, hann, hc, ?_, ?_, hrow, hp, hmodel⟩
      · intro j b h1 h2
        omega
      · simp [highlight_scan, hp, hc]
    · right
      have hc2 : covers ann sample = false := by simpa using hc
      refine ⟨?_, ?_⟩
      · intro k b h1 h2 hk
        have hkr : k = r := by omega
        subst hkr
        rw [hann] at hk
        cases hk
        exact hc2
      · have hne : ¬ (idx.row = (r : Int) + 1 ∧ idx.column = 0) := by
          intro h
          omega
        simp [highlight_scan, hp, hc2, QModelIndex.sibling, hmodel, hrow, hne]
  | succ n ih =>
    intro r idx fuel hrl hfuel hrow hmodel hptr hrows
    obtain ⟨fuel, rfl⟩ : ∃ f, fuel = f + 1 := ⟨fuel - 1, by omega⟩
    obtain ⟨ann, hann⟩ := hrows r (Nat.le_refl _) (by omega)
    have hp : idx.internalPointer = some ann := by rw [hptr, hann]; rfl
    by_cases hc : covers ann sample = true
    · left
      refine ⟨r, ann, idx, Nat.le_refl _, by omega, hann, hc, ?_, ?_, hrow, hp, hmodel⟩
      · intro j b h1 h2
        omega
      · simp [highlight_scan, hp, hc]
    · have hc2 : covers ann sample = false := by simpa using hc
      obtain ⟨b1, hb1⟩ := hrows (r + 1) (by omega) (by omega)
      have hnext : index m ((r : Int) + 1) 0 =
          { row := ((r + 1 : Nat) : Int), column := 0, internalPointer := some b1,
            model := true } := by
        have := index_of_row m (r + 1) 0 (some b1) hb1
        rw [← this]
        push_cast
        rfl
      have hne : ¬ (idx.row = (r : Int) + 1 ∧ idx.column = 0) := by
        intro h
        omega
      have hlast : index m ((r : Int) + 1) 0 ≠ index m ((l : Int) + 1) 0 := by
        intro heq
        have hrw : (index m ((l : Int) + 1) 0).row = ((r + 1 : Nat) : Int) := by
          rw [← heq, hnext]
        have hcases := index_row_cases m (l + 1) 0
        push_cast at hcases hrw
        omega
      have hstep : highlight_scan m sample (index m ((l : Int) + 1) 0) (fuel + 1) idx =
          highlight_scan m sample (index m ((l : Int) + 1) 0) fuel (index m ((r : Int) + 1) 0) := by
        simp [highlight_scan, hp, hc2, QModelIndex.sibling, hmodel, hrow, hne, hlast]
      have hih := ih (r + 1) (index m ((r : Int) + 1) 0) fuel (by omega) (by omega)
        (by rw [hnext]) (by rw [hnext]) (by rw [hnext, hb1]; rfl)
        (fun k h1 h2 => hrows k (by omega) h2)
      rw [hstep]
      rcases hih with ⟨k, a, idx1, h1, h2, h3, h4, h5, h6, h7⟩ | ⟨h1, h2⟩
      · left
        refine ⟨k, a, idx1, by omega, h2, h3, h4, ?_, h6, h7⟩
        intro j b hj1 hj2 hj
        by_cases hjr : j = r
        · subst hjr
          rw [hann] at hj
          cases hj
          exact hc2
        · exact h5 j b (by omega) hj2 hj
      · right
        refine ⟨?_, h2⟩
        intro k b hk1 hk2 hk
        by_cases hkr : k = r
        · subst hkr
          rw [hann] at hk
          cases hk
          exact hc2
        · exact h1 k b (by omega) hk2 hk

theorem toInt64_of_lt (x : Nat) (h : x < 2 ^ 63) : toInt64 x = (x : Int) := by
  have h1 : x % 2 ^ 64 = x := Nat.mod_eq_of_lt (by omega)
  unfold toInt64
  rw [h1, if_pos h]

theorem covers_eq_contains (ann : Annotation) (sample : Int) (h1 : ann.start_sample < 2 ^ 63)
    (h2 : ann.end_sample < 2 ^ 63) : covers ann sample = ann.contains sample := by
  simp [covers, Annotation.contains, toInt64_of_lt _ h1, toInt64_of_lt _ h2]

/-! ### C1: Filter correctness -/

/-- C1 (filter correctness). From the reset indexer state (nothing visible,
scan cursor 0) over an assigned log, one run of `update_visible_annotations`
leaves in `visible_annotations_` exactly the records of the log whose key is
in the visible-class set, in log order. -/
theorem update_visible_annotations_filter_correct (m : AnnotationCollectionModel)
    (log : List Annotation) (hlog : m.all_annotations_ = some log)
    (hmutex : m.output_mutex_ = true) (hvis : m.visible_annotations_ = [])
    (hcur : m.prev_last_row_index_ = 0) :
    (update_visible_annotations m).visible_annotations_ =
      (log.filter (fun r => decide (r.class_key ∈ m.visible_ann_class_ids_))).map some :=
  update_visible_annotations_from_reset m log hlog hmutex hvis hcur

/-- C1, at the three-record log with both classes visible: all three records
become visible. -/
theorem update_visible_annotations_filter_correct_witness :
    (update_visible_annotations sample_reset_model).visible_annotations_ =
      (sample_log.filter
        (fun r => decide (r.class_key ∈ sample_reset_model.visible_ann_class_ids_))).map some :=
  update_visible_annotations_filter_correct sample_reset_model sample_log rfl rfl rfl rfl

/-! ### C2: Incremental equivalence -/

/-- C2 (incremental equivalence), evaluated: with class 1 visible and the log
first empty, appending (0,10) and (50,60) with an `update_data` after each
append leaves three visible rows, the first record twice, while one
`update_data` after both appends leaves the two records; and a second
`update_data` without any append turns one visible row into two. -/
theorem update_data_after_each_append_differs :
    (update_data ((update_data (empty_model.append_to_log ⟨0, 10, 0, 1⟩)).append_to_log
        sample_late)).visible_annotations_ =
      [some ⟨0, 10, 0, 1⟩, some ⟨0, 10, 0, 1⟩, some sample_late] ∧
    (update_data ((empty_model.append_to_log ⟨0, 10, 0, 1⟩).append_to_log
        sample_late)).visible_annotations_ =
      [some ⟨0, 10, 0, 1⟩, some sample_late] ∧
    (update_data (empty_model.append_to_log ⟨0, 10, 0, 1⟩)).visible_annotations_ =
      [some ⟨0, 10, 0, 1⟩] ∧
    (update_data (update_data (empty_model.append_to_log ⟨0, 10, 0, 1⟩))).visible_annotations_ =
      [some ⟨0, 10, 0, 1⟩, some ⟨0, 10, 0, 1⟩] := by
  decide

/-! ### C3: Rescan on filter change -/

/-- C3 as stated fails when the new set equals the current one: the model
shows the record (0,10) of a log that has grown to two records of class 1;
`set_visible_classes` with the same set returns at once and the visible
sequence stays the one record, not the filter of the log. -/
theorem set_visible_classes_same_set_no_rescan :
    (single_model.append_to_log sample_late).all_annotations_ =
      some [⟨0, 10, 0, 1⟩, sample_late] ∧
    (single_model.append_to_log sample_late).visible_ann_class_ids_ = sample_class_one ∧
    (set_visible_classes (single_model.append_to_log sample_late)
        sample_class_one).visible_annotations_ = [some ⟨0, 10, 0, 1⟩] ∧
    (set_visible_classes (single_model.append_to_log sample_late)
        sample_class_one).visible_annotations_ ≠
      ([⟨0, 10, 0, 1⟩, sample_late].filter
        (fun r => decide (r.class_key ∈ sample_class_one))).map some := by
  decide

/-- C3, amended (rescan on filter change). With a log assigned, a call of
`set_visible_classes` with a set that differs from the current one leaves
the new set in place and `visible_annotations_` equal to the records of the
log whose key is in the new set, in log order, whatever was visible before
and wherever the cursor stood; a call with the current set changes nothing. -/
theorem set_visible_classes_rescan (m : AnnotationCollectionModel) (log : List Annotation)
    (B : Finset Nat) (hlog : m.all_annotations_ = some log) (hmutex : m.output_mutex_ = true) :
    (B ≠ m.visible_ann_class_ids_ →
      (set_visible_classes m B).visible_ann_class_ids_ = B ∧
      (set_visible_classes m B).visible_annotations_ =
        (log.filter (fun r => decide (r.class_key ∈ B))).map some) ∧
    (B = m.visible_ann_class_ids_ → set_visible_classes m B = m) := by
  constructor
  · intro hne
    simp only [set_visible_classes, hne, if_false]
    refine ⟨(update_data_classes _).1, ?_⟩
    rw [update_data_visible]
    exact update_visible_annotations_from_reset _ log hlog hmutex rfl rfl
  · intro heq
    simp [set_visible_classes, heq]

/-- C3 amended, at a model that shows all three records of `sample_log`:
switching to class 1 alone leaves the two records of class 1. -/
theorem set_visible_classes_rescan_witness :
    sample_class_one ≠ sample_model.visible_ann_class_ids_ ∧
    (set_visible_classes sample_model sample_class_one).visible_annotations_ =
      [some ⟨0, 10, 0, 1⟩, some ⟨20, 30, 0, 1⟩] :=
  ⟨by decide,
    ((set_visible_classes_rescan sample_model sample_log sample_class_one (by decide)
      (by decide)).1 (by decide)).2.trans (by decide)⟩

/-! ### C4: Range filter -/

/-- C4 (range filter). For a row of the source model that holds a record,
`filterAcceptsRow` accepts the row iff range filtering is disabled or the
record ends at or after the start of the range and starts at or before its
end. -/
theorem filterAcceptsRow_iff (ext : Externals) (f : CustomFilterProxyModel)
    (src : AnnotationCollectionModel) (row : Nat) (ann : Annotation)
    (hsig : src.signal_.isSome = true)
    (hrow : src.visible_annotations_.get? row = some (some ann)) :
    filterAcceptsRow ext f src (row : Int) = true ↔
      (f.range_filtering_enabled_ = false ∨
        (ann.end_sample ≥ f.range_start_sample_ ∧ ann.start_sample ≤ f.range_end_sample_)) := by
  obtain ⟨sig, hsig⟩ := Option.isSome_iff_exists.mp hsig
  have hrow0 : (0 : Int) ≤ (row : Int) := by omega
  simp only [filterAcceptsRow, index_of_row src row _ _ hrow, data, hsig, QModelIndex.isValid,
    data_from_ann]
  cases hen : f.range_filtering_enabled_
  · simp
  · simp [hrow0, QVariant.toULongLong]

/-- C4, at the range [100, 200]: the record [50, 99] is excluded, [50, 100]
is included, [200, 250] is included, [201, 250] is excluded and [0, 1000] is
included. -/
theorem filterAcceptsRow_iff_witness :
    filterAcceptsRow sample_externals ⟨100, 200, true⟩ range_model 0 = false ∧
    filterAcceptsRow sample_externals ⟨100, 200, true⟩ range_model 1 = true ∧
    filterAcceptsRow sample_externals ⟨100, 200, true⟩ range_model 2 = true ∧
    filterAcceptsRow sample_externals ⟨100, 200, true⟩ range_model 3 = false ∧
    filterAcceptsRow sample_externals ⟨100, 200, true⟩ range_model 4 = true :=
  ⟨Bool.eq_false_iff.mpr (fun h => absurd
      ((filterAcceptsRow_iff sample_externals ⟨100, 200, true⟩ range_model 0 ⟨50, 99, 0, 1⟩
        (by decide) (by decide)).mp h) (by decide)),
    (filterAcceptsRow_iff sample_externals ⟨100, 200, true⟩ range_model 1 ⟨50, 100, 0, 1⟩
      (by decide) (by decide)).mpr (by decide),
    (filterAcceptsRow_iff sample_externals ⟨100, 200, true⟩ range_model 2 ⟨200, 250, 0, 1⟩
      (by decide) (by decide)).mpr (by decide),
    Bool.eq_false_iff.mpr (fun h => absurd
      ((filterAcceptsRow_iff sample_externals ⟨100, 200, true⟩ range_model 3 ⟨201, 250, 0, 1⟩
        (by decide) (by decide)).mp h) (by decide)),
    (filterAcceptsRow_iff sample_externals ⟨100, 200, true⟩ range_model 4 ⟨0, 1000, 0, 1⟩
      (by decide) (by decide)).mpr (by decide)⟩

/-! ### C5: Highlight first match -/

/-- C5 as stated fails for a record that ends at sample 2^63 or later: the
one visible record spans the samples 0 to 2^63, so its interval contains
sample 5, and `update_highlighted_rows` returns no row, because the end
sample is compared after conversion to `int64_t`, where it is negative. -/
theorem update_highlighted_rows_misses_long_record :
    long_model.visible_annotations_ = [some ⟨0, 9223372036854775808, 0, 1⟩] ∧
    Annotation.contains ⟨0, 9223372036854775808, 0, 1⟩ 5 = true ∧
    (update_highlighted_rows long_model (index long_model 0 0) (index long_model 0 0) 5).map
      (fun r => r.result) = some QModelIndex.invalid := by
  decide

/-- C5, amended (highlight first match). For a visible sequence, a sample
that is not negative and rows `first ≤ last` inside the sequence whose
records have start and end samples below 2^63, `update_highlighted_rows`
returns the lowest-positioned row of `first..last` whose inclusive interval
`[start_sample, end_sample]` contains the sample, and returns the invalid
index iff no row of the range contains it. -/
theorem update_highlighted_rows_first_match (m : AnnotationCollectionModel) (first last : Nat)
    (c1 c2 : Int) (sample : Int) (hfl : first ≤ last)
    (hl : last < m.visible_annotations_.length) (hs : 0 ≤ sample)
    (hrows : ∀ k, first ≤ k → k ≤ last → ∃ ann,
      m.visible_annotations_.get? k = some (some ann) ∧
      ann.start_sample < 2 ^ 63 ∧ ann.end_sample < 2 ^ 63) :
    ∃ res, update_highlighted_rows m (index m (first : Int) c1) (index m (last : Int) c2) sample
        = some res ∧
      first_match_spec m first last sample res.result ∧
      (res.result = QModelIndex.invalid ↔
        ∀ k ann, first ≤ k → k ≤ last → m.visible_annotations_.get? k = some (some ann) →
          ann.contains sample = false) := by
  obtain ⟨af, haf, -, -⟩ := hrows first (Nat.le_refl _) hfl
  obtain ⟨al, hal, -, -⟩ := hrows last hfl (Nat.le_refl _)
  have hfirst := index_of_row m first c1 (some af) haf
  have hlastidx := index_of_row m last c2 (some al) hal
  have hscan := highlight_scan_rows { m with highlight_sample_num_ := sample } sample last hl
    (last - first) first (index m (first : Int) c1) (m.visible_annotations_.length + 2)
    (by omega) (by omega) (by rw [hfirst]) (by rw [hfirst]) (by rw [hfirst, haf]; rfl)
    (fun k h1 h2 => (hrows k h1 h2).imp (fun _ h => h.1))
  have hemp : m.visible_annotations_.isEmpty = false := by
    cases hv : m.visible_annotations_ with
    | nil => rw [hv] at hl; simp at hl
    | cons a t => rfl
  have hsib : QModelIndex.sibling { m with highlight_sample_num_ := sample }
      (index m (last : Int) c2) ((index m (last : Int) c2).row + 1) 0 =
      index { m with highlight_sample_num_ := sample } ((last : Int) + 1) 0 := by
    rw [hlastidx]
    simp [QModelIndex.sibling]
  have hconv : ∀ k ann, first ≤ k → k ≤ last →
      m.visible_annotations_.get? k = some (some ann) →
      covers ann sample = ann.contains sample := by
    intro k ann h1 h2 hk
    obtain ⟨b, hb, hb1, hb2⟩ := hrows k h1 h2
    rw [hk] at hb
    cases hb
    exact covers_eq_contains ann sample hb1 hb2
  have hspec : ∀ r : QModelIndex, first_match_spec m first last sample r →
      (r = QModelIndex.invalid ↔
        ∀ k ann, first ≤ k → k ≤ last → m.visible_annotations_.get? k = some (some ann) →
          ann.contains sample = false) := by
    intro r hr
    rcases hr with ⟨k, a, h1, h2, h3, h4, -, -, -, h8⟩ | ⟨h1, h2⟩
    · constructor
      · intro hinv
        rw [hinv] at h8
        cases h8
      · intro hall
        rw [hall k a h1 h2 h3] at h4
        cases h4
    · exact ⟨fun _ => h1, fun _ => h2⟩
  simp only [update_highlighted_rows, hemp, hs, rowCount, hsib, Bool.false_eq_true, if_false,
    if_true]
  rcases hscan with ⟨k, a, idx1, h1, h2, h3, h4, h5, h6, h7, h8, h9⟩ | ⟨h1, h2⟩
  · rw [h6]
    have hres : first_match_spec m first last sample idx1 := by
      left
      refine ⟨k, a, h1, h2, h3, ?_, ?_, h7, h8, h9⟩
      · rw [← hconv k a h1 h2 h3]
        exact h4
      · intro j b hj1 hj2 hj
        rw [← hconv j b hj1 (by omega) hj]
        exact h5 j b hj1 hj2 hj
    exact ⟨_, rfl, hres, hspec _ hres⟩
  · rw [h2]
    have hres : first_match_spec m first last sample QModelIndex.invalid := by
      right
      refine ⟨?_, rfl⟩
      intro k b hk1 hk2 hk
      rw [← hconv k b hk1 hk2 hk]
      exact h1 k b hk1 hk2 hk
    exact ⟨_, rfl, hres, hspec _ hres⟩

/-- C5 amended, at the rows (0,10), (20,30), (25,40) and sample 25: the row
returned is row 1, the record (20,30), not (25,40). -/
theorem update_highlighted_rows_first_match_witness :
    (∃ res, update_highlighted_rows sample_model (index sample_model 0 0)
        (index sample_model 2 0) 25 = some res ∧
      first_match_spec sample_model 0 2 25 res.result ∧
      (res.result = QModelIndex.invalid ↔
        ∀ k ann, 0 ≤ k → k ≤ 2 → sample_model.visible_annotations_.get? k = some (some ann) →
          ann.contains 25 = false)) ∧
    sample_model.visible_annotations_ =
      [some ⟨0, 10, 0, 1⟩, some ⟨20, 30, 0, 1⟩, some ⟨25, 40, 0, 2⟩] ∧
    (update_highlighted_rows sample_model (index sample_model 0 0)
        (index sample_model 2 0) 25).map (fun r => (r.result.row, r.result.internalPointer)) =
      some (1, some ⟨20, 30, 0, 1⟩) :=
  ⟨update_highlighted_rows_first_match sample_model 0 2 0 0 25 (by decide) (by decide)
      (by decide)
      (by
        intro k h1 h2
        have hk : k = 0 ∨ k = 1 ∨ k = 2 := by omega
        rcases hk with rfl | rfl | rfl
        · exact ⟨⟨0, 10, 0, 1⟩, by decide, by decide, by decide⟩
        · exact ⟨⟨20, 30, 0, 1⟩, by decide, by decide, by decide⟩
        · exact ⟨⟨25, 40, 0, 2⟩, by decide, by decide, by decide⟩),
    by decide, by decide⟩

/-! ### C6: Highlight negative query -/

/-- C6 as stated fails on an empty visible sequence: after a query that
found a row and a change of the visible classes to none, nothing is visible
and `had_highlight_before_` is true; the query with sample -1 returns at
once and `had_highlight_before_` is still true. -/
theorem negative_query_keeps_flag_when_empty :
    highlighted_then_hidden.map
      (fun m => (m.visible_annotations_, m.had_highlight_before_)) = some ([], true) ∧
    (highlighted_then_hidden.bind
      (fun m => update_highlighted_rows m QModelIndex.invalid QModelIndex.invalid (-1))).map
      (fun r => (r.result, r.model.highlight_sample_num_, r.model.had_highlight_before_)) =
      some (QModelIndex.invalid, -1, true) := by
  decide

/-- C6, amended (highlight negative query). For every model state and every
negative sample, `update_highlighted_rows` returns the invalid index and
stores the sample, with which `data` highlights no record; when the visible
sequence is not empty it sets `had_highlight_before_` to false, and when the
visible sequence is empty it leaves `had_highlight_before_` as it was. -/
theorem update_highlighted_rows_negative (m : AnnotationCollectionModel)
    (first last : QModelIndex) (sample : Int) (hneg : sample < 0) :
    ∃ res, update_highlighted_rows m first last sample = some res ∧
      res.result = QModelIndex.invalid ∧
      res.model.highlight_sample_num_ = sample ∧
      (∀ ann, must_highlight res.model ann = false) ∧
      (m.visible_annotations_ ≠ [] → res.model.had_highlight_before_ = false) ∧
      (m.visible_annotations_ = [] →
        res.model.had_highlight_before_ = m.had_highlight_before_) := by
  have hs : ¬ (0 ≤ sample) := by omega
  cases hv : m.visible_annotations_ with
  | nil =>
    refine ⟨_, by simp [update_highlighted_rows, hv]; rfl, rfl, rfl, ?_, ?_, ?_⟩
    · intro ann
      simp [must_highlight]
      intro h
      omega
    · intro h
      exact absurd rfl h
    · intro _
      rfl
  | cons a t =>
    refine ⟨_, by simp [update_highlighted_rows, hv, hs]; rfl, rfl, rfl, ?_, ?_, ?_⟩
    · intro ann
      simp [must_highlight, highlight_finish]
      intro h
      omega
    · intro _
      rfl
    · intro h
      cases h

/-- C6 amended, at the model that shows the three records after a query
that found a row: the query with sample -1 returns no row, stores -1 and
clears `had_highlight_before_`. -/
theorem update_highlighted_rows_negative_witness :
    ∃ res, update_highlighted_rows
        { sample_model with had_highlight_before_ := true, highlight_sample_num_ := 25 }
        (index sample_model 0 0) (index sample_model 2 0) (-1) = some res ∧
      res.result = QModelIndex.invalid ∧
      res.model.highlight_sample_num_ = -1 ∧
      res.model.had_highlight_before_ = false :=
  (update_highlighted_rows_negative
    { sample_model with had_highlight_before_ := true, highlight_sample_num_ := 25 }
    (index sample_model 0 0) (index sample_model 2 0) (-1) (by decide)).imp
    (fun _ h => ⟨h.1, h.2.1, h.2.2.1, h.2.2.2.2.1 (by decide)⟩)

/-! ### C7: Cursor after a full update -/

/-- C7 (cursor equals N after a full update), evaluated: after the full
update from the reset state over the one-record log (N = 1) the cursor is 0,
and after the full update over the three-record log (N = 3), all records
visible, it is 2: the index of the last matching record, not the number of
records. -/
theorem cursor_after_full_update :
    single_reset_model.all_annotations_ = some [⟨0, 10, 0, 1⟩] ∧
    (update_visible_annotations single_reset_model).visible_annotations_ =
      [some ⟨0, 10, 0, 1⟩] ∧
    (update_visible_annotations single_reset_model).prev_last_row_index_ = 0 ∧
    sample_reset_model.all_annotations_ = some sample_log ∧
    sample_log.length = 3 ∧
    (update_visible_annotations sample_reset_model).visible_annotations_ =
      sample_log.map some ∧
    (update_visible_annotations sample_reset_model).prev_last_row_index_ = 2 := by
  decide

/-! ### C8: Cursor advance -/

/-- C8 (cursor advance), evaluated: from the reset state over the one-record
log with its class visible, the first run examines index 0 and leaves the
cursor at 0, and the next run examines index 0 again and appends the record
a second time; from the reset state over the three-record log with no class
visible, the first run examines the indices 0, 1, 2 and leaves the cursor at
0, and the next run examines 0, 1, 2 again. -/
theorem second_run_examines_again :
    examined_indices single_reset_model = [0] ∧
    (update_visible_annotations single_reset_model).prev_last_row_index_ = 0 ∧
    (update_visible_annotations single_reset_model).visible_annotations_ =
      [some ⟨0, 10, 0, 1⟩] ∧
    examined_indices (update_visible_annotations single_reset_model) = [0] ∧
    (update_visible_annotations
        (update_visible_annotations single_reset_model)).visible_annotations_ =
      [some ⟨0, 10, 0, 1⟩, some ⟨0, 10, 0, 1⟩] ∧
    examined_indices { sample_reset_model with visible_ann_class_ids_ := ∅ } = [0, 1, 2] ∧
    (update_visible_annotations
        { sample_reset_model with visible_ann_class_ids_ := ∅ }).prev_last_row_index_ = 0 ∧
    examined_indices (update_visible_annotations
        { sample_reset_model with visible_ann_class_ids_ := ∅ }) = [0, 1, 2] := by
  decide

/-! ### C9: Indexer invariant -/

/-- C9 (indexer invariant), evaluated: the state after construction,
selection of a signal with the one-record log, selection of class 1 and one
more `update_data` is reachable, its log holds one record and its visible
sequence holds that record twice, so it is no subsequence of the log. -/
theorem reachable_state_with_duplicate :
    Reachable (update_data single_model) ∧
    (update_data single_model).all_annotations_ = some [⟨0, 10, 0, 1⟩] ∧
    (update_data single_model).visible_annotations_ =
      [some ⟨0, 10, 0, 1⟩, some ⟨0, 10, 0, 1⟩] ∧
    ¬ List.Sublist (update_data single_model).visible_annotations_
      ([⟨0, 10, 0, 1⟩].map some) := by
  refine ⟨?_, by decide, by decide, ?_⟩
  · exact Reachable.update_data (Reachable.set_visible_classes _
      (Reachable.set_signal_and_segment _ _ (Reachable.construct 0)))
  · intro h
    have hlen := h.length_le
    revert hlen
    decide

/-! ### C10: Rescan on signal or segment change -/

/-- C10 (rescan on signal or segment change). Whatever the model showed
before and wherever its cursor stood, `set_signal_and_segment` with a
non-null signal leaves the log of that signal and segment assigned, the
visible-class set as it was, and `visible_annotations_` equal to the records
of that log whose key is in the set, in log order (no record at all when the
signal has no log for the segment). -/
theorem set_signal_and_segment_rescan (m : AnnotationCollectionModel) (sig : DecodeSignal)
    (segment : Nat) :
    (set_signal_and_segment m (some sig) segment).all_annotations_ =
      sig.get_all_annotations_by_segment segment ∧
    (set_signal_and_segment m (some sig) segment).visible_ann_class_ids_ =
      m.visible_ann_class_ids_ ∧
    (set_signal_and_segment m (some sig) segment).visible_annotations_ =
      (((sig.get_all_annotations_by_segment segment).getD []).filter
        (fun r => decide (r.class_key ∈ m.visible_ann_class_ids_))).map some := by
  simp only [set_signal_and_segment]
  refine ⟨?_, ?_, ?_⟩
  · rw [(update_data_classes _).2]
  · rw [(update_data_classes _).1]
  · rw [update_data_visible]
    cases hlog : sig.get_all_annotations_by_segment segment with
    | none =>
      rw [update_visible_annotations_no_log _ rfl]
      rfl
    | some log => exact update_visible_annotations_from_reset _ log rfl rfl rfl rfl

/-- C10, at a model that shows the record of the one-record log twice:
selecting `sample_signal` leaves class 1 in place and shows the two records
of class 1 of the new log, and nothing of the old one. -/
theorem set_signal_and_segment_rescan_witness :
    (update_data single_model).visible_annotations_ =
      [some ⟨0, 10, 0, 1⟩, some ⟨0, 10, 0, 1⟩] ∧
    (set_signal_and_segment (update_data single_model) (some sample_signal) 0).visible_annotations_
      = [some ⟨0, 10, 0, 1⟩, some ⟨20, 30, 0, 1⟩] :=
  ⟨by decide,
    (set_signal_and_segment_rescan (update_data single_model) sample_signal 0).2.2.trans
      (by decide)⟩

/-! ### Auxiliary facts on the checked scan -/

theorem scan_body_checked_ok (ids : Finset Nat) (ann : Annotation) (i : Nat) (s : ScanState) :
    scan_body_checked ids ann i s = Except.ok (scan_body ids ann i s) := by
  unfold scan_body_checked scan_body
  by_cases hk : ann.class_key ∈ ids
  · by_cases hlen : s.visible_annotations_.length < s.count + 100
    · simp [hk, hlen, deque_resize_length]
    · have hc : s.count < s.visible_annotations_.length := by omega
      simp [hk, hlen, hc]
  · simp [hk]

theorem scan_loop_checked_ok (ids : Finset Nat) (log : List Annotation) :
    ∀ (fuel i : Nat) (s : ScanState), log.length - i < fuel →
      scan_loop_checked ids log fuel i s = Except.ok (scan_loop ids (log.drop i) i s) := by
  intro fuel
  induction fuel with
  | zero =>
    intro i s h
    omega
  | succ fuel ih =>
    intro i s h
    by_cases hi : i < log.length
    · have hget : log.get? i = some (log.get ⟨i, hi⟩) := List.get?_eq_get hi
      have hdrop : log.drop i = log.get ⟨i, hi⟩ :: log.drop (i + 1) :=
        List.drop_eq_getElem_cons hi
      simp only [scan_loop_checked, hi, if_true, hget, scan_body_checked_ok, hdrop, scan_loop]
      exact ih (i + 1) _ (by omega)
    · have hdrop : log.drop i = [] := List.drop_eq_nil_of_le (by omega)
      simp [scan_loop_checked, hi, hdrop, scan_loop]

/-- The run with checked accesses returns normally, with the state the
embedding `update_visible_annotations` computes. -/
theorem update_visible_annotations_checked_ok (m : AnnotationCollectionModel) :
    update_visible_annotations_checked m = Except.ok (update_visible_annotations m) := by
  unfold update_visible_annotations_checked update_visible_annotations
  dsimp only
  split
  · split
    · rfl
    · rw [scan_loop_checked_ok _ _ _ _ _ (by omega)]
  · rfl

theorem update_visible_annotations_empty_log (m : AnnotationCollectionModel)
    (hlog : m.all_annotations_ = some []) :
    update_visible_annotations m = { m with visible_annotations_ := [] } := by
  unfold update_visible_annotations
  rw [hlog]
  cases m.output_mutex_ <;> rfl

theorem update_visible_annotations_none_log (m : AnnotationCollectionModel)
    (hlog : m.all_annotations_ = none) :
    update_visible_annotations m = { m with visible_annotations_ := [] } := by
  unfold update_visible_annotations
  rw [hlog]
  cases m.output_mutex_ <;> rfl

theorem update_visible_annotations_past_end (m : AnnotationCollectionModel)
    (log : List Annotation) (hlog : m.all_annotations_ = some log)
    (hmutex : m.output_mutex_ = true) (hne : log ≠ [])
    (hpast : log.length ≤ m.prev_last_row_index_) :
    update_visible_annotations m = m := by
  have hemp : log.isEmpty = false := by
    cases log with
    | nil => exact absurd rfl hne
    | cons a l => rfl
  simp only [update_visible_annotations, hlog, hmutex, hemp, Bool.false_eq_true, if_false,
    List.drop_eq_nil_of_le hpast, scan_loop, deque_resize_of_le _ _ (Nat.le_refl _),
    List.take_length]
  rw [← hlog, ← hmutex]

theorem update_data_no_rows (m : AnnotationCollectionModel)
    (hlog : m.all_annotations_ = none ∨ m.all_annotations_ = some []) :
    (update_data m).visible_annotations_ = [] := by
  rw [update_data_visible]
  rcases hlog with h | h
  · rw [update_visible_annotations_none_log m h]
  · rw [update_visible_annotations_empty_log m h]

/-! ### C11: Stale or missing log -/

/-- C11 (stale or missing log). `set_signal_and_segment` with a null signal,
or with a signal that has no log or an empty log for the segment, and
`update_data` in a state without a log or with an empty log (the state after
construction among them), leave `visible_annotations_` empty, so that
`rowCount` is 0, whatever the model showed before; the run of
`update_visible_annotations` in such a state returns normally. -/
theorem missing_log_gives_no_rows :
    (∀ (m : AnnotationCollectionModel) (segment : Nat),
      rowCount (set_signal_and_segment m none segment) = 0) ∧
    (∀ (m : AnnotationCollectionModel) (sig : DecodeSignal) (segment : Nat),
      sig.get_all_annotations_by_segment segment = none ∨
        sig.get_all_annotations_by_segment segment = some [] →
      rowCount (set_signal_and_segment m (some sig) segment) = 0) ∧
    (∀ m : AnnotationCollectionModel,
      m.all_annotations_ = none ∨ m.all_annotations_ = some [] →
      rowCount (update_data m) = 0 ∧
      update_visible_annotations_checked m = Except.ok { m with visible_annotations_ := [] }) ∧
    (∀ h : Int, rowCount (update_data (AnnotationCollectionModel.construct h)) = 0) := by
  refine ⟨fun m segment => rfl, ?_, ?_, ?_⟩
  · intro m sig segment h
    simp only [rowCount, set_signal_and_segment]
    rw [update_data_no_rows _ h]
    rfl
  · intro m h
    refine ⟨?_, ?_⟩
    · simp only [rowCount]
      rw [update_data_no_rows m h]
      rfl
    · rw [update_visible_annotations_checked_ok]
      rcases h with h | h
      · rw [update_visible_annotations_none_log m h]
      · rw [update_visible_annotations_empty_log m h]
  · intro h
    simp only [rowCount]
    rw [update_data_no_rows _ (Or.inl rfl)]
    rfl

/-- C11, evaluated at a model that shows three records: after a null signal,
after a signal without a log for segment 7, and after a signal with an empty
log, no row is left. -/
theorem missing_log_gives_no_rows_witness :
    rowCount sample_model = 3 ∧
    rowCount (set_signal_and_segment sample_model none 0) = 0 ∧
    rowCount (set_signal_and_segment sample_model (some sample_signal) 7) = 0 ∧
    rowCount (set_signal_and_segment sample_model (some empty_signal) 0) = 0 ∧
    rowCount (update_data (set_signal_and_segment sample_model none 0)) = 0 :=
  ⟨by decide, missing_log_gives_no_rows.1 sample_model 0,
    missing_log_gives_no_rows.2.1 sample_model sample_signal 7 (Or.inl rfl),
    missing_log_gives_no_rows.2.1 sample_model empty_signal 0 (Or.inr rfl),
    (missing_log_gives_no_rows.2.2.1 (set_signal_and_segment sample_model none 0)
      (Or.inl rfl)).1⟩

/-! ### C13: Key uniqueness -/

theorem packed_id_eq_iff (l1 c1 l2 c2 : Nat) (h1 : l1 < 2 ^ 32) (h2 : c1 < 2 ^ 32)
    (h3 : l2 < 2 ^ 32) (h4 : c2 < 2 ^ 32) :
    AnnotationClassId.id ⟨l1, c1⟩ = AnnotationClassId.id ⟨l2, c2⟩ ↔ l1 = l2 ∧ c1 = c2 := by
  simp only [AnnotationClassId.id, Nat.mod_eq_of_lt h1, Nat.mod_eq_of_lt h2,
    Nat.mod_eq_of_lt h3, Nat.mod_eq_of_lt h4]
  omega

/-- C13 (key uniqueness). For 32-bit stack levels and class ids the 64-bit
value `id` of `AnnotationClassId` is below 2^64 and is the same for two
pairs iff the levels are equal and the class ids are equal, whichever half
of the value the level occupies; so a packed id is among the packed ids of a
list of pairs iff its pair is in the list. -/
theorem annotation_class_id_injective (l1 c1 l2 c2 : Nat) (h1 : l1 < 2 ^ 32)
    (h2 : c1 < 2 ^ 32) (h3 : l2 < 2 ^ 32) (h4 : c2 < 2 ^ 32) :
    (AnnotationClassId.id ⟨l1, c1⟩ = AnnotationClassId.id ⟨l2, c2⟩ ↔ l1 = l2 ∧ c1 = c2) ∧
    (AnnotationClassId.id_big_endian ⟨l1, c1⟩ = AnnotationClassId.id_big_endian ⟨l2, c2⟩ ↔
      l1 = l2 ∧ c1 = c2) ∧
    AnnotationClassId.id ⟨l1, c1⟩ < 2 ^ 64 ∧
    (∀ pairs : List AnnotationClassId,
      (∀ k ∈ pairs, k.dec_stack_level < 2 ^ 32 ∧ k.ann_id < 2 ^ 32) →
      (AnnotationClassId.id ⟨l1, c1⟩ ∈ (pairs.map AnnotationClassId.id).toFinset ↔
        (⟨l1, c1⟩ : AnnotationClassId) ∈ pairs)) := by
  refine ⟨packed_id_eq_iff l1 c1 l2 c2 h1 h2 h3 h4, ?_, ?_, ?_⟩
  · simp only [AnnotationClassId.id_big_endian, Nat.mod_eq_of_lt h1, Nat.mod_eq_of_lt h2,
      Nat.mod_eq_of_lt h3, Nat.mod_eq_of_lt h4]
    omega
  · simp only [AnnotationClassId.id, Nat.mod_eq_of_lt h1, Nat.mod_eq_of_lt h2]
    omega
  · intro pairs hpairs
    simp only [List.mem_toFinset, List.mem_map]
    constructor
    · rintro ⟨k, hk, heq⟩
      obtain ⟨hk1, hk2⟩ := hpairs k hk
      have := (packed_id_eq_iff k.dec_stack_level k.ann_id l1 c1 hk1 hk2 h1 h2).mp heq
      have hkeq : k = ⟨l1, c1⟩ := by
        cases k
        simp only [AnnotationClassId.mk.injEq]
        exact this
      rw [← hkeq]
      exact hk
    · intro hk
      exact ⟨_, hk, rfl⟩

/-- C13, at the pairs (0, 1) and (1, 0): their packed ids differ. -/
theorem annotation_class_id_injective_witness :
    AnnotationClassId.id ⟨0, 1⟩ = 4294967296 ∧ AnnotationClassId.id ⟨1, 0⟩ = 1 ∧
    (AnnotationClassId.id ⟨0, 1⟩ = AnnotationClassId.id ⟨1, 0⟩ ↔ (0 : Nat) = 1 ∧ (1 : Nat) = 0) :=
  ⟨by decide, by decide,
    (annotation_class_id_injective 0 1 1 0 (by decide) (by decide) (by decide) (by decide)).1⟩

/-! ### C16: Hierarchy colouring -/

theorem get_hierarchy_level_eq (sig : DecodeSignal) (ann : Annotation)
    (hlvl : ann.stack_level < sig.decoder_stack.length)
    (hsize : sig.decoder_stack.length < 2 ^ 31) :
    get_hierarchy_level sig ann =
      (sig.decoder_stack.length : Int) - 1 - (ann.stack_level : Int) := by
  have h1 : ann.stack_level % 2 ^ 32 = ann.stack_level := Nat.mod_eq_of_lt (by omega)
  have h2 : sig.decoder_stack.length % 2 ^ 64 = sig.decoder_stack.length :=
    Nat.mod_eq_of_lt (by omega)
  have h3 : (sig.decoder_stack.length + (2 ^ 64 - 1) + (2 ^ 64 - ann.stack_level)) % 2 ^ 64 =
      sig.decoder_stack.length - 1 - ann.stack_level := by omega
  have h4 : (sig.decoder_stack.length - 1 - ann.stack_level) % 2 ^ 32 =
      sig.decoder_stack.length - 1 - ann.stack_level := Nat.mod_eq_of_lt (by omega)
  have h5 : sig.decoder_stack.length - 1 - ann.stack_level < 2 ^ 31 := by omega
  unfold get_hierarchy_level toInt32 DecodeSignal.decoder_stack_size
  rw [h1, h2, h3, h4, if_pos h5]
  omega

/-- C16 (hierarchy colouring). For a cell of a record whose decoder stack
level is below the stack depth (the depth itself below 2^31),
`get_hierarchy_level` is `stack_depth - 1 - decoder_stack_level`, a value
from 0 to `stack_depth - 1`, and `data` returns a brush for the background
role iff the column of the cell is at or beyond that level: one of the
colours of the record there, and no value for the columns before it. -/
theorem hierarchy_colouring (ext : Externals) (m : AnnotationCollectionModel)
    (sig : DecodeSignal) (ann : Annotation) (idx : QModelIndex)
    (hsig : m.signal_ = some sig) (hvalid : idx.isValid = true)
    (hptr : idx.internalPointer = some ann)
    (hlvl : ann.stack_level < sig.decoder_stack.length)
    (hsize : sig.decoder_stack.length < 2 ^ 31) :
    get_hierarchy_level sig ann =
      (sig.decoder_stack.length : Int) - 1 - (ann.stack_level : Int) ∧
    0 ≤ get_hierarchy_level sig ann ∧
    get_hierarchy_level sig ann ≤ (sig.decoder_stack.length : Int) - 1 ∧
    (data ext m idx ItemDataRole.BackgroundRole ≠ QVariant.invalid ↔
      idx.column ≥ get_hierarchy_level sig ann) ∧
    (idx.column ≥ get_hierarchy_level sig ann →
      data ext m idx ItemDataRole.BackgroundRole = QVariant.brush (QBrush.color ann) ∨
      data ext m idx ItemDataRole.BackgroundRole = QVariant.brush (QBrush.dark_color ann) ∨
      data ext m idx ItemDataRole.BackgroundRole = QVariant.brush (QBrush.bright_color ann)) := by
  have hlevel := get_hierarchy_level_eq sig ann hlvl hsize
  refine ⟨hlevel, by omega, by omega, ?_, ?_⟩
  · simp only [data, hsig, hvalid, hptr]
    by_cases hcol : idx.column ≥ get_hierarchy_level sig ann
    · simp only [hcol, if_true, iff_true]
      cases must_highlight m ann <;> cases ext.current_theme_is_dark <;> simp
    · simp [hcol]
  · intro hcol
    simp only [data, hsig, hvalid, hptr, hcol, if_true]
    cases must_highlight m ann <;> cases ext.current_theme_is_dark <;> simp

/-- C16, at the model that shows the three records of one decoder (stack
depth 1, level 0): the hierarchy level is 0 and column 0 of row 1 gets the
bright colour of its record. -/
theorem hierarchy_colouring_witness :
    get_hierarchy_level sample_signal ⟨20, 30, 0, 1⟩ = 0 ∧
    data sample_externals sample_model (index sample_model 1 0) ItemDataRole.BackgroundRole =
      QVariant.brush (QBrush.bright_color ⟨20, 30, 0, 1⟩) :=
  ⟨(hierarchy_colouring sample_externals sample_model sample_signal ⟨20, 30, 0, 1⟩
      (index sample_model 1 0) rfl (by decide) (by decide) (by decide) (by decide)).1.trans
      (by decide),
    by decide⟩

/-! ### C20: Invariant violations -/

/-- C20 as stated fails: the model stands with its cursor at 2 and three
visible rows, and sees a log of one record (shorter than the cursor); the
run of `update_visible_annotations` returns normally and leaves the state as
it was, the three rows included. -/
theorem update_visible_annotations_tolerates_shrunk_log :
    shrunk_model.all_annotations_ = some [⟨0, 10, 0, 1⟩] ∧
    shrunk_model.prev_last_row_index_ = 2 ∧
    shrunk_model.visible_annotations_.length = 3 ∧
    update_visible_annotations_checked shrunk_model = Except.ok shrunk_model := by
  refine ⟨by decide, by decide, by decide, ?_⟩
  rw [update_visible_annotations_checked_ok,
    update_visible_annotations_past_end shrunk_model [⟨0, 10, 0, 1⟩] (by decide) (by decide)
      (by decide) (by decide)]

/-- C20, amended (invariant violations). When `update_visible_annotations`
is run with the scan cursor beyond the length of the assigned log, it raises
no assertion or error: it returns normally, examines no entry, and leaves
the model as it was when the log is not empty, and only clears
`visible_annotations_` when the log is empty. -/
theorem update_visible_annotations_cursor_past_end (m : AnnotationCollectionModel)
    (log : List Annotation) (hlog : m.all_annotations_ = some log)
    (hmutex : m.output_mutex_ = true) (hpast : log.length < m.prev_last_row_index_) :
    examined_indices m = [] ∧
    (log ≠ [] → update_visible_annotations_checked m = Except.ok m) ∧
    (log = [] →
      update_visible_annotations_checked m = Except.ok { m with visible_annotations_ := [] }) := by
  refine ⟨?_, ?_, ?_⟩
  · simp only [examined_indices, hlog, hmutex]
    split
    · rfl
    · simp [Nat.sub_eq_zero_of_le (Nat.le_of_lt hpast)]
  · intro hne
    rw [update_visible_annotations_checked_ok,
      update_visible_annotations_past_end m log hlog hmutex hne (Nat.le_of_lt hpast)]
  · intro he
    subst he
    rw [update_visible_annotations_checked_ok, update_visible_annotations_empty_log m hlog]

/-- C20 amended, at the model with cursor 2 that sees a log of one record:
the run returns normally with the state unchanged. -/
theorem update_visible_annotations_cursor_past_end_witness :
    examined_indices shrunk_model = [] ∧
    update_visible_annotations_checked shrunk_model = Except.ok shrunk_model :=
  ⟨(update_visible_annotations_cursor_past_end shrunk_model [⟨0, 10, 0, 1⟩] (by decide)
      (by decide) (by decide)).1,
    (update_visible_annotations_cursor_past_end shrunk_model [⟨0, 10, 0, 1⟩] (by decide)
      (by decide) (by decide)).2.1 (by decide)⟩

/-! ### C12: Follow-structure mode -/

theorem mem_collect_classes (dec : Decoder) (classes : List AnnotationClass) :
    ∀ (acc : Finset Nat) (k : Nat), k ∈ collect_classes dec acc classes ↔
      k ∈ acc ∨ ∃ cls ∈ classes, cls.visible = true ∧
        k = AnnotationClassId.id ⟨dec.get_stack_level, cls.id⟩ := by
  unfold collect_classes
  induction classes with
  | nil => intro acc k; simp
  | cons c cs ih =>
    intro acc k
    simp only [List.foldl_cons]
    rw [ih]
    cases hv : c.visible
    · simp [hv]
    · simp only [Bool.not_true, Bool.false_eq_true, if_false, Finset.mem_insert, List.mem_cons,
        exists_eq_or_imp, hv, true_and]
      tauto

theorem mem_collect_rows (dec : Decoder) (rows : List Row) :
    ∀ (acc : Finset Nat) (k : Nat), k ∈ collect_rows dec acc rows ↔
      k ∈ acc ∨ ∃ row ∈ rows, row.visible = true ∧ ∃ cls ∈ row.ann_classes,
        cls.visible = true ∧ k = AnnotationClassId.id ⟨dec.get_stack_level, cls.id⟩ := by
  unfold collect_rows
  induction rows with
  | nil => intro acc k; simp
  | cons r rs ih =>
    intro acc k
    simp only [List.foldl_cons]
    rw [ih]
    cases hv : r.visible
    · simp [hv]
    · simp only [Bool.not_true, Bool.false_eq_true, if_false, mem_collect_classes,
        List.mem_cons, exists_eq_or_imp, hv, true_and]
      exact or_assoc

theorem mem_collect_stack (stack : List Decoder) :
    ∀ (acc : Finset Nat) (k : Nat), k ∈ collect_stack acc stack ↔
      k ∈ acc ∨ ∃ dec ∈ stack, dec.visible = true ∧ ∃ row ∈ dec.get_rows, row.visible = true ∧
        ∃ cls ∈ row.ann_classes, cls.visible = true ∧
          k = AnnotationClassId.id ⟨dec.get_stack_level, cls.id⟩ := by
  unfold collect_stack
  induction stack with
  | nil => intro acc k; simp
  | cons d ds ih =>
    intro acc k
    simp only [List.foldl_cons]
    rw [ih]
    cases hv : d.visible
    · simp [hv]
    · simp only [Bool.not_true, Bool.false_eq_true, if_false, mem_collect_rows,
        List.mem_cons, exists_eq_or_imp, hv, true_and]
      exact or_assoc

theorem mem_stack_leaves (stack : List Decoder) (dec : Decoder) (row : Row)
    (cls : AnnotationClass) :
    (dec, row, cls) ∈ stack_leaves stack ↔
      dec ∈ stack ∧ row ∈ dec.get_rows ∧ cls ∈ row.ann_classes := by
  simp only [stack_leaves, List.mem_flatMap, List.mem_map, Prod.mk.injEq]
  constructor
  · rintro ⟨d, hd, r, hr, c, hc, rfl, rfl, rfl⟩
    exact ⟨hd, hr, hc⟩
  · rintro ⟨hd, hr, hc⟩
    exact ⟨dec, hd, row, hr, cls, hc, rfl, rfl, rfl⟩

theorem set_visible_classes_classes (m : AnnotationCollectionModel) (ids : Finset Nat) :
    (set_visible_classes m ids).visible_ann_class_ids_ = ids := by
  unfold set_visible_classes
  split
  · rename_i h
    exact h.symm
  · exact (update_data_classes _).1

/-- C12 (follow-structure mode). With 'hide hidden' checked and a signal
selected whose decoder stack gives every (decoder, row, class) leaf a key of
its own, a record of the leaf `(dec, row, cls)` has its key in the set that
`update_class_visibility` hands to the model iff the decoder, the row and
the class are each marked visible. -/
theorem follow_structure_visibility (v : View) (sig : DecodeSignal) (dec : Decoder) (row : Row)
    (cls : AnnotationClass) (ann : Annotation)
    (hhide : v.hide_hidden_cb_ = true) (hsig : v.signal_ = some sig)
    (hunique : ∀ x ∈ stack_leaves sig.decoder_stack, ∀ y ∈ stack_leaves sig.decoder_stack,
      AnnotationClassId.id ⟨x.1.get_stack_level, x.2.2.id⟩ =
        AnnotationClassId.id ⟨y.1.get_stack_level, y.2.2.id⟩ → x = y)
    (hleaf : (dec, row, cls) ∈ stack_leaves sig.decoder_stack)
    (hdec : ann.stack_level = dec.get_stack_level) (hcls : ann.ann_class_id = cls.id) :
    visible_classes_of v = collect_stack ∅ sig.decoder_stack ∧
    (v.update_class_visibility).model_.visible_ann_class_ids_ = visible_classes_of v ∧
    (ann.class_key ∈ (v.update_class_visibility).model_.visible_ann_class_ids_ ↔
      (dec.visible = true ∧ row.visible = true ∧ cls.visible = true)) := by
  have hset : visible_classes_of v = collect_stack ∅ sig.decoder_stack := by
    simp [visible_classes_of, hhide, hsig]
  have hmodel : (v.update_class_visibility).model_.visible_ann_class_ids_ =
      visible_classes_of v := by
    simp only [View.update_class_visibility]
    exact set_visible_classes_classes _ _
  refine ⟨hset, hmodel, ?_⟩
  rw [hmodel, hset, mem_collect_stack]
  simp only [Finset.not_mem_empty, false_or, Annotation.class_key, hdec, hcls]
  obtain ⟨hd, hr, hc⟩ := (mem_stack_leaves _ _ _ _).mp hleaf
  constructor
  · rintro ⟨d, hd1, hdv, r, hr1, hrv, c, hc1, hcv, hkey⟩
    have hleaf1 : (d, r, c) ∈ stack_leaves sig.decoder_stack :=
      (mem_stack_leaves _ _ _ _).mpr ⟨hd1, hr1, hc1⟩
    have heq := hunique (dec, row, cls) hleaf (d, r, c) hleaf1 hkey
    simp only [Prod.mk.injEq] at heq
    obtain ⟨h1, h2, h3⟩ := heq
    subst h1 h2 h3
    exact ⟨hdv, hrv, hcv⟩
  · rintro ⟨hdv, hrv, hcv⟩
    exact ⟨dec, hd, hdv, row, hr, hrv, cls, hc, hcv, rfl⟩

/-- C12, at the stack of two decoders: the set built holds the key of class
1 of the decoder at level 0 only, and the key of a record of class 3 of that
decoder, whose row is hidden, is not in it (decoder and class are visible,
the row is not). -/
theorem follow_structure_visibility_witness :
    visible_classes_of nested_view = {AnnotationClassId.id ⟨0, 1⟩} ∧
    ( Annotation.class_key ⟨70, 80, 0, 3⟩ ∈
        (nested_view.update_class_visibility).model_.visible_ann_class_ids_ ↔
      (true = true ∧ false = true ∧ true = true)) :=
  ⟨by decide,
    (follow_structure_visibility nested_view nested_signal
      { get_stack_level := 0, visible := true
        get_rows := [{ visible := true, ann_classes := [⟨1, true⟩, ⟨2, false⟩] },
                     { visible := false, ann_classes := [⟨3, true⟩] }] }
      { visible := false, ann_classes := [⟨3, true⟩] } ⟨3, true⟩ ⟨70, 80, 0, 3⟩
      rfl rfl (by decide) (by decide) rfl rfl).2.2⟩

/-! ### C19: Update coalescing -/

theorem handle_model (v : View) (e : ViewEvent) :
    (v.handle e).model_ = (v.handle_calls e).foldl ModelCall.run v.model_ := by
  cases e with
  | new_annotations =>
    simp only [View.handle, View.handle_calls, View.on_new_annotations,
      View.on_new_annotations_calls]
    split
    · split <;> simp [View.update_data, ModelCall.run]
    · split <;> simp
  | timeout =>
    simp only [View.handle, View.handle_calls, View.delayed_view_updater_timeout,
      View.delayed_view_updater_timeout_calls, View.perform_delayed_view_update,
      View.perform_delayed_view_update_calls]
    split
    · split <;> simp [View.update_data, ModelCall.run]
    · simp

/-- The model after a sequence of events is the model before it with the
calls of the sequence made on it in order. -/
theorem run_model (es : List ViewEvent) :
    ∀ v : View, (View.run es v).1.model_ = (View.run es v).2.foldl ModelCall.run v.model_ := by
  induction es with
  | nil =>
    intro v
    rfl
  | cons e es ih =>
    intro v
    simp only [View.run, List.foldl_append]
    rw [ih (v.handle e), handle_model v e]

theorem run_append (es fs : List ViewEvent) :
    ∀ v : View, View.run (es ++ fs) v =
      ((View.run fs (View.run es v).1).1, (View.run es v).2 ++ (View.run fs (View.run es v).1).2) := by
  induction es with
  | nil =>
    intro v
    simp [View.run]
  | cons e es ih =>
    intro v
    show ((View.run (es ++ fs) (v.handle e)).1,
      v.handle_calls e ++ (View.run (es ++ fs) (v.handle e)).2) = _
    rw [ih (v.handle e)]
    simp only [View.run, List.append_assoc]

theorem on_new_annotations_pending (v : View)
    (hmode : v.view_mode_selector_ ≠ ViewModeType.ViewModeLatest) :
    v.on_new_annotations = { v with delayed_view_updater_ := true } ∧
    v.on_new_annotations_calls = [] := by
  cases ht : v.delayed_view_updater_ <;>
    simp [View.on_new_annotations, View.on_new_annotations_calls, hmode, ht]
  cases v
  simp_all

theorem run_notifications_pending (n : Nat) :
    ∀ v : View, v.view_mode_selector_ ≠ ViewModeType.ViewModeLatest →
      View.run (List.replicate (n + 1) ViewEvent.new_annotations) v =
        ({ v with delayed_view_updater_ := true }, []) := by
  induction n with
  | zero =>
    intro v hmode
    simp [View.run, View.handle, View.handle_calls, on_new_annotations_pending v hmode]
  | succ n ih =>
    intro v hmode
    have e1 : v.handle ViewEvent.new_annotations = { v with delayed_view_updater_ := true } :=
      (on_new_annotations_pending v hmode).1
    have e2 : v.handle_calls ViewEvent.new_annotations = [] :=
      (on_new_annotations_pending v hmode).2
    show ((View.run (List.replicate (n + 1) ViewEvent.new_annotations)
        (v.handle ViewEvent.new_annotations)).1,
      v.handle_calls ViewEvent.new_annotations ++
        (View.run (List.replicate (n + 1) ViewEvent.new_annotations)
          (v.handle ViewEvent.new_annotations)).2) = _
    rw [e1, e2, ih { v with delayed_view_updater_ := true } hmode]
    rfl

theorem run_notifications_latest (n : Nat) :
    ∀ v : View, v.view_mode_selector_ = ViewModeType.ViewModeLatest →
      (View.run (List.replicate n ViewEvent.new_annotations) v).2.length = n := by
  induction n with
  | zero =>
    intro v _
    rfl
  | succ n ih =>
    intro v hmode
    have hkeep : (v.on_new_annotations).view_mode_selector_ = ViewModeType.ViewModeLatest := by
      simp only [View.on_new_annotations, hmode, if_true]
      split <;> simp [View.update_data, hmode]
    have hone : (v.on_new_annotations_calls).length = 1 := by
      simp only [View.on_new_annotations_calls, hmode, if_true]
      split <;> rfl
    rw [List.replicate_succ]
    simp only [View.run, View.handle, View.handle_calls, List.length_append, hone,
      ih v.on_new_annotations hkeep]
    omega

/-- C19 (update coalescing). The model after any sequence of notifications
and timer expiries is the model before it with the re-scan calls of the
sequence made on it. In a mode other than 'jump to newest',
`on_new_annotations` leaves the model as it is and the deferred update
pending; with an update already pending it changes nothing, so any number of
notifications make no call on the model and leave the state of one
notification; the expiry of the timer after them makes exactly one call, the
re-scan of `perform_delayed_view_update`, the model then is the model before
the notifications with that one re-scan run on it, and no update is pending
any more. In the mode 'jump to newest' every notification makes one call,
the immediate update, and starts no deferred update, so `n` notifications
make `n` calls. -/
theorem on_new_annotations_coalesces (v : View) :
    (∀ es : List ViewEvent,
      (View.run es v).1.model_ = (View.run es v).2.foldl ModelCall.run v.model_) ∧
    (v.view_mode_selector_ ≠ ViewModeType.ViewModeLatest →
      (v.on_new_annotations).model_ = v.model_ ∧
      (v.on_new_annotations).delayed_view_updater_ = true ∧
      (v.delayed_view_updater_ = true → v.on_new_annotations = v) ∧
      (∀ n : Nat, Nat.iterate View.on_new_annotations (n + 1) v = v.on_new_annotations) ∧
      (∀ n : Nat,
        View.delayed_view_updater_timeout (Nat.iterate View.on_new_annotations (n + 1) v) =
          View.perform_delayed_view_update { v with delayed_view_updater_ := false }) ∧
      (∀ n : Nat, View.run (List.replicate (n + 1) ViewEvent.new_annotations) v =
        ({ v with delayed_view_updater_ := true }, [])) ∧
      (∀ n : Nat,
        (View.run (List.replicate (n + 1) ViewEvent.new_annotations ++ [ViewEvent.timeout]) v).2 =
          (if v.model_.all_annotations_.isNone then
            [ModelCall.set_signal_and_segment v.signal_ v.current_segment_]
          else [ModelCall.update_data]) ∧
        (View.run (List.replicate (n + 1) ViewEvent.new_annotations
          ++ [ViewEvent.timeout]) v).2.length = 1 ∧
        (View.run (List.replicate (n + 1) ViewEvent.new_annotations
          ++ [ViewEvent.timeout]) v).1.model_ =
          (if v.model_.all_annotations_.isNone then
            set_signal_and_segment v.model_ v.signal_ v.current_segment_
          else update_data v.model_) ∧
        (View.run (List.replicate (n + 1) ViewEvent.new_annotations
          ++ [ViewEvent.timeout]) v).1.delayed_view_updater_ = false)) ∧
    (v.view_mode_selector_ = ViewModeType.ViewModeLatest →
      (v.on_new_annotations).model_ =
        (if v.model_.all_annotations_.isNone then
          set_signal_and_segment v.model_ v.signal_ v.current_segment_
        else update_data v.model_) ∧
      (v.on_new_annotations).delayed_view_updater_ = v.delayed_view_updater_ ∧
      (v.on_new_annotations_calls).length = 1 ∧
      (∀ n : Nat,
        (View.run (List.replicate n ViewEvent.new_annotations) v).2.length = n)) := by
  refine ⟨fun es => run_model es v, ?_, ?_⟩
  · intro hmode
    have hone : ∀ w : View, w.view_mode_selector_ = v.view_mode_selector_ →
        w.delayed_view_updater_ = true → w.on_new_annotations = w := by
      intro w hw ht
      simp [View.on_new_annotations, hw, hmode, ht]
    have hfirst : (v.on_new_annotations).view_mode_selector_ = v.view_mode_selector_ ∧
        (v.on_new_annotations).delayed_view_updater_ = true ∧
        (v.on_new_annotations).model_ = v.model_ := by
      cases ht : v.delayed_view_updater_ <;> simp [View.on_new_annotations, hmode, ht]
    have hiter : ∀ n : Nat,
        Nat.iterate View.on_new_annotations (n + 1) v = v.on_new_annotations := by
      intro n
      induction n with
      | zero => rfl
      | succ n ih =>
        rw [Function.iterate_succ_apply', ih]
        exact hone _ hfirst.1 hfirst.2.1
    refine ⟨hfirst.2.2, hfirst.2.1, hone v rfl, hiter, ?_, ?_, ?_⟩
    · intro n
      rw [hiter n]
      cases ht : v.delayed_view_updater_ <;>
        simp [View.on_new_annotations, View.delayed_view_updater_timeout, hmode, ht]
    · intro n
      exact run_notifications_pending n v hmode
    · intro n
      rw [run_append, run_notifications_pending n v hmode]
      simp only [View.run, View.handle, View.handle_calls, View.delayed_view_updater_timeout,
        View.delayed_view_updater_timeout_calls, View.perform_delayed_view_update,
        View.perform_delayed_view_update_calls, if_true, List.nil_append, List.append_nil]
      split <;> simp [View.update_data]
  · intro hmode
    refine ⟨?_, ?_, ?_, fun n => run_notifications_latest n v hmode⟩
    · simp only [View.on_new_annotations, hmode, if_true]
      split <;> simp [View.update_data]
    · simp only [View.on_new_annotations, hmode, if_true]
      split <;> simp [View.update_data]
    · simp only [View.on_new_annotations_calls, hmode, if_true]
      split <;> rfl

/-- C19, at the view in the mode 'show all' whose model shows the three
records of the log, after a fourth record was appended: three notifications
leave the three rows and one update pending and make no call on the model;
the expiry of the timer then makes one call, after which the appended record
(50,60) is the last row and no update is pending. -/
theorem on_new_annotations_coalesces_witness :
    (View.run (List.replicate 3 ViewEvent.new_annotations) appended_view).1.model_
      = appended_view.model_ ∧
    (View.run (List.replicate 3 ViewEvent.new_annotations) appended_view).2.length = 0 ∧
    (View.run (List.replicate 3 ViewEvent.new_annotations
      ++ [ViewEvent.timeout]) appended_view).2.length = 1 ∧
    (View.run (List.replicate 3 ViewEvent.new_annotations
      ++ [ViewEvent.timeout]) appended_view).1.model_ = update_data appended_view.model_ ∧
    (update_data appended_view.model_).visible_annotations_.getLast? =
      some (some ⟨50, 60, 0, 1⟩) ∧
    appended_view.model_.visible_annotations_.length = 3 ∧
    (View.run (List.replicate 3 ViewEvent.new_annotations
      ++ [ViewEvent.timeout]) appended_view).1.delayed_view_updater_ = false :=
  ⟨by rw [((on_new_annotations_coalesces appended_view).2.1 (by decide)).2.2.2.2.2.1 2],
    by rw [((on_new_annotations_coalesces appended_view).2.1 (by decide)).2.2.2.2.2.1 2]
       rfl,
    (((on_new_annotations_coalesces appended_view).2.1 (by decide)).2.2.2.2.2.2 2).2.1,
    (((on_new_annotations_coalesces appended_view).2.1 (by decide)).2.2.2.2.2.2 2).2.2.1,
    by decide,
    by decide,
    (((on_new_annotations_coalesces appended_view).2.1 (by decide)).2.2.2.2.2.2 2).2.2.2⟩

/-! ### Auxiliary facts on the highlight scan -/

theorem index_cases (m : AnnotationCollectionModel) (row column : Int) :
    index m row column = QModelIndex.invalid ∨
    ((index m row column).row = row ∧ (index m row column).model = true ∧ 0 ≤ row ∧
      row < (m.visible_annotations_.length : Int)) := by
  unfold index
  by_cases h1 : row < 0
  · left
    simp [h1]
  · by_cases h2 : row.toNat < m.visible_annotations_.length
    · right
      simp only [h1, h2, if_false, if_true, true_and]
      omega
    · left
      simp [h1, h2]

theorem highlight_scan_invalid (m : AnnotationCollectionModel) (sample : Int)
    (last : QModelIndex) (fuel : Nat) :
    highlight_scan m sample last (fuel + 1) QModelIndex.invalid = some ScanOutcome.stale := by
  simp [highlight_scan, QModelIndex.invalid]

/-- From a position of the model at row `row`, the scan ends within
`d + 2` passes when at most `d + 1` rows are left. -/
theorem highlight_scan_ends_from_row (m : AnnotationCollectionModel) (sample : Int)
    (last : QModelIndex) :
    ∀ (d : Nat) (idx : QModelIndex) (fuel : Nat), idx.model = true →
      (m.visible_annotations_.length : Int) ≤ idx.row + 1 + d → d + 2 ≤ fuel →
      ∃ o, highlight_scan m sample last fuel idx = some o := by
  intro d
  induction d with
  | zero =>
    intro idx fuel hmodel hlen hfuel
    obtain ⟨fuel, rfl⟩ : ∃ f, fuel = f + 2 := ⟨fuel - 2, by omega⟩
    have hne : ¬ (idx.row = idx.row + 1 ∧ idx.column = 0) := by
      intro h
      omega
    have hnext : index m (idx.row + 1) 0 = QModelIndex.invalid := by
      rcases index_cases m (idx.row + 1) 0 with h | ⟨-, -, -, h⟩
      · exact h
      · omega
    cases hp : idx.internalPointer with
    | none => exact ⟨ScanOutcome.stale, by simp [highlight_scan, hp]⟩
    | some ann =>
      by_cases hc : covers ann sample = true
      · exact ⟨ScanOutcome.found idx, by simp [highlight_scan, hp, hc]⟩
      · by_cases hl : QModelIndex.invalid = last
        · exact ⟨ScanOutcome.finished, by
            simp [highlight_scan, hp, hc, QModelIndex.sibling, hmodel, hne, hnext, hl.symm]⟩
        · exact ⟨ScanOutcome.stale, by
            simp only [highlight_scan, hp, hc, QModelIndex.sibling, hmodel, hne, hnext,
              if_true, if_false, ne_eq, hl, not_false_eq_true, Bool.false_eq_true]
            rfl⟩
  | succ d ih =>
    intro idx fuel hmodel hlen hfuel
    obtain ⟨fuel, rfl⟩ : ∃ f, fuel = f + 1 := ⟨fuel - 1, by omega⟩
    have hne : ¬ (idx.row = idx.row + 1 ∧ idx.column = 0) := by
      intro h
      omega
    cases hp : idx.internalPointer with
    | none => exact ⟨ScanOutcome.stale, by simp [highlight_scan, hp]⟩
    | some ann =>
      by_cases hc : covers ann sample = true
      · exact ⟨ScanOutcome.found idx, by simp [highlight_scan, hp, hc]⟩
      · by_cases hl : index m (idx.row + 1) 0 = last
        · exact ⟨ScanOutcome.finished, by
            simp [highlight_scan, hp, hc, QModelIndex.sibling, hmodel, hne, hl]⟩
        · have hstep : highlight_scan m sample last (fuel + 1) idx =
              highlight_scan m sample last fuel (index m (idx.row + 1) 0) := by
            simp [highlight_scan, hp, hc, QModelIndex.sibling, hmodel, hne, hl]
          rw [hstep]
          rcases index_cases m (idx.row + 1) 0 with h | ⟨h1, h2, -, -⟩
          · rw [h]
            obtain ⟨fuel, rfl⟩ : ∃ f, fuel = f + 1 := ⟨fuel - 1, by omega⟩
            exact ⟨_, highlight_scan_invalid m sample last fuel⟩
          · exact ih _ fuel h2 (by rw [h1]; omega) (by omega)

/-- The scan of `update_highlighted_rows` ends within `rowCount() + 2`
passes, from whatever position it starts and whatever position ends it. -/
theorem highlight_scan_ends (m : AnnotationCollectionModel) (sample : Int)
    (first last : QModelIndex) :
    ∃ o, highlight_scan m sample last (m.visible_annotations_.length + 2) first = some o := by
  cases hp : first.internalPointer with
  | none => exact ⟨ScanOutcome.stale, by simp [highlight_scan, hp]⟩
  | some ann =>
    by_cases hc : covers ann sample = true
    · exact ⟨ScanOutcome.found first, by simp [highlight_scan, hp, hc]⟩
    · by_cases hl : QModelIndex.sibling m first (first.row + 1) 0 = last
      · exact ⟨ScanOutcome.finished, by simp [highlight_scan, hp, hc, hl]⟩
      · have hstep : highlight_scan m sample last (m.visible_annotations_.length + 2) first =
            highlight_scan m sample last (m.visible_annotations_.length + 1)
              (QModelIndex.sibling m first (first.row + 1) 0) := by
          simp [highlight_scan, hp, hc, hl]
        rw [hstep]
        have hne : ¬ (first.row = first.row + 1 ∧ first.column = 0) := by
          intro h
          omega
        cases hm : first.model with
        | false =>
          simp only [QModelIndex.sibling, hm, Bool.false_eq_true, if_false]
          exact ⟨_, highlight_scan_invalid m sample last _⟩
        | true =>
          simp only [QModelIndex.sibling, hm, if_true, hne, if_false]
          rcases index_cases m (first.row + 1) 0 with h | ⟨h1, h2, h3, h4⟩
          · rw [h]
            exact ⟨_, highlight_scan_invalid m sample last _⟩
          · exact highlight_scan_ends_from_row m sample last
              (m.visible_annotations_.length - 1) _ _ h2 (by rw [h1]; omega) (by omega)

/-- A position the scan ends at as found holds a record that passes the
covering test. -/
theorem highlight_scan_found (m : AnnotationCollectionModel) (sample : Int)
    (last : QModelIndex) :
    ∀ (fuel : Nat) (idx found : QModelIndex),
      highlight_scan m sample last fuel idx = some (ScanOutcome.found found) →
      ∃ ann, found.internalPointer = some ann ∧ covers ann sample = true := by
  intro fuel
  induction fuel with
  | zero =>
    intro idx found h
    simp [highlight_scan] at h
  | succ fuel ih =>
    intro idx found h
    cases hp : idx.internalPointer with
    | none => simp [highlight_scan, hp] at h
    | some ann =>
      by_cases hc : covers ann sample = true
      · simp only [highlight_scan, hp, hc, if_true, Option.some.injEq,
          ScanOutcome.found.injEq] at h
        subst h
        exact ⟨ann, hp, hc⟩
      · by_cases hl : QModelIndex.sibling m idx (idx.row + 1) 0 = last
        · simp [highlight_scan, hp, hc, hl] at h
        · simp only [highlight_scan, hp, hc, Bool.false_eq_true, if_false, ne_eq, hl,
            not_false_eq_true, if_true] at h
          exact ih _ _ h

/-! ### C15: Stale highlight range -/

/-- C15 (stale highlight range). Every call of `update_highlighted_rows`
returns, and what it returns is the invalid index or a position whose
record is live and passes the covering test. With an empty visible sequence,
with a first position that holds no record, and whenever the scan comes to a
position that holds no record before it found a covering one, the call
returns the invalid index, emits nothing, and, the stored sample apart,
leaves the model as it was. -/
theorem update_highlighted_rows_stale (m : AnnotationCollectionModel)
    (first last : QModelIndex) (sample : Int) :
    ∃ res, update_highlighted_rows m first last sample = some res ∧
      (res.result = QModelIndex.invalid ∨
        ∃ ann, res.result.internalPointer = some ann ∧ covers ann sample = true) ∧
      (m.visible_annotations_ = [] →
        res.result = QModelIndex.invalid ∧ res.dataChanged = none ∧
        res.model = { m with highlight_sample_num_ := sample }) ∧
      (first.internalPointer = none → res.result = QModelIndex.invalid) ∧
      (m.visible_annotations_ ≠ [] → 0 ≤ sample →
        highlight_scan { m with highlight_sample_num_ := sample } sample
          (QModelIndex.sibling { m with highlight_sample_num_ := sample } last (last.row + 1) 0)
          (m.visible_annotations_.length + 2) first = some ScanOutcome.stale →
        res.result = QModelIndex.invalid ∧ res.dataChanged = none ∧
        res.model = { m with highlight_sample_num_ := sample }) := by
  cases hv : m.visible_annotations_ with
  | nil =>
    refine ⟨_, by simp [update_highlighted_rows, hv]; rfl, Or.inl rfl, ?_, ?_, ?_⟩
    · intro _
      exact ⟨rfl, rfl, rfl⟩
    · intro _
      rfl
    · intro h
      exact absurd rfl h
  | cons a t =>
    by_cases hs : 0 ≤ sample
    · obtain ⟨o, ho⟩ := highlight_scan_ends { m with highlight_sample_num_ := sample } sample
        first (QModelIndex.sibling { m with highlight_sample_num_ := sample } last
          (last.row + 1) 0)
      have hlen : (a :: t).length = m.visible_annotations_.length := by rw [hv]
      simp only [hv, List.length_cons] at ho
      cases o with
      | stale =>
        refine ⟨_, by simp [update_highlighted_rows, hv, hs, rowCount, ho]; rfl, Or.inl rfl,
          ?_, ?_, ?_⟩
        · intro h
          cases h
        · intro _
          rfl
        · intro _ _ _
          exact ⟨rfl, rfl, rfl⟩
      | found idx =>
        obtain ⟨ann, hann, hcov⟩ := highlight_scan_found _ _ _ _ _ _ ho
        refine ⟨_, by simp [update_highlighted_rows, hv, hs, rowCount, ho]; rfl,
          Or.inr ⟨ann, hann, hcov⟩, ?_, ?_, ?_⟩
        · intro h
          cases h
        · intro hp
          simp [highlight_scan, hp] at ho
        · intro _ _ hstale
          simp only [List.length_cons] at hstale
          rw [ho] at hstale
          cases hstale
      | finished =>
        refine ⟨_, by simp [update_highlighted_rows, hv, hs, rowCount, ho]; rfl, Or.inl rfl,
          ?_, ?_, ?_⟩
        · intro h
          cases h
        · intro _
          rfl
        · intro _ _ hstale
          simp only [List.length_cons] at hstale
          rw [ho] at hstale
          cases hstale
    · refine ⟨_, by simp [update_highlighted_rows, hv, hs]; rfl, Or.inl rfl, ?_, ?_, ?_⟩
      · intro h
        cases h
      · intro _
        rfl
      · intro _ h
        exact absurd h hs

/-- C15, evaluated at the model that shows three records: a first position
past the end of the visible sequence, and a scan from row 2 towards row 0
that runs off the end (sample 15 is in no record), both return the invalid
index and emit nothing. -/
theorem update_highlighted_rows_stale_witness :
    index sample_model 5 0 = QModelIndex.invalid ∧
    (update_highlighted_rows sample_model (index sample_model 5 0) (index sample_model 2 0) 25).map
      (fun r => (r.result, r.dataChanged)) = some (QModelIndex.invalid, none) ∧
    (update_highlighted_rows sample_model (index sample_model 2 0) (index sample_model 0 0) 15).map
      (fun r => (r.result, r.dataChanged)) = some (QModelIndex.invalid, none) ∧
    (∃ res, update_highlighted_rows sample_model (index sample_model 5 0)
        (index sample_model 2 0) 25 = some res ∧ res.result = QModelIndex.invalid) :=
  ⟨by decide, by decide, by decide,
    (update_highlighted_rows_stale sample_model (index sample_model 5 0)
      (index sample_model 2 0) 25).imp (fun _ h => ⟨h.1, h.2.2.2.1 (by decide)⟩)⟩

/-! ### C14: Highlight notification rule -/

/-- C14 as stated fails for a call that finds the same row as the call
before it: two calls in a row with sample 25 over the rows (0,10), (20,30),
(25,40) both return row 1, and the second call emits `dataChanged` as the
first did. -/
theorem same_row_found_again_is_signalled :
    (update_highlighted_rows sample_model (index sample_model 0 0) (index sample_model 2 0)
        25).bind
      (fun r1 =>
        (update_highlighted_rows r1.model (index sample_model 0 0) (index sample_model 2 0)
          25).map
          (fun r2 => (r1.result.row, r1.dataChanged.isSome, r2.result.row,
            r2.dataChanged.isSome))) =
      some (1, true, 1, true) := by
  decide

/-- C14, amended (highlight notification rule). For rows `first ≤ last`
inside the visible sequence that all hold a record, a call of
`update_highlighted_rows` emits `dataChanged` iff it found a row or
`had_highlight_before_` was set, and it leaves `had_highlight_before_` set
iff it found a row; the visible sequence stays as it was. -/
theorem update_highlighted_rows_signal_rule (m : AnnotationCollectionModel) (first last : Nat)
    (c1 c2 : Int) (sample : Int) (hfl : first ≤ last)
    (hl : last < m.visible_annotations_.length)
    (hrows : ∀ k, first ≤ k → k ≤ last → ∃ ann,
      m.visible_annotations_.get? k = some (some ann)) :
    ∃ res, update_highlighted_rows m (index m (first : Int) c1) (index m (last : Int) c2) sample
        = some res ∧
      (res.dataChanged.isSome = true ↔
        (res.result ≠ QModelIndex.invalid ∨ m.had_highlight_before_ = true)) ∧
      (res.model.had_highlight_before_ = true ↔ res.result ≠ QModelIndex.invalid) ∧
      res.model.visible_annotations_ = m.visible_annotations_ ∧
      res.model.visible_ann_class_ids_ = m.visible_ann_class_ids_ := by
  have hemp : m.visible_annotations_.isEmpty = false := by
    cases hv : m.visible_annotations_ with
    | nil => rw [hv] at hl; simp at hl
    | cons a t => rfl
  by_cases hs : 0 ≤ sample
  · obtain ⟨af, haf⟩ := hrows first (Nat.le_refl _) hfl
    obtain ⟨al, hal⟩ := hrows last hfl (Nat.le_refl _)
    have hfirst := index_of_row m first c1 (some af) haf
    have hlastidx := index_of_row m last c2 (some al) hal
    have hscan := highlight_scan_rows { m with highlight_sample_num_ := sample } sample last hl
      (last - first) first (index m (first : Int) c1) (m.visible_annotations_.length + 2)
      (by omega) (by omega) (by rw [hfirst]) (by rw [hfirst]) (by rw [hfirst, haf]; rfl) hrows
    have hsib : QModelIndex.sibling { m with highlight_sample_num_ := sample }
        (index m (last : Int) c2) ((index m (last : Int) c2).row + 1) 0 =
        index { m with highlight_sample_num_ := sample } ((last : Int) + 1) 0 := by
      rw [hlastidx]
      simp [QModelIndex.sibling]
    simp only [update_highlighted_rows, hemp, hs, rowCount, hsib, Bool.false_eq_true, if_false,
      if_true]
    rcases hscan with ⟨k, a, idx1, -, -, -, -, -, h6, -, -, h9⟩ | ⟨-, h2⟩
    · rw [h6]
      have hne : idx1 ≠ QModelIndex.invalid := by
        intro h
        rw [h] at h9
        cases h9
      exact ⟨_, rfl, by simp [highlight_finish, hne], by simp [highlight_finish, hne], rfl, rfl⟩
    · rw [h2]
      exact ⟨_, rfl, by simp [highlight_finish], by simp [highlight_finish], rfl, rfl⟩
  · simp only [update_highlighted_rows, hemp, hs, Bool.false_eq_true, if_false]
    exact ⟨_, rfl, by simp [highlight_finish], by simp [highlight_finish], rfl, rfl⟩

/-- C14 amended, at the rows (0,10), (20,30), (25,40) with no highlight
before: a call with sample 15, which is in no row, emits nothing and leaves
the flag clear, and a second call with sample 15 emits nothing either. -/
theorem update_highlighted_rows_signal_rule_witness :
    (∃ res, update_highlighted_rows sample_model (index sample_model 0 0)
        (index sample_model 2 0) 15 = some res ∧
      (res.dataChanged.isSome = true ↔
        (res.result ≠ QModelIndex.invalid ∨ sample_model.had_highlight_before_ = true))) ∧
    (update_highlighted_rows sample_model (index sample_model 0 0) (index sample_model 2 0)
        15).bind
      (fun r1 =>
        (update_highlighted_rows r1.model (index sample_model 0 0) (index sample_model 2 0)
          15).map
          (fun r2 => (r1.result, r1.dataChanged, r2.result, r2.dataChanged))) =
      some (QModelIndex.invalid, none, QModelIndex.invalid, none) :=
  ⟨(update_highlighted_rows_signal_rule sample_model 0 2 0 0 15 (by decide) (by decide)
      (by
        intro k h1 h2
        have hk : k = 0 ∨ k = 1 ∨ k = 2 := by omega
        rcases hk with rfl | rfl | rfl
        · exact ⟨⟨0, 10, 0, 1⟩, by decide⟩
        · exact ⟨⟨20, 30, 0, 1⟩, by decide⟩
        · exact ⟨⟨25, 40, 0, 2⟩, by decide⟩)).imp (fun _ h => ⟨h.1, h.2.1⟩),
    by decide⟩

/-! ### Auxiliary facts on the export -/

theorem csv_header_columns_eq_loop (save_type : SaveType) (t : TableState) :
    ∀ n i : Nat, csv_header_columns save_type t n i =
      csv_columns_loop t (fun column => csv_title_text save_type (t.headerData column)) n i := by
  intro n
  induction n with
  | zero => intro i; rfl
  | succ n ih =>
    intro i
    simp only [csv_header_columns, csv_columns_loop, ih, csv_title_text]

theorem csv_row_columns_eq_loop (save_type : SaveType) (t : TableState) (row : Nat) :
    ∀ n i : Nat, csv_row_columns save_type t row n i =
      csv_columns_loop t (fun column => csv_cell_text save_type (t.data row column)) n i := by
  intro n
  induction n with
  | zero => intro i; rfl
  | succ n ih =>
    intro i
    simp only [csv_row_columns, csv_columns_loop, ih, csv_cell_text]

theorem intercalate_cons_of_ne_nil (sep x : List Char) (xs : List (List Char)) (h : xs ≠ []) :
    List.intercalate sep (x :: xs) = x ++ sep ++ List.intercalate sep xs := by
  cases xs with
  | nil => exact absurd rfl h
  | cons y ys => simp [List.intercalate, List.intersperse]

/-- When the last section in visual order is shown, a column loop writes the
texts of the shown columns joined by commas. -/
theorem csv_columns_loop_eq_intercalate (t : TableState) (piece : Nat → List Char)
    (hlast : t.isSectionHidden (t.logicalIndex (t.header_count - 1)) = false) :
    ∀ n i : Nat, i + (n + 1) = t.header_count →
      csv_columns_loop t piece (n + 1) i =
        List.intercalate [COMMA]
          ((((List.range' i (n + 1)).map t.logicalIndex).filter
            (fun column => !t.isSectionHidden column)).map piece) := by
  intro n
  induction n with
  | zero =>
    intro i hi
    have hi1 : i = t.header_count - 1 := by omega
    have hnot : ¬ ((i : Int) < (t.header_count : Int) - 1) := by omega
    have hshown : t.isSectionHidden (t.logicalIndex i) = false := by rw [hi1]; exact hlast
    simp [csv_columns_loop, hshown, hnot, List.intercalate]
  | succ n ih =>
    intro i hi
    have hrest := ih (i + 1) (by omega)
    have hlt : (i : Int) < (t.header_count : Int) - 1 := by omega
    have hne : (((List.range' (i + 1) (n + 1)).map t.logicalIndex).filter
        (fun column => !t.isSectionHidden column)).map piece ≠ [] := by
      have hmem : t.logicalIndex (t.header_count - 1) ∈
          ((List.range' (i + 1) (n + 1)).map t.logicalIndex).filter
            (fun column => !t.isSectionHidden column) := by
        rw [List.mem_filter]
        refine ⟨List.mem_map.mpr ⟨t.header_count - 1, ?_, rfl⟩, by simp [hlast]⟩
        rw [List.mem_range']
        exact ⟨t.header_count - 1 - (i + 1), by omega, by omega⟩
      intro h
      rw [List.map_eq_nil_iff] at h
      rw [h] at hmem
      cases hmem
    have hL : csv_columns_loop t piece (n + 1 + 1) i =
        (if t.isSectionHidden (t.logicalIndex i) then []
          else piece (t.logicalIndex i) ++
            (if (i : Int) < (t.header_count : Int) - 1 then [COMMA] else [])) ++
        csv_columns_loop t piece (n + 1) (i + 1) := rfl
    have hR : List.range' i (n + 1 + 1) = i :: List.range' (i + 1) (n + 1) := rfl
    rw [hL, hrest, hR, List.map_cons]
    cases hh : t.isSectionHidden (t.logicalIndex i)
    · rw [List.filter_cons_of_pos (by simp [hh]), List.map_cons,
        intercalate_cons_of_ne_nil _ _ _ hne]
      simp [hlt]
    · rw [List.filter_cons_of_neg (by simp [hh])]
      simp

/-- When the table has a section and the last section in visual order is
shown, the text `save_data_as_csv` writes has the layout of the
specification, in both save modes. -/
theorem save_data_as_csv_eq_spec (save_type : SaveType) (t : TableState)
    (hcount : 0 < t.header_count)
    (hlast : t.isSectionHidden (t.logicalIndex (t.header_count - 1)) = false) :
    save_data_as_csv save_type t = csv_text_spec save_type t := by
  obtain ⟨n, hn⟩ : ∃ n, t.header_count = n + 1 := ⟨t.header_count - 1, by omega⟩
  have hrange : List.range t.header_count = List.range' 0 (n + 1) := by
    rw [hn, List.range_eq_range']
  unfold save_data_as_csv csv_text_spec csv_line_spec csv_shown_columns
  rw [csv_header_columns_eq_loop, hrange]
  simp only [csv_row_columns_eq_loop]
  rw [hn, csv_columns_loop_eq_intercalate t _ hlast n 0 (by omega)]
  congr 1
  apply List.flatMap_congr
  intro row _
  rw [csv_columns_loop_eq_intercalate t _ hlast n 0 (by omega)]

theorem QString_replace_cons (c : Char) (s : List Char) (before : Char) (after : List Char) :
    QString_replace (c :: s) before after =
      (if c = before then after else [c]) ++ QString_replace s before after := by
  simp [QString_replace]

theorem QString_replace_absent (s : List Char) (before : Char) (after : List Char)
    (h : before ∉ s) : QString_replace s before after = s := by
  induction s with
  | nil => rfl
  | cons c s ih =>
    have hc : c ≠ before := fun hc => h (by simp [hc])
    have hs : before ∉ s := fun hs => h (by simp [hs])
    rw [QString_replace_cons, if_neg hc, ih hs]
    rfl

/-- Inside a quoted field the reader takes the doubled-quote form of a text
and the closing double quote for the text itself. -/
theorem rfc4180_read_quoted (s rest : List Char) :
    ∀ (field : List Char) (record : List (List Char)) (records : List (List (List Char))),
      rfc4180_read (QString_replace s DQUOTE [DQUOTE, DQUOTE] ++ DQUOTE :: rest)
          CsvState.in_quoted field record records =
        rfc4180_read rest CsvState.quote_seen (field ++ s) record records := by
  induction s with
  | nil =>
    intro field record records
    simp [QString_replace, rfc4180_read]
  | cons c s ih =>
    intro field record records
    rw [QString_replace_cons]
    by_cases hc : c = DQUOTE
    · subst hc
      have e : (if DQUOTE = DQUOTE then [DQUOTE, DQUOTE] else [DQUOTE]) ++
            QString_replace s DQUOTE [DQUOTE, DQUOTE] ++ DQUOTE :: rest =
          DQUOTE :: DQUOTE :: (QString_replace s DQUOTE [DQUOTE, DQUOTE] ++ DQUOTE :: rest) := by
        simp
      rw [e]
      simp only [rfc4180_read, if_true]
      rw [ih]
      simp
    · have e : (if c = DQUOTE then [DQUOTE, DQUOTE] else [c]) ++
            QString_replace s DQUOTE [DQUOTE, DQUOTE] ++ DQUOTE :: rest =
          c :: (QString_replace s DQUOTE [DQUOTE, DQUOTE] ++ DQUOTE :: rest) := by
        simp [hc]
      rw [e]
      simp only [rfc4180_read, hc, if_false]
      rw [ih]
      simp

theorem rfc4180_read_cell (f rest : List Char) (record : List (List Char))
    (records : List (List (List Char))) :
    rfc4180_read (csv_cell_text SaveType.SaveTypeCSVQuoted f ++ rest) CsvState.field_start []
        record records =
      rfc4180_read rest CsvState.quote_seen f record records := by
  have h : csv_cell_text SaveType.SaveTypeCSVQuoted f ++ rest =
      DQUOTE :: (QString_replace f DQUOTE [DQUOTE, DQUOTE] ++ DQUOTE :: rest) := by
    simp [csv_cell_text]
  rw [h]
  simp only [rfc4180_read, if_true]
  rw [rfc4180_read_quoted]
  simp

/-- The reader takes a line of quoted cells, joined by commas and ended by
CR LF, for the record of the cell texts. -/
theorem rfc4180_read_line (rest : List Char) (records : List (List (List Char))) :
    ∀ (fs : List (List Char)) (f : List Char) (record : List (List Char)),
      rfc4180_read
          (csv_line_spec ((f :: fs).map (csv_cell_text SaveType.SaveTypeCSVQuoted)) ++ rest)
          CsvState.field_start [] record records =
        rfc4180_read rest CsvState.field_start [] [] (records ++ [record ++ f :: fs]) := by
  have h1 : CR ≠ DQUOTE := by decide
  have h2 : CR ≠ COMMA := by decide
  have h3 : COMMA ≠ DQUOTE := by decide
  intro fs
  induction fs with
  | nil =>
    intro f record
    have hsplit : csv_line_spec ([f].map (csv_cell_text SaveType.SaveTypeCSVQuoted)) ++ rest =
        csv_cell_text SaveType.SaveTypeCSVQuoted f ++ (CR :: LF :: rest) := by
      simp [csv_line_spec, List.intercalate]
    rw [hsplit, rfc4180_read_cell]
    simp [rfc4180_read, h1, h2]
  | cons g gs ih =>
    intro f record
    have hsplit : csv_line_spec ((f :: g :: gs).map (csv_cell_text SaveType.SaveTypeCSVQuoted))
        ++ rest =
        csv_cell_text SaveType.SaveTypeCSVQuoted f ++ (COMMA ::
          (csv_line_spec ((g :: gs).map (csv_cell_text SaveType.SaveTypeCSVQuoted)) ++ rest)) := by
      simp only [csv_line_spec, List.map_cons]
      rw [intercalate_cons_of_ne_nil _ _ _ (by simp)]
      simp
    rw [hsplit, rfc4180_read_cell]
    simp only [rfc4180_read, h3, if_false, if_true]
    rw [ih]
    simp

theorem rfc4180_read_lines :
    ∀ (lines : List (List (List Char))) (records : List (List (List Char))),
      (∀ l ∈ lines, l ≠ []) →
      rfc4180_read
          (lines.flatMap (fun l => csv_line_spec (l.map (csv_cell_text SaveType.SaveTypeCSVQuoted))))
          CsvState.field_start [] [] records =
        some (records ++ lines) := by
  intro lines
  induction lines with
  | nil =>
    intro records _
    simp [rfc4180_read, rfc4180_end]
  | cons l ls ih =>
    intro records hne
    obtain ⟨f, fs, rfl⟩ : ∃ f fs, l = f :: fs := by
      cases l with
      | nil => exact absurd rfl (hne [] (by simp))
      | cons f fs => exact ⟨f, fs, rfl⟩
    rw [List.flatMap_cons, rfc4180_read_line, ih _ (fun l hl => hne l (by simp [hl]))]
    simp

/-- The round trip of the quoted export where no line ends with a comma:
when the table has a section, the last section in visual order is shown and
no shown header text holds a double quote, the text written in quoted mode,
read back by RFC 4180, gives the header texts and the cell texts of every
selected row, whatever the cell texts hold. -/
theorem quoted_export_round_trip (t : TableState) (hcount : 0 < t.header_count)
    (hlast : t.isSectionHidden (t.logicalIndex (t.header_count - 1)) = false)
    (htitles : ∀ column ∈ csv_shown_columns t, DQUOTE ∉ t.headerData column) :
    rfc4180_parse (save_data_as_csv SaveType.SaveTypeCSVQuoted t) =
      some (csv_field_values t) := by
  have hshown : csv_shown_columns t ≠ [] := by
    have hmem : t.logicalIndex (t.header_count - 1) ∈ csv_shown_columns t := by
      unfold csv_shown_columns
      rw [List.mem_filter]
      exact ⟨List.mem_map.mpr ⟨t.header_count - 1, List.mem_range.mpr (by omega), rfl⟩,
        by simp [hlast]⟩
    intro h
    rw [h] at hmem
    cases hmem
  have hheader : (csv_shown_columns t).map (fun column =>
        csv_title_text SaveType.SaveTypeCSVQuoted (t.headerData column)) =
      ((csv_shown_columns t).map t.headerData).map
        (csv_cell_text SaveType.SaveTypeCSVQuoted) := by
    rw [List.map_map]
    apply List.map_congr_left
    intro column hcol
    simp [csv_title_text, csv_cell_text, QString_replace_absent _ _ _ (htitles column hcol)]
  have htext : csv_text_spec SaveType.SaveTypeCSVQuoted t =
      (csv_field_values t).flatMap
        (fun l => csv_line_spec (l.map (csv_cell_text SaveType.SaveTypeCSVQuoted))) := by
    unfold csv_text_spec csv_field_values
    rw [List.flatMap_cons, hheader, List.flatMap_map]
    simp only [List.map_map]
    rfl
  rw [save_data_as_csv_eq_spec _ t hcount hlast, rfc4180_parse, htext, rfc4180_read_lines]
  · simp
  · intro l hl
    unfold csv_field_values at hl
    rcases List.mem_cons.mp hl with h | h
    · rw [h]
      simpa using hshown
    · obtain ⟨row, -, rfl⟩ := List.mem_map.mp h
      simpa using hshown

/-! ### C17: Export round trip -/

/-- C17 (export round trip), evaluated at the table as the view sets it up
(End Sample, the last section, hidden) with one row whose value holds a
comma and a double quote: the text written in quoted mode has a comma before
each line end, and read back by RFC 4180 each record has a seventh, empty
field after the six field values that were written. -/
theorem quoted_export_reads_back_extra_field :
    save_data_as_csv SaveType.SaveTypeCSVQuoted default_table =
      ("\"Sample\",\"Time\",\"Decoder\",\"Ann Row\",\"Ann Class\",\"Value\",\r\n" ++
        "\"0\",\"0 s\",\"UART\",\"RX\",\"Data\",\"a,\"\"b\",\r\n").toList ∧
    csv_field_values default_table =
      [["Sample", "Time", "Decoder", "Ann Row", "Ann Class", "Value"].map String.toList,
        ["0", "0 s", "UART", "RX", "Data", "a,\"b"].map String.toList] ∧
    rfc4180_parse (save_data_as_csv SaveType.SaveTypeCSVQuoted default_table) =
      some [["Sample", "Time", "Decoder", "Ann Row", "Ann Class", "Value", ""].map String.toList,
        ["0", "0 s", "UART", "RX", "Data", "a,\"b", ""].map String.toList] ∧
    rfc4180_parse (save_data_as_csv SaveType.SaveTypeCSVQuoted default_table) ≠
      some (csv_field_values default_table) := by
  decide

/-! ### C18: Export record layout -/

/-- C18 (export record layout), evaluated at the table as the view sets it
up (End Sample, the last section, hidden): in both save modes every line,
the header line included, ends with a comma after the last shown field, so
the text is not the shown fields joined by commas. -/
theorem export_lines_end_with_comma :
    csv_shown_columns default_table = [0, 1, 2, 3, 4, 5] ∧
    save_data_as_csv SaveType.SaveTypeCSVEscaped default_table =
      ("Sample,Time,Decoder,Ann Row,Ann Class,Value,\r\n" ++
        "0,0 s,UART,RX,Data,a\\,\"b,\r\n").toList ∧
    csv_text_spec SaveType.SaveTypeCSVEscaped default_table =
      ("Sample,Time,Decoder,Ann Row,Ann Class,Value\r\n" ++
        "0,0 s,UART,RX,Data,a\\,\"b\r\n").toList ∧
    save_data_as_csv SaveType.SaveTypeCSVEscaped default_table ≠
      csv_text_spec SaveType.SaveTypeCSVEscaped default_table ∧
    save_data_as_csv SaveType.SaveTypeCSVQuoted default_table ≠
      csv_text_spec SaveType.SaveTypeCSVQuoted default_table := by
  decide

/-! ### C22: Range filter case list -/

theorem filterAcceptsRow_enabled (ext : Externals) (f : CustomFilterProxyModel)
    (src : AnnotationCollectionModel) (row : Nat) (ann : Annotation)
    (hsig : src.signal_.isSome = true)
    (hrow : src.visible_annotations_.get? row = some (some ann))
    (hen : f.range_filtering_enabled_ = true) :
    filterAcceptsRow ext f src (row : Int) = true ↔
      (f.range_start_sample_ ≤ ann.end_sample ∧ ann.start_sample ≤ f.range_end_sample_) := by
  obtain ⟨sig, hsig⟩ := Option.isSome_iff_exists.mp hsig
  have hrow0 : (0 : Int) ≤ (row : Int) := by omega
  simp [filterAcceptsRow, index_of_row src row _ _ hrow, data, hsig, QModelIndex.isValid,
    data_from_ann, hen, hrow0, QVariant.toULongLong]

/-- C22 as stated fails for a record that spans the whole range: with the
range [100, 200] the record [0, 1000] is accepted, and it is none of the
three cases: it does not end within the range, and it does not begin within
the range. -/
theorem spanning_record_is_no_listed_case :
    range_model.visible_annotations_.get? 4 = some (some ⟨0, 1000, 0, 1⟩) ∧
    filterAcceptsRow sample_externals ⟨100, 200, true⟩ range_model 4 = true ∧
    begins_left_ends_within ⟨100, 200, true⟩ ⟨0, 1000, 0, 1⟩ = false ∧
    begins_and_ends_within ⟨100, 200, true⟩ ⟨0, 1000, 0, 1⟩ = false ∧
    begins_within_ends_right ⟨100, 200, true⟩ ⟨0, 1000, 0, 1⟩ = false :=
  ⟨by decide,
    (filterAcceptsRow_enabled sample_externals ⟨100, 200, true⟩ range_model 4 ⟨0, 1000, 0, 1⟩
      (by decide) (by decide) rfl).mpr (by decide),
    by decide, by decide, by decide⟩

/-- C22, amended (range filter case list). With range filtering enabled, for
a record with `start_sample ≤ end_sample` and a range with
`range_start ≤ range_end`, the row is accepted iff the record a) begins to
the left of the range and ends within it, or b) begins and ends within it,
or c) begins within it and ends to the right of it, or d) begins to the left
of it and ends to the right of it. -/
theorem filterAcceptsRow_cases (ext : Externals) (f : CustomFilterProxyModel)
    (src : AnnotationCollectionModel) (row : Nat) (ann : Annotation)
    (hsig : src.signal_.isSome = true)
    (hrow : src.visible_annotations_.get? row = some (some ann))
    (hen : f.range_filtering_enabled_ = true)
    (hann : ann.start_sample ≤ ann.end_sample)
    (hrange : f.range_start_sample_ ≤ f.range_end_sample_) :
    filterAcceptsRow ext f src (row : Int) = true ↔
      (begins_left_ends_within f ann = true ∨ begins_and_ends_within f ann = true ∨
        begins_within_ends_right f ann = true ∨ begins_left_ends_right f ann = true) := by
  rw [filterAcceptsRow_enabled ext f src row ann hsig hrow hen]
  simp only [begins_left_ends_within, begins_and_ends_within, begins_within_ends_right,
    begins_left_ends_right, Bool.and_eq_true, decide_eq_true_eq]
  omega

/-- C22 amended, at the range [100, 200]: the record [0, 1000] is accepted
as case d), the record [50, 100] as case a). -/
theorem filterAcceptsRow_cases_witness :
    begins_left_ends_right ⟨100, 200, true⟩ ⟨0, 1000, 0, 1⟩ = true ∧
    filterAcceptsRow sample_externals ⟨100, 200, true⟩ range_model 4 = true ∧
    begins_left_ends_within ⟨100, 200, true⟩ ⟨50, 100, 0, 1⟩ = true ∧
    filterAcceptsRow sample_externals ⟨100, 200, true⟩ range_model 1 = true :=
  ⟨by decide,
    (filterAcceptsRow_cases sample_externals ⟨100, 200, true⟩ range_model 4 ⟨0, 1000, 0, 1⟩
      (by decide) (by decide) rfl (by decide) (by decide)).mpr (by decide),
    by decide,
    (filterAcceptsRow_cases sample_externals ⟨100, 200, true⟩ range_model 1 ⟨50, 100, 0, 1⟩
      (by decide) (by decide) rfl (by decide) (by decide)).mpr (by decide)⟩

/-! ### C25: Highlight consistency between locating and rendering -/

/-- The highlight test of `data` with the stored sample `h` is the covering
test of the locator together with `0 < h`. -/
theorem must_highlight_eq (m : AnnotationCollectionModel) (ann : Annotation) :
    must_highlight m ann =
      (decide (0 < m.highlight_sample_num_) && covers ann m.highlight_sample_num_) := by
  simp [must_highlight, covers, Bool.and_assoc]

/-- C25 (highlight consistency), evaluated at the rows (0,10), (20,30),
(25,40) and sample 0: `update_highlighted_rows` returns row 0, whose record
passes the covering test for the stored sample 0, and `data` does not
highlight that row: its test is false, the background is the bright colour
of the record and not its highlight colour. -/
theorem row_found_for_sample_zero_is_not_highlighted :
    (update_highlighted_rows sample_model (index sample_model 0 0) (index sample_model 2 0)
        0).map
      (fun r => (r.result.row, r.result.internalPointer, r.model.highlight_sample_num_)) =
      some (0, some ⟨0, 10, 0, 1⟩, 0) ∧
    (update_highlighted_rows sample_model (index sample_model 0 0) (index sample_model 2 0)
        0).map
      (fun r => (covers ⟨0, 10, 0, 1⟩ r.model.highlight_sample_num_,
        must_highlight r.model ⟨0, 10, 0, 1⟩)) = some (true, false) ∧
    (update_highlighted_rows sample_model (index sample_model 0 0) (index sample_model 2 0)
        0).map
      (fun r => data sample_externals r.model r.result ItemDataRole.BackgroundRole) =
      some (QVariant.brush (QBrush.bright_color ⟨0, 10, 0, 1⟩)) ∧
    (update_highlighted_rows sample_model (index sample_model 0 0) (index sample_model 2 0)
        0).map
      (fun r => data sample_externals r.model r.result ItemDataRole.ForegroundRole) =
      some (QVariant.brush QBrush.palette_WindowText) :=
  ⟨by decide, by decide, by decide, by decide⟩

/-! ### C23: Soundness of the visible sequence -/

theorem mem_visible_filter (ids : Finset Nat) (log : List Annotation) (p : Option Annotation) :
    p ∈ visible_filter ids log ↔ ∃ ann, ann ∈ log ∧ ann.class_key ∈ ids ∧ p = some ann := by
  simp only [visible_filter, List.mem_map, List.mem_filter, decide_eq_true_eq]
  constructor
  · rintro ⟨a, ⟨h1, h2⟩, rfl⟩
    exact ⟨a, h1, h2, rfl⟩
  · rintro ⟨a, h1, h2, rfl⟩
    exact ⟨a, ⟨h1, h2⟩, rfl⟩

/-- What a run of `update_visible_annotations` leaves visible: what was
visible followed by the matching records from the cursor on, or nothing. -/
theorem update_visible_annotations_cases (m : AnnotationCollectionModel) :
    (∃ log, m.all_annotations_ = some log ∧ m.output_mutex_ = true ∧ log ≠ [] ∧
      (update_visible_annotations m).visible_annotations_ =
        m.visible_annotations_ ++
          visible_filter m.visible_ann_class_ids_ (log.drop m.prev_last_row_index_)) ∨
    (update_visible_annotations m).visible_annotations_ = [] := by
  cases hlog : m.all_annotations_ with
  | none => right; exact update_visible_annotations_no_log m hlog
  | some log =>
    cases hmutex : m.output_mutex_ with
    | false =>
      right
      simp [update_visible_annotations, hlog, hmutex]
    | true =>
      by_cases hne : log = []
      · right
        subst hne
        rw [update_visible_annotations_empty_log m hlog]
      · left
        exact ⟨log, rfl, rfl, hne, update_visible_annotations_visible m log hlog hmutex hne⟩

theorem visible_sound_of_nil (m : AnnotationCollectionModel)
    (h : m.visible_annotations_ = []) : visible_sound m := by
  intro p hp
  rw [h] at hp
  cases hp

theorem visible_sound_update_visible_annotations (m : AnnotationCollectionModel)
    (h : visible_sound m) : visible_sound (update_visible_annotations m) := by
  rcases update_visible_annotations_cases m with ⟨log, hlog, -, -, hvis⟩ | hnil
  · intro p hp
    have hids := (update_visible_annotations_classes m).1
    have hall := (update_visible_annotations_classes m).2
    simp only [AnnotationCollectionModel.log, hids, hall]
    rw [hvis, List.mem_append] at hp
    rcases hp with hp | hp
    · exact h p hp
    · obtain ⟨a, ha, hk, rfl⟩ := (mem_visible_filter _ _ _).mp hp
      refine ⟨a, rfl, ?_, hk⟩
      rw [hlog]
      exact List.mem_of_mem_drop ha
  · exact visible_sound_of_nil _ hnil

theorem visible_sound_update_data (m : AnnotationCollectionModel) (h : visible_sound m) :
    visible_sound (update_data m) := by
  have h1 := visible_sound_update_visible_annotations m h
  unfold update_data
  dsimp only
  split
  · exact h1
  · exact h1

theorem visible_sound_append_to_log (m : AnnotationCollectionModel) (ann : Annotation)
    (h : visible_sound m) : visible_sound (m.append_to_log ann) := by
  intro p hp
  obtain ⟨a, rfl, ha, hk⟩ := h p hp
  refine ⟨a, rfl, ?_, hk⟩
  simp only [AnnotationCollectionModel.log, AnnotationCollectionModel.append_to_log] at ha ⊢
  cases hlog : m.all_annotations_ with
  | none => rw [hlog] at ha; simp at ha
  | some log =>
    rw [hlog] at ha
    simp only [Option.getD_some] at ha
    simp [ha]

theorem visible_sound_set_visible_classes (m : AnnotationCollectionModel) (ids : Finset Nat)
    (h : visible_sound m) : visible_sound (set_visible_classes m ids) := by
  unfold set_visible_classes
  split
  · exact h
  · exact visible_sound_update_data _ (visible_sound_of_nil _ rfl)

theorem visible_sound_set_signal_and_segment (m : AnnotationCollectionModel)
    (signal : Option DecodeSignal) (segment : Nat) :
    visible_sound (set_signal_and_segment m signal segment) := by
  cases signal with
  | none => exact visible_sound_of_nil _ rfl
  | some sig =>
    have h := visible_sound_update_data
      { m with
        all_annotations_ := sig.get_all_annotations_by_segment segment
        output_mutex_ := true
        signal_ := some sig
        prev_last_row_ := 0
        prev_last_row_index_ := 0
        visible_annotations_ := [] } (visible_sound_of_nil _ rfl)
    exact h

/-- C23 (soundness of the visible sequence). In every state reached from
construction by log appends and calls of `update_data`,
`set_visible_classes` and `set_signal_and_segment`, every entry of
`visible_annotations_` is a record, not a null slot, of the log now
assigned, and its key is in the visible-class set now in place. -/
theorem reachable_visible_sound (m : AnnotationCollectionModel) (h : Reachable m) :
    ∀ p ∈ m.visible_annotations_, ∃ ann, p = some ann ∧
      ann ∈ m.all_annotations_.getD [] ∧ ann.class_key ∈ m.visible_ann_class_ids_ := by
  have hs : visible_sound m := by
    induction h with
    | construct h => exact visible_sound_of_nil _ rfl
    | append_to_log ann _ ih => exact visible_sound_append_to_log _ ann ih
    | update_data _ ih => exact visible_sound_update_data _ ih
    | set_visible_classes ids _ ih => exact visible_sound_set_visible_classes _ ids ih
    | set_signal_and_segment signal segment _ _ =>
      exact visible_sound_set_signal_and_segment _ signal segment
  exact hs

/-- C23, at the state with the record of the one-record log visible twice
(after one more `update_data`): both entries are that record of the log. -/
theorem reachable_visible_sound_witness :
    (update_data single_model).visible_annotations_ =
      [some ⟨0, 10, 0, 1⟩, some ⟨0, 10, 0, 1⟩] ∧
    ∀ p ∈ (update_data single_model).visible_annotations_, ∃ ann, p = some ann ∧
      ann ∈ (update_data single_model).all_annotations_.getD [] ∧
      ann.class_key ∈ (update_data single_model).visible_ann_class_ids_ :=
  ⟨by decide,
    reachable_visible_sound (update_data single_model)
      (Reachable.update_data (Reachable.set_visible_classes _
        (Reachable.set_signal_and_segment _ _ (Reachable.construct 0))))⟩

/-! ### C26: Highlight scan termination -/

theorem highlight_scan_passes_invalid (m : AnnotationCollectionModel) (sample : Int)
    (last : QModelIndex) (fuel : Nat) :
    highlight_scan_passes m sample last (fuel + 1) QModelIndex.invalid = some 1 := by
  simp [highlight_scan_passes, QModelIndex.invalid]

theorem index_ne_invalid (m : AnnotationCollectionModel) (row column : Int) (h0 : 0 ≤ row)
    (h1 : row < (m.visible_annotations_.length : Int)) :
    index m row column ≠ QModelIndex.invalid := by
  have hneg : ¬ (row < 0) := by omega
  have hlt : row.toNat < m.visible_annotations_.length := by omega
  simp [index, hneg, hlt, QModelIndex.invalid]

/-- From a row of the model the scan examines at most one position more
than there are rows from that row on. -/
theorem highlight_scan_passes_le_succ (m : AnnotationCollectionModel) (sample : Int)
    (last : QModelIndex) :
    ∀ (fuel : Nat) (idx : QModelIndex), idx.model = true → 0 ≤ idx.row →
      idx.row < (m.visible_annotations_.length : Int) →
      (m.visible_annotations_.length : Int) - idx.row + 1 ≤ (fuel : Int) →
      ∃ n : Nat, highlight_scan_passes m sample last fuel idx = some n ∧
        (n : Int) ≤ (m.visible_annotations_.length : Int) - idx.row + 1 := by
  intro fuel
  induction fuel with
  | zero =>
    intro idx _ _ h2 h3
    omega
  | succ fuel ih =>
    intro idx hmodel h0 h1 hfuel
    have hne : ¬ (idx.row = idx.row + 1 ∧ idx.column = 0) := by
      intro h
      omega
    cases hp : idx.internalPointer with
    | none => exact ⟨1, by simp [highlight_scan_passes, hp], by omega⟩
    | some ann =>
      by_cases hc : covers ann sample = true
      · exact ⟨1, by simp [highlight_scan_passes, hp, hc], by omega⟩
      · by_cases hl : index m (idx.row + 1) 0 = last
        · exact ⟨1, by simp [highlight_scan_passes, hp, hc, QModelIndex.sibling, hmodel, hne, hl],
            by omega⟩
        · have hstep : highlight_scan_passes m sample last (fuel + 1) idx =
              (highlight_scan_passes m sample last fuel (index m (idx.row + 1) 0)).map
                (fun n => n + 1) := by
            simp [highlight_scan_passes, hp, hc, QModelIndex.sibling, hmodel, hne, hl]
          rw [hstep]
          rcases index_cases m (idx.row + 1) 0 with h | ⟨h1r, h2r, h3r, h4r⟩
          · rw [h]
            obtain ⟨fuel, rfl⟩ : ∃ f, fuel = f + 1 := ⟨fuel - 1, by omega⟩
            rw [highlight_scan_passes_invalid]
            exact ⟨2, rfl, by omega⟩
          · obtain ⟨n, hn, hle⟩ := ih _ h2r (by rw [h1r]; omega) (by rw [h1r]; omega)
              (by rw [h1r]; push_cast at hfuel ⊢; omega)
            rw [hn]
            refine ⟨n + 1, rfl, ?_⟩
            rw [h1r] at hle
            push_cast
            omega

/-- From a row of the model, when the position that ends the scan is the
invalid one or a row further on, the scan examines at most as many positions
as there are rows from that row on. -/
theorem highlight_scan_passes_le (m : AnnotationCollectionModel) (sample : Int)
    (last : QModelIndex) :
    ∀ (fuel : Nat) (idx : QModelIndex), idx.model = true → 0 ≤ idx.row →
      idx.row < (m.visible_annotations_.length : Int) →
      (m.visible_annotations_.length : Int) - idx.row + 1 ≤ (fuel : Int) →
      (last = QModelIndex.invalid ∨ ∃ l : Int, last = index m l 0 ∧ idx.row < l ∧
        l < (m.visible_annotations_.length : Int)) →
      ∃ n : Nat, highlight_scan_passes m sample last fuel idx = some n ∧
        (n : Int) ≤ (m.visible_annotations_.length : Int) - idx.row := by
  intro fuel
  induction fuel with
  | zero =>
    intro idx _ _ h2 h3
    omega
  | succ fuel ih =>
    intro idx hmodel h0 h1 hfuel hlast
    have hne : ¬ (idx.row = idx.row + 1 ∧ idx.column = 0) := by
      intro h
      omega
    cases hp : idx.internalPointer with
    | none => exact ⟨1, by simp [highlight_scan_passes, hp], by omega⟩
    | some ann =>
      by_cases hc : covers ann sample = true
      · exact ⟨1, by simp [highlight_scan_passes, hp, hc], by omega⟩
      · by_cases hl : index m (idx.row + 1) 0 = last
        · exact ⟨1, by simp [highlight_scan_passes, hp, hc, QModelIndex.sibling, hmodel, hne, hl],
            by omega⟩
        · have hstep : highlight_scan_passes m sample last (fuel + 1) idx =
              (highlight_scan_passes m sample last fuel (index m (idx.row + 1) 0)).map
                (fun n => n + 1) := by
            simp [highlight_scan_passes, hp, hc, QModelIndex.sibling, hmodel, hne, hl]
          rw [hstep]
          have hnext : idx.row + 1 < (m.visible_annotations_.length : Int) := by
            rcases hlast with h | ⟨l, hl1, hl2, hl3⟩
            · by_contra hge
              rcases index_cases m (idx.row + 1) 0 with hi | ⟨-, -, -, hi⟩
              · exact hl (hi.trans h.symm)
              · exact hge hi
            · omega
          have hlast1 : last = QModelIndex.invalid ∨ ∃ l : Int, last = index m l 0 ∧
              idx.row + 1 < l ∧ l < (m.visible_annotations_.length : Int) := by
            rcases hlast with h | ⟨l, hl1, hl2, hl3⟩
            · exact Or.inl h
            · right
              refine ⟨l, hl1, ?_, hl3⟩
              by_contra hle
              have hl4 : l = idx.row + 1 := by omega
              rw [hl4] at hl1
              exact hl hl1.symm
          rcases index_cases m (idx.row + 1) 0 with h | ⟨h1r, h2r, h3r, h4r⟩
          · exact absurd h (index_ne_invalid m _ 0 (by omega) hnext)
          · obtain ⟨n, hn, hle⟩ := ih _ h2r (by rw [h1r]; omega) (by rw [h1r]; omega)
              (by rw [h1r]; push_cast at hfuel ⊢; omega) (by rw [h1r]; exact hlast1)
            rw [hn]
            refine ⟨n + 1, rfl, ?_⟩
            rw [h1r] at hle
            push_cast
            omega

/-- The position that ends the scan, one past a position of the model or
past the invalid position, is the invalid position or a row from 1 on. -/
theorem sibling_after_index (m : AnnotationCollectionModel) (row column : Int) :
    QModelIndex.sibling m (index m row column) ((index m row column).row + 1) 0 =
        QModelIndex.invalid ∨
    ∃ l : Int, QModelIndex.sibling m (index m row column) ((index m row column).row + 1) 0 =
        index m l 0 ∧ 1 ≤ l ∧ l < (m.visible_annotations_.length : Int) := by
  rcases index_cases m row column with h | ⟨h1, h2, h3, h4⟩
  · left
    rw [h]
    rfl
  · have hne : ¬ ((index m row column).row = (index m row column).row + 1 ∧
        (index m row column).column = 0) := by
      intro h
      omega
    simp only [QModelIndex.sibling, h2, if_true, hne, if_false]
    rcases index_cases m ((index m row column).row + 1) 0 with h | ⟨-, -, h5, h6⟩
    · exact Or.inl h
    · exact Or.inr ⟨_, rfl, by omega, h6⟩

/-- The scan from a position of the model towards a position of the model
examines at most `rowCount()` positions, whatever the two positions are. -/
theorem highlight_scan_passes_bound (m : AnnotationCollectionModel) (sample : Int)
    (r1 c1 r2 c2 : Int) (hne : m.visible_annotations_ ≠ []) :
    ∃ n : Nat, highlight_scan_passes m sample
        (QModelIndex.sibling m (index m r2 c2) ((index m r2 c2).row + 1) 0)
        (m.visible_annotations_.length + 2) (index m r1 c1) = some n ∧
      n ≤ m.visible_annotations_.length := by
  have hlen : 0 < m.visible_annotations_.length := List.length_pos.mpr hne
  rcases index_cases m r1 c1 with h | ⟨h1, h2, h3, h4⟩
  · rw [h, highlight_scan_passes_invalid]
    exact ⟨1, rfl, hlen⟩
  · rcases sibling_after_index m r2 c2 with hl | ⟨l, hl1, hl2, hl3⟩
    · obtain ⟨n, hn, hle⟩ := highlight_scan_passes_le m sample _ (m.visible_annotations_.length + 2)
        (index m r1 c1) h2 (by rw [h1]; exact h3) (by rw [h1]; exact h4)
        (by rw [h1]; push_cast; omega) (Or.inl hl)
      exact ⟨n, hn, by rw [h1] at hle; omega⟩
    · by_cases hr : r1 < l
      · obtain ⟨n, hn, hle⟩ := highlight_scan_passes_le m sample _
          (m.visible_annotations_.length + 2) (index m r1 c1) h2 (by rw [h1]; exact h3)
          (by rw [h1]; exact h4) (by rw [h1]; push_cast; omega)
          (Or.inr ⟨l, hl1, by rw [h1]; exact hr, hl3⟩)
        exact ⟨n, hn, by rw [h1] at hle; omega⟩
      · obtain ⟨n, hn, hle⟩ := highlight_scan_passes_le_succ m sample
          (QModelIndex.sibling m (index m r2 c2) ((index m r2 c2).row + 1) 0)
          (m.visible_annotations_.length + 2) (index m r1 c1) h2 (by rw [h1]; exact h3)
          (by rw [h1]; exact h4) (by rw [h1]; push_cast; omega)
        exact ⟨n, hn, by rw [h1] at hle; omega⟩

theorem update_highlighted_rows_returns (m : AnnotationCollectionModel)
    (first last : QModelIndex) (sample : Int) :
    ∃ res, update_highlighted_rows m first last sample = some res := by
  cases hv : m.visible_annotations_ with
  | nil => exact ⟨_, by simp [update_highlighted_rows, hv]; rfl⟩
  | cons a t =>
    by_cases hs : 0 ≤ sample
    · obtain ⟨o, ho⟩ := highlight_scan_ends { m with highlight_sample_num_ := sample } sample
        first (QModelIndex.sibling { m with highlight_sample_num_ := sample } last
          (last.row + 1) 0)
      simp only [hv, List.length_cons] at ho
      cases o with
      | stale => exact ⟨_, by simp [update_highlighted_rows, hv, hs, rowCount, ho]; rfl⟩
      | found idx => exact ⟨_, by simp [update_highlighted_rows, hv, hs, rowCount, ho]; rfl⟩
      | finished => exact ⟨_, by simp [update_highlighted_rows, hv, hs, rowCount, ho]; rfl⟩
    · exact ⟨_, by simp [update_highlighted_rows, hv, hs]; rfl⟩

/-- C26 (highlight scan termination). For a visible sequence that is not
empty, every sample and every two positions of the model, given by any rows
and columns (a row outside the sequence gives the invalid position; the
first may lie after the last), the call of `update_highlighted_rows`
returns, and its `do`/`while` scan ends after examining at most `rowCount()`
positions. -/
theorem highlight_scan_terminates (m : AnnotationCollectionModel) (sample : Int)
    (r1 c1 r2 c2 : Int) (hne : m.visible_annotations_ ≠ []) :
    (∃ res, update_highlighted_rows m (index m r1 c1) (index m r2 c2) sample = some res) ∧
    (∃ o, highlight_scan { m with highlight_sample_num_ := sample } sample
        (QModelIndex.sibling { m with highlight_sample_num_ := sample } (index m r2 c2)
          ((index m r2 c2).row + 1) 0)
        (rowCount m + 2) (index m r1 c1) = some o) ∧
    (∃ n : Nat, highlight_scan_passes { m with highlight_sample_num_ := sample } sample
        (QModelIndex.sibling { m with highlight_sample_num_ := sample } (index m r2 c2)
          ((index m r2 c2).row + 1) 0)
        (rowCount m + 2) (index m r1 c1) = some n ∧ n ≤ rowCount m) :=
  ⟨update_highlighted_rows_returns m _ _ sample,
    highlight_scan_ends { m with highlight_sample_num_ := sample } sample _ _,
    highlight_scan_passes_bound { m with highlight_sample_num_ := sample } sample r1 c1 r2 c2 hne⟩

/-- C26, at the three rows (0,10), (20,30), (25,40) and sample 15, which is
in no row: from row 0 to row 2 the scan examines 3 positions; from row 1
back to row 0 it examines rows 1 and 2 and the position past the end, 3
positions; from row 0 to the invalid position it examines 3 positions. -/
theorem highlight_scan_terminates_witness :
    (∃ n : Nat, highlight_scan_passes { sample_model with highlight_sample_num_ := 15 } 15
        (QModelIndex.sibling { sample_model with highlight_sample_num_ := 15 }
          (index sample_model 0 0) ((index sample_model 0 0).row + 1) 0)
        (rowCount sample_model + 2) (index sample_model 1 0) = some n ∧
        n ≤ rowCount sample_model) ∧
    highlight_scan_passes sample_model 15 (index sample_model 3 0) 5 (index sample_model 0 0) =
      some 3 ∧
    highlight_scan_passes sample_model 15 (index sample_model 1 0) 5 (index sample_model 1 0) =
      some 3 ∧
    highlight_scan_passes sample_model 15 QModelIndex.invalid 5 (index sample_model 0 0) =
      some 3 :=
  ⟨(highlight_scan_terminates sample_model 15 1 0 0 0 (by decide)).2.2,
    by decide, by decide, by decide⟩

/-! ### C24: Sample order of the visible sequence -/

/-- Where the scan leaves the cursor: where it was when no entry matched, and
else at the last entry that matched. -/
theorem scan_loop_last_match (ids : Finset Nat) (rest : List Annotation) :
    ∀ (i : Nat) (s : ScanState),
      ((∀ a ∈ rest, a.class_key ∉ ids) ∧
        (scan_loop ids rest i s).prev_last_row_index_ = s.prev_last_row_index_) ∨
      (∃ pre x post, rest = pre ++ x :: post ∧ x.class_key ∈ ids ∧
        (∀ a ∈ post, a.class_key ∉ ids) ∧
        (scan_loop ids rest i s).prev_last_row_index_ = i + pre.length) := by
  induction rest with
  | nil =>
    intro i s
    left
    exact ⟨by simp, rfl⟩
  | cons a rest ih =>
    intro i s
    simp only [scan_loop]
    rcases ih (i + 1) (scan_body ids a i s) with ⟨hno, hcur⟩ | ⟨pre, x, post, hsplit, hx, hpost, hcur⟩
    · by_cases ha : a.class_key ∈ ids
      · right
        refine ⟨[], a, rest, rfl, ha, hno, ?_⟩
        rw [hcur, scan_body_hit_cursor ids a i s ha]
        rfl
      · left
        have hm := scan_body_miss ids a i s ha
        rw [hm] at hcur ⊢
        refine ⟨?_, hcur⟩
        intro b hb
        rcases List.mem_cons.mp hb with rfl | hb
        · exact ha
        · exact hno b hb
    · right
      refine ⟨a :: pre, x, post, by rw [hsplit]; rfl, hx, hpost, ?_⟩
      rw [hcur]
      simp only [List.length_cons]
      omega

theorem update_visible_annotations_cursor (m : AnnotationCollectionModel)
    (log : List Annotation) (hlog : m.all_annotations_ = some log)
    (hmutex : m.output_mutex_ = true) (hne : log ≠ []) :
    ((∀ a ∈ log.drop m.prev_last_row_index_, a.class_key ∉ m.visible_ann_class_ids_) ∧
      (update_visible_annotations m).prev_last_row_index_ = m.prev_last_row_index_) ∨
    (∃ pre x post, log.drop m.prev_last_row_index_ = pre ++ x :: post ∧
      x.class_key ∈ m.visible_ann_class_ids_ ∧
      (∀ a ∈ post, a.class_key ∉ m.visible_ann_class_ids_) ∧
      (update_visible_annotations m).prev_last_row_index_ =
        m.prev_last_row_index_ + pre.length) := by
  have hemp : log.isEmpty = false := by
    cases log with
    | nil => exact absurd rfl hne
    | cons a l => rfl
  simp only [update_visible_annotations, hlog, hmutex, hemp, Bool.false_eq_true, if_false]
  exact scan_loop_last_match m.visible_ann_class_ids_ (log.drop m.prev_last_row_index_)
    m.prev_last_row_index_ ⟨m.visible_annotations_, m.visible_annotations_.length,
      m.prev_last_row_index_, 0⟩

theorem order_invariant_of_nil (m : AnnotationCollectionModel) (hlog : log_ordered m.log)
    (h : m.visible_annotations_ = []) : order_invariant m := by
  refine ⟨hlog, ?_, ?_, ?_⟩
  · intro p hp
    rw [h] at hp
    cases hp
  · unfold visible_ordered
    rw [h]
    exact List.Pairwise.nil
  · intro p hp
    rw [h] at hp
    cases hp

theorem order_invariant_update_visible_annotations (m : AnnotationCollectionModel)
    (h : order_invariant m) : order_invariant (update_visible_annotations m) := by
  obtain ⟨h1, h2, h3, h4⟩ := h
  have hall := (update_visible_annotations_classes m).2
  have hlogeq : (update_visible_annotations m).log = m.log := by
    simp only [AnnotationCollectionModel.log, hall]
  rcases update_visible_annotations_cases m with ⟨log, hlog, hmutex, hne, hvis⟩ | hnil
  · have hmlog : m.log = log := by simp [AnnotationCollectionModel.log, hlog]
    rw [hmlog] at h1 h2 h4
    have hdrop : log_ordered (log.drop m.prev_last_row_index_) :=
      List.Pairwise.sublist (List.drop_sublist _ _) h1
    refine ⟨by rw [hlogeq, hmlog]; exact h1, ?_, ?_, ?_⟩
    · intro p hp
      rw [hlogeq, hmlog]
      rw [hvis, List.mem_append] at hp
      rcases hp with hp | hp
      · exact h2 p hp
      · obtain ⟨a, ha, -, rfl⟩ := (mem_visible_filter _ _ _).mp hp
        exact ⟨a, rfl, List.mem_of_mem_drop ha⟩
    · unfold visible_ordered
      rw [hvis, List.pairwise_append]
      refine ⟨h3, ?_, ?_⟩
      · unfold visible_filter
        rw [List.pairwise_map]
        refine List.Pairwise.imp ?_ (List.Pairwise.sublist (List.filter_sublist _) hdrop)
        intro a b hab a1 b1 ha hb
        cases ha
        cases hb
        exact hab
      · intro p hp q hq a b hpa hqb
        subst hqb
        obtain ⟨b1, hb1, -, hb2⟩ := (mem_visible_filter _ _ _).mp hq
        cases hb2
        exact h4 p hp a hpa b hb1
    · intro p hp a hpa b hb
      rw [hlogeq, hmlog] at hb
      rw [hvis, List.mem_append] at hp
      rcases update_visible_annotations_cursor m log hlog hmutex hne with
        ⟨hno, hcur⟩ | ⟨pre, x, post, hsplit, -, hpostno, hcur⟩
      · rw [hcur] at hb
        rcases hp with hp | hp
        · exact h4 p hp a hpa b hb
        · obtain ⟨a1, ha1, hk, -⟩ := (mem_visible_filter _ _ _).mp hp
          exact absurd hk (hno a1 ha1)
      · have hb2 : b ∈ x :: post := by
          rw [hcur, ← List.drop_drop, hsplit] at hb
          simpa using hb
        have hpw : log_ordered (pre ++ x :: post) := by
          rw [← hsplit]
          exact hdrop
        unfold log_ordered at hpw
        rw [List.pairwise_append, List.pairwise_cons] at hpw
        obtain ⟨-, ⟨hxpost, -⟩, hprepost⟩ := hpw
        rcases hp with hp | hp
        · apply h4 p hp a hpa b
          rw [hsplit]
          exact List.mem_append_right _ hb2
        · obtain ⟨a1, ha1, hk, ha2⟩ := (mem_visible_filter _ _ _).mp hp
          have ha3 : a1 = a := by
            rw [hpa] at ha2
            injection ha2 with h
            first
              | exact h
              | exact h.symm
          rw [ha3] at ha1 hk
          rw [hsplit, List.mem_append] at ha1
          rcases ha1 with ha1 | ha1
          · exact hprepost a ha1 b hb2
          · rcases List.mem_cons.mp ha1 with hax | ha1
            · rcases List.mem_cons.mp hb2 with hbx | hb3
              · rw [hax, hbx]
              · rw [hax]
                exact hxpost b hb3
            · exact absurd hk (hpostno a ha1)
  · exact order_invariant_of_nil _ (by rw [hlogeq]; exact h1) hnil

theorem order_invariant_update_data (m : AnnotationCollectionModel)
    (h : order_invariant m) : order_invariant (update_data m) := by
  have h1 := order_invariant_update_visible_annotations m h
  unfold update_data
  dsimp only
  split
  · exact h1
  · exact h1

theorem order_invariant_append_to_log (m : AnnotationCollectionModel) (ann : Annotation)
    (h : order_invariant m) (hord : log_ordered (m.append_to_log ann).log) :
    order_invariant (m.append_to_log ann) := by
  obtain ⟨-, h2, h3, h4⟩ := h
  cases hlog : m.all_annotations_ with
  | none =>
    have hl : m.log = [] := by simp [AnnotationCollectionModel.log, hlog]
    have hl2 : (m.append_to_log ann).log = [] := by
      simp [AnnotationCollectionModel.log, AnnotationCollectionModel.append_to_log, hlog]
    refine ⟨hord, ?_, h3, ?_⟩
    · intro p hp
      obtain ⟨a, -, ha⟩ := h2 p hp
      rw [hl] at ha
      cases ha
    · intro p hp
      obtain ⟨a, -, ha⟩ := h2 p hp
      rw [hl] at ha
      cases ha
  | some log =>
    have hl : m.log = log := by simp [AnnotationCollectionModel.log, hlog]
    have hl2 : (m.append_to_log ann).log = log ++ [ann] := by
      simp [AnnotationCollectionModel.log, AnnotationCollectionModel.append_to_log, hlog]
    rw [hl] at h2 h4
    refine ⟨hord, ?_, h3, ?_⟩
    · intro p hp
      obtain ⟨a, hpa, ha⟩ := h2 p hp
      refine ⟨a, hpa, ?_⟩
      rw [hl2]
      exact List.mem_append_left _ ha
    · intro p hp a hpa b hb
      rw [hl2] at hb hord
      have hcur : (m.append_to_log ann).prev_last_row_index_ = m.prev_last_row_index_ := rfl
      rw [hcur, List.drop_append_eq_append_drop, List.mem_append] at hb
      rcases hb with hb | hb
      · exact h4 p hp a hpa b hb
      · have hb2 : b = ann := by
          have := List.mem_of_mem_drop hb
          simpa using this
        obtain ⟨a1, ha1, hmem⟩ := h2 p hp
        have ha2 : a1 = a := by
          rw [hpa] at ha1
          injection ha1 with h
          first
            | exact h
            | exact h.symm
        rw [ha2] at hmem
        have hord2 := (List.pairwise_append.mp hord).2.2
        rw [hb2]
        exact hord2 a hmem ann (List.mem_singleton.mpr rfl)

theorem order_invariant_set_visible_classes (m : AnnotationCollectionModel) (ids : Finset Nat)
    (h : order_invariant m) : order_invariant (set_visible_classes m ids) := by
  unfold set_visible_classes
  split
  · exact h
  · exact order_invariant_update_data _ (order_invariant_of_nil _ h.1 rfl)

theorem order_invariant_set_signal_and_segment (m : AnnotationCollectionModel)
    (signal : Option DecodeSignal) (segment : Nat)
    (hord : log_ordered (set_signal_and_segment m signal segment).log) :
    order_invariant (set_signal_and_segment m signal segment) := by
  cases signal with
  | none => exact order_invariant_of_nil _ hord rfl
  | some sig =>
    have hreset : log_ordered ((sig.get_all_annotations_by_segment segment).getD []) := by
      have e : (set_signal_and_segment m (some sig) segment).log =
          (sig.get_all_annotations_by_segment segment).getD [] := by
        simp only [set_signal_and_segment, AnnotationCollectionModel.log]
        rw [(update_data_classes _).2]
      rw [e] at hord
      exact hord
    have h := order_invariant_update_data
      { m with
        all_annotations_ := sig.get_all_annotations_by_segment segment
        output_mutex_ := true
        signal_ := some sig
        prev_last_row_ := 0
        prev_last_row_index_ := 0
        visible_annotations_ := [] } (order_invariant_of_nil _ hreset rfl)
    exact h

theorem ordered_run_invariant (m : AnnotationCollectionModel) (h : OrderedRun m) :
    order_invariant m := by
  induction h with
  | construct h => exact order_invariant_of_nil _ List.Pairwise.nil rfl
  | append_to_log ann _ hord ih => exact order_invariant_append_to_log _ ann ih hord
  | update_data _ ih => exact order_invariant_update_data _ ih
  | set_visible_classes ids _ ih => exact order_invariant_set_visible_classes _ ids ih
  | set_signal_and_segment signal segment _ hord _ =>
    exact order_invariant_set_signal_and_segment _ signal segment hord

/-- C24 (sample order of the visible sequence). In every state reached from
construction by log appends and calls of `update_data`,
`set_visible_classes` and `set_signal_and_segment`, where every log assigned
is in non-decreasing `start_sample` order and every append keeps the log so,
the entries of `visible_annotations_` are records, not null slots, and they
stand in non-decreasing `start_sample` order: of two entries the earlier
one never starts after the later one. -/
theorem ordered_run_visible_ordered (m : AnnotationCollectionModel) (h : OrderedRun m) :
    (∀ p ∈ m.visible_annotations_, p ≠ none) ∧
    List.Pairwise
      (fun p q => ∀ a b, p = some a → q = some b → a.start_sample ≤ b.start_sample)
      m.visible_annotations_ := by
  obtain ⟨-, h2, h3, -⟩ := ordered_run_invariant m h
  refine ⟨?_, h3⟩
  intro p hp
  obtain ⟨a, rfl, -⟩ := h2 p hp
  exact Option.some_ne_none a

/-- C24, at the state after selection of the sample signal and both classes,
an `update_data`, the append of a later record and one more `update_data`:
the record (25,40) stands three times in the visible sequence, which is in
non-decreasing start order all the same. -/
theorem ordered_run_visible_ordered_witness :
    (update_data ((update_data sample_model).append_to_log sample_late)).visible_annotations_ =
      [some ⟨0, 10, 0, 1⟩, some ⟨20, 30, 0, 1⟩, some ⟨25, 40, 0, 2⟩, some ⟨25, 40, 0, 2⟩,
        some ⟨25, 40, 0, 2⟩, some ⟨50, 60, 0, 1⟩] ∧
    (∀ p ∈ (update_data ((update_data sample_model).append_to_log
        sample_late)).visible_annotations_, p ≠ none) ∧
    List.Pairwise
      (fun p q => ∀ a b, p = some a → q = some b → a.start_sample ≤ b.start_sample)
      (update_data ((update_data sample_model).append_to_log sample_late)).visible_annotations_ :=
  ⟨by decide,
    ordered_run_visible_ordered
      (update_data ((update_data sample_model).append_to_log sample_late))
      (OrderedRun.update_data (OrderedRun.append_to_log sample_late
        (OrderedRun.update_data (OrderedRun.set_visible_classes _
          (OrderedRun.set_signal_and_segment _ _ (OrderedRun.construct 0) (by decide))))
        (by decide)))⟩

/-! ### C21: Log access under lock -/

theorem reads_locked_scan_events (rest : List Annotation) :
    ∀ (i : Nat) (tail : List LogEvent),
      reads_locked true (scan_events rest i ++ tail) = reads_locked true tail := by
  induction rest with
  | nil =>
    intro i tail
    simp [scan_events, reads_locked]
  | cons a rest ih =>
    intro i tail
    simp [scan_events, reads_locked, ih]

/-- The indexer scan reads the log under the lock only, in every state. -/
theorem update_visible_annotations_events_locked (m : AnnotationCollectionModel) :
    reads_locked false (update_visible_annotations_events m) = true := by
  unfold update_visible_annotations_events
  split
  · split
    · rfl
    · simp [reads_locked, reads_locked_scan_events]
  · rfl

/-- So do `update_data` and `set_visible_classes`, in every state. -/
theorem set_visible_classes_events_locked (m : AnnotationCollectionModel) (ids : Finset Nat) :
    reads_locked false (update_data_events m) = true ∧
    reads_locked false (set_visible_classes_events m ids) = true := by
  refine ⟨update_visible_annotations_events_locked m, ?_⟩
  unfold set_visible_classes_events
  split
  · rfl
  · exact update_visible_annotations_events_locked _

/-- C21 (log access under lock), evaluated at the selection of the sample
signal in a freshly constructed model: `set_signal_and_segment` reads the size
of the log before any lock is taken, so its accesses are not all under the
lock; the scan that follows takes the lock, reads `empty()`, the size and the
entries 0, 1, 2 and releases it. -/
theorem set_signal_and_segment_reads_size_unlocked :
    set_signal_and_segment_events (AnnotationCollectionModel.construct 0)
        (some sample_signal) 0 =
      [LogEvent.read_size, LogEvent.lock, LogEvent.read_empty,
        LogEvent.read_size, LogEvent.read_entry 0, LogEvent.read_size, LogEvent.read_entry 1,
        LogEvent.read_size, LogEvent.read_entry 2, LogEvent.read_size, LogEvent.unlock] ∧
    reads_locked false (set_signal_and_segment_events (AnnotationCollectionModel.construct 0)
        (some sample_signal) 0) = false ∧
    reads_locked false (update_data_events
      (set_signal_and_segment (AnnotationCollectionModel.construct 0)
        (some sample_signal) 0)) = true :=
  ⟨by decide, by decide, by decide⟩

end pv.views.tabular_decoder
